import Mathlib

/-! # MCTF decorrelation core (`decorrelate.cpp`)

A shallow embedding of the motion-compensated prediction step `predict()` and of the
body of the frame-pair loop of `main()`, in both build modes (ANALYZE and SYNTHESIZE).

Conventions of the embedding.

* Working samples (`TC_CPU_TYPE`, a 16-bit `short`) are integers.  Every store the model
  performs keeps a value that fits in 16 bits whenever its operands do (an average of two
  samples, a clipped value, a byte plus or minus 128), so no wrap-around is modelled.
* A plane is a total function of its row and column; a loop that assigns every cell of a
  rectangle from values it does not itself overwrite is written as the pointwise update of
  that rectangle.
* The scatter loops of `predict()` are kept as an explicit list of assignments in execution
  order and are run by a left fold.
* The wavelet transform (`dwt2d.cpp`, `5_3.cpp`) and the entropy routine (`entropy.h`) are
  not part of the sources at hand and are parameters of the model.
-/

namespace Decorrelate

/-! ## Planes, pictures, motion fields -/

/-- A plane of working samples, indexed `[y][x]`. -/
abbrev Plane := Int → Int → Int

/-- A picture: one plane per component `c` (0 = Y, 1 = Cb, 2 = Cr). -/
abbrev Picture := Nat → Plane

/-- The two prediction directions that index `mv` and `reference_picture`. -/
inductive Dir where
  | PREV
  | NEXT
deriving DecidableEq, Repr

/-- The two fields of a motion vector. -/
inductive Axis where
  | Y_FIELD
  | X_FIELD
deriving DecidableEq, Repr

/-- A motion field, indexed `mv[dir][axis][by][bx]`. -/
abbrev MotionField := Dir → Axis → Int → Int → Int

/-- The 2D wavelet operator, a black box: `analyze(plane, y, x, levels)` and
`synthesize(plane, y, x, levels)`, each returning the transformed plane. -/
structure Dwt2d where
  analyze : Plane → Int → Int → Int → Plane
  synthesize : Plane → Int → Int → Int → Plane

/-- The values taken by the control variable of `for(int v=lo; v<hi; v++)`. -/
def intRange (lo hi : Int) : List Int :=
  List.map (fun k : Nat => lo + (k : Int)) (List.range (hi - lo).toNat)

/-- The assignment `plane[y][x] = v`. -/
def Plane.set (p : Plane) (y x v : Int) : Plane :=
  fun y' x' => if y' = y ∧ x' = x then v else p y' x'

/-- Replace component `c` of a picture. -/
def Picture.setPlane (pic : Picture) (c : Nat) (p : Plane) : Picture :=
  fun c' => if c' = c then p else pic c'

/-! ## `predict()` -/

/-- The number of wavelet levels of `predict()`:
`levels = 0; if(block_overlaping>0) levels = (int)rint(log((double)block_overlaping)/log(2.0));`.
The nearest integer to `log2 n` is the `k` with `2^(2k-1) <= n^2 < 2^(2k+1)`, that is
`(floor(log2(n^2)) + 1) / 2`; no tie occurs because `n^2` is never an odd power of two.
The floating-point evaluation is taken to be exact to that rounding. -/
def predictLevels (block_overlaping : Int) : Nat :=
  if block_overlaping > 0 then (Nat.log 2 (block_overlaping.toNat ^ 2) + 1) / 2 else 0

/-- The statement executed by one scatter assignment: which subband tile is copied. -/
inductive Subband where
  | LL
  | LH
  | HL
  | HH
deriving DecidableEq, Repr

/-- One executed assignment of the scatter loops of `predict()`: the values of the loop
variables `c`, `by`, `bx`, `l`, `y`, `x` and the subband statement.  For the `LL` copy, which
follows the `l` loop, `l` holds `levels`. -/
structure ScatterIter where
  c : Nat
  by_ : Int
  bx : Int
  l : Nat
  band : Subband
  y : Int
  x : Int
deriving DecidableEq, Repr

/-- Row and column of `prediction_picture[c]` written by a scatter assignment
(`bs = block_size>>l`). -/
def ScatterIter.dst (block_size pixels_in_y pixels_in_x : Int) (it : ScatterIter) : Int × Int :=
  let bs := block_size >>> it.l
  match it.band with
  | Subband.LL => (it.by_ * bs + it.y, it.bx * bs + it.x)
  | Subband.LH => (it.by_ * bs + it.y, (pixels_in_x >>> it.l) + it.bx * bs + it.x)
  | Subband.HL => ((pixels_in_y >>> it.l) + it.by_ * bs + it.y, it.bx * bs + it.x)
  | Subband.HH => ((pixels_in_y >>> it.l) + it.by_ * bs + it.y,
                   (pixels_in_x >>> it.l) + it.bx * bs + it.x)

/-- Row and column of `prediction_block` read by a scatter assignment. -/
def ScatterIter.src (block_size dwt_border : Int) (it : ScatterIter) : Int × Int :=
  match it.band with
  | Subband.LL => ((dwt_border >>> it.l) + it.y, (dwt_border >>> it.l) + it.x)
  | Subband.LH => ((dwt_border >>> it.l) + it.y, ((block_size + dwt_border * 3) >>> it.l) + it.x)
  | Subband.HL => (((block_size + dwt_border * 3) >>> it.l) + it.y, (dwt_border >>> it.l) + it.x)
  | Subband.HH => (((block_size + dwt_border * 3) >>> it.l) + it.y,
                   ((block_size + dwt_border * 3) >>> it.l) + it.x)

/-- The high-frequency scatter loops of one block:
`for(l=1; l<=levels; l++) { bs = block_size>>l; for(y<bs) for(x<bs) { LH; HL; HH } }`. -/
def scatterHigh (block_size : Int) (levels : Nat) (c : Nat) (by_ bx : Int) : List ScatterIter :=
  (List.range' 1 levels).flatMap fun l =>
    (intRange 0 (block_size >>> l)).flatMap fun y =>
      (intRange 0 (block_size >>> l)).flatMap fun x =>
        [⟨c, by_, bx, l, Subband.LH, y, x⟩,
         ⟨c, by_, bx, l, Subband.HL, y, x⟩,
         ⟨c, by_, bx, l, Subband.HH, y, x⟩]

/-- The low-frequency scatter loop of one block:
`bs = block_size>>levels; for(y<bs) for(x<bs) LL`. -/
def scatterLow (block_size : Int) (levels : Nat) (c : Nat) (by_ bx : Int) : List ScatterIter :=
  (intRange 0 (block_size >>> levels)).flatMap fun y =>
    (intRange 0 (block_size >>> levels)).map fun x =>
      ⟨c, by_, bx, levels, Subband.LL, y, x⟩

/-- All scatter assignments of one block, in execution order. -/
def scatterBlock (block_size : Int) (levels : Nat) (c : Nat) (by_ bx : Int) : List ScatterIter :=
  scatterHigh block_size levels c by_ bx ++ scatterLow block_size levels c by_ bx

/-- All scatter assignments of one call of `predict()`, in execution order:
`for(c<components) for(by<blocks_in_y) for(bx<blocks_in_x) { ... }`. -/
def predictScatter (block_overlaping block_size blocks_in_y blocks_in_x : Int)
    (components : Nat) : List ScatterIter :=
  (List.range components).flatMap fun c =>
    (intRange 0 blocks_in_y).flatMap fun by_ =>
      (intRange 0 blocks_in_x).flatMap fun bx =>
        scatterBlock block_size (predictLevels block_overlaping) c by_ bx

/-- The coordinates `(c, y, x)` of `prediction_picture` written by one call of `predict()`,
in execution order. -/
def predictWrites (block_overlaping block_size blocks_in_y blocks_in_x : Int)
    (components : Nat) (pixels_in_y pixels_in_x : Int) : List (Nat × Int × Int) :=
  (predictScatter block_overlaping block_size blocks_in_y blocks_in_x components).map fun it =>
    (it.c, it.dst block_size pixels_in_y pixels_in_x)

/-- The "each block is copied" loops: the enlarged block is the truncating average of the
two motion-displaced references,
`prediction_block[y+dwt_border][x+dwt_border] = (ref[PREV][c][mvy0+y][mvx0+x] + ref[NEXT][c][mvy1+y][mvx1+x])/2`
for `-dwt_border <= y, x < block_size+dwt_border`. -/
def fillBlock (block_size dwt_border : Int) (refPrev refNext : Plane)
    (mvy0 mvy1 mvx0 mvx1 : Int) (prediction_block : Plane) : Plane :=
  fun i j =>
    if 0 ≤ i ∧ i < block_size + 2 * dwt_border ∧ 0 ≤ j ∧ j < block_size + 2 * dwt_border then
      Int.tdiv (refPrev (mvy0 + (i - dwt_border)) (mvx0 + (j - dwt_border))
                + refNext (mvy1 + (i - dwt_border)) (mvx1 + (j - dwt_border))) 2
    else prediction_block i j

/-- Run a list of scatter assignments: `prediction_picture[c][dst] = prediction_block[src]`. -/
def applyScatter (block_size dwt_border pixels_in_y pixels_in_x : Int)
    (prediction_block : Plane) (plane : Plane) (its : List ScatterIter) : Plane :=
  its.foldl
    (fun p it =>
      Plane.set p (it.dst block_size pixels_in_y pixels_in_x).1
        (it.dst block_size pixels_in_y pixels_in_x).2
        (prediction_block (it.src block_size dwt_border).1 (it.src block_size dwt_border).2))
    plane

/-- The body of the block loops of `predict()` for block `(by, bx)` of component `c`: fill the
enlarged block, transform it, scatter its subbands.  The state is the scratch block and the
plane `prediction_picture[c]`. -/
def predictBlock (block_overlaping block_size pixels_in_y pixels_in_x : Int)
    (mv : MotionField) (overlap_dwt : Dwt2d) (reference_picture : Dir → Picture)
    (c : Nat) (st : Plane × Plane) (b : Int × Int) : Plane × Plane :=
  let dwt_border := block_overlaping
  let levels := predictLevels block_overlaping
  let mvy0 := mv Dir.PREV Axis.Y_FIELD b.1 b.2 + b.1 * block_size
  let mvy1 := mv Dir.NEXT Axis.Y_FIELD b.1 b.2 + b.1 * block_size
  let mvx0 := mv Dir.PREV Axis.X_FIELD b.1 b.2 + b.2 * block_size
  let mvx1 := mv Dir.NEXT Axis.X_FIELD b.1 b.2 + b.2 * block_size
  let filled := fillBlock block_size dwt_border (reference_picture Dir.PREV c)
    (reference_picture Dir.NEXT c) mvy0 mvy1 mvx0 mvx1 st.1
  let transformed := overlap_dwt.analyze filled (block_size + dwt_border * 2)
    (block_size + dwt_border * 2) levels
  (transformed,
   applyScatter block_size dwt_border pixels_in_y pixels_in_x transformed st.2
     (scatterBlock block_size levels c b.1 b.2))

/-- The blocks `(by, bx)` in the order of `for(by<blocks_in_y) for(bx<blocks_in_x)`. -/
def blockOrder (blocks_in_y blocks_in_x : Int) : List (Int × Int) :=
  (intRange 0 blocks_in_y).flatMap fun by_ => (intRange 0 blocks_in_x).map fun bx => (by_, bx)

/-- One iteration of the component loop of `predict()`: all blocks, then
`overlap_dwt->synthesize(prediction_picture[c], pixels_in_y, pixels_in_x, levels)`. -/
def predictComponent (block_overlaping block_size blocks_in_y blocks_in_x : Int)
    (pixels_in_y pixels_in_x : Int) (mv : MotionField) (overlap_dwt : Dwt2d)
    (reference_picture : Dir → Picture) (st : Plane × Picture) (c : Nat) : Plane × Picture :=
  let r := (blockOrder blocks_in_y blocks_in_x).foldl
    (predictBlock block_overlaping block_size pixels_in_y pixels_in_x mv overlap_dwt
      reference_picture c) (st.1, st.2 c)
  (r.1, st.2.setPlane c
    (overlap_dwt.synthesize r.2 pixels_in_y pixels_in_x (predictLevels block_overlaping)))

/-- The function `predict()` (the clipping under `_1_` is not compiled in).  Returns the
scratch block and the prediction picture. -/
def predict (block_overlaping block_size blocks_in_y blocks_in_x : Int) (components : Nat)
    (pixels_in_y pixels_in_x : Int) (mv : MotionField) (overlap_dwt : Dwt2d)
    (prediction_block : Plane) (prediction_picture : Picture)
    (reference_picture : Dir → Picture) : Plane × Picture :=
  (List.range components).foldl
    (predictComponent block_overlaping block_size blocks_in_y blocks_in_x pixels_in_y
      pixels_in_x mv overlap_dwt reference_picture)
    (prediction_block, prediction_picture)

/-- The loop variables of a scatter assignment are in the ranges of the loops of `predict()`
called with `levels` levels on `blocks_in_y * blocks_in_x` blocks. -/
def ScatterIter.InLoops (block_size blocks_in_y blocks_in_x : Int) (levels : Nat)
    (it : ScatterIter) : Prop :=
  0 ≤ it.by_ ∧ it.by_ < blocks_in_y ∧ 0 ≤ it.bx ∧ it.bx < blocks_in_x ∧
  ((it.band = Subband.LL ∧ it.l = levels) ∨ (it.band ≠ Subband.LL ∧ 1 ≤ it.l ∧ it.l ≤ levels)) ∧
  0 ≤ it.y ∧ it.y < block_size >>> it.l ∧ 0 ≤ it.x ∧ it.x < block_size >>> it.l


/-! ## The body of the frame-pair loop of `main()` -/

/-- The constant `COMPONENTS`. -/
def COMPONENTS : Nat := 3

/-- The left shift `v << s` of an `int`. -/
def shl (v : Int) (s : Nat) : Int := v * 2 ^ s

/-- The run parameters after the command line has been read.  `pixels_in_y0` and
`pixels_in_x0` are `pixels_in_y[0]` and `pixels_in_x[0]`. -/
structure Config where
  block_overlaping : Int
  block_size : Int
  pictures : Int
  pixels_in_x0 : Int
  pixels_in_y0 : Int
  search_range : Int
  subpixel_accuracy : Nat
  always_B : Int

/-- The array `pixels_in_y[c]`: `{y, y/2, y/2}`. -/
def Config.pixels_in_y (cfg : Config) (c : Nat) : Int :=
  if c = 0 then cfg.pixels_in_y0 else Int.tdiv cfg.pixels_in_y0 2

/-- The array `pixels_in_x[c]`: `{x, x/2, x/2}`. -/
def Config.pixels_in_x (cfg : Config) (c : Nat) : Int :=
  if c = 0 then cfg.pixels_in_x0 else Int.tdiv cfg.pixels_in_x0 2

/-- `int blocks_in_y = pixels_in_y[0]/block_size;`. -/
def Config.blocks_in_y (cfg : Config) : Int := Int.tdiv cfg.pixels_in_y0 cfg.block_size

/-- `int blocks_in_x = pixels_in_x[0]/block_size;`. -/
def Config.blocks_in_x (cfg : Config) : Int := Int.tdiv cfg.pixels_in_x0 cfg.block_size

/-- `int picture_border_size = 4*search_range + block_overlaping;`. -/
def Config.picture_border_size (cfg : Config) : Int :=
  4 * cfg.search_range + cfg.block_overlaping

/-- Membership of `(y, x)` in the rectangle covered by `for(y<h) for(x<w)`. -/
def inRect (h w y x : Int) : Prop := 0 ≤ y ∧ y < h ∧ 0 ≤ x ∧ x < w

instance (h w y x : Int) : Decidable (inRect h w y x) := by
  unfold inRect
  infer_instance

/-- Modelled from the spec: `image.read(fd, img, y_dim, x_dim)` of `texture.cpp`, which is not
among the sources.  It reads one plane of `y_dim` rows of `x_dim` unsigned 8-bit samples into
the top-left corner of `img`; `file` holds the bytes of that plane. -/
def texture_read (file img : Plane) (y_dim x_dim : Int) : Plane :=
  fun y x => if inRect y_dim x_dim y x then file y x else img y x

/-- Modelled from the spec: `image.fill_border(img, y_dim, x_dim, border)` of `texture.cpp`,
which is not among the sources.  Every sample of the halo of width `border` takes the value of
the nearest sample of the picture (corners from the corner sample); the picture itself is left
as it is. -/
def fill_border (img : Plane) (y_dim x_dim border : Int) : Plane :=
  fun y x =>
    if inRect (y_dim + 2 * border) (x_dim + 2 * border) (y + border) (x + border) then
      img (max 0 (min y (y_dim - 1))) (max 0 (min x (x_dim - 1)))
    else img y x

/-- The two `memset` loops that precede a one-level synthesis: in the rows `[0, h/2)` the
`n` samples from column `w/2` on are zeroed, and the rows `[h/2, h)` are zeroed over their `w`
columns. -/
def zeroQuadrants (h w n : Int) (img : Plane) : Plane :=
  fun y x =>
    if (0 ≤ y ∧ y < Int.tdiv h 2 ∧ Int.tdiv w 2 ≤ x ∧ x < Int.tdiv w 2 + n) ∨
        (Int.tdiv h 2 ≤ y ∧ y < h ∧ 0 ≤ x ∧ x < w) then 0
    else img y x

/-- Clearing the first byte of a two-byte sample.  The samples are `short` and the target is
little-endian, so the first byte is the low-order one and `v` becomes `v & 0xFF00`. -/
def clearLowByte (v : Int) : Int := v - v % 256

/-- The two `memset` loops that precede the chroma synthesis.  In the rows `[0, h/2)` the first
`memset` clears `(w*sizeof(TC_CPU_TYPE))/2` bytes from column `w/2` on: the whole two-byte
samples these bytes cover and, when their number is odd, the first byte of the sample that
follows.  The rows `[h/2, h)` are zeroed over their `w` columns. -/
def zeroChromaQuadrants (h w : Int) (img : Plane) : Plane :=
  fun y x =>
    if (0 ≤ y ∧ y < Int.tdiv h 2 ∧ Int.tdiv w 2 ≤ x ∧
          x < Int.tdiv w 2 + Int.tdiv (Int.tdiv (w * 2) 2) 2) ∨
        (Int.tdiv h 2 ≤ y ∧ y < h ∧ 0 ≤ x ∧ x < w) then 0
    else if 0 ≤ y ∧ y < Int.tdiv h 2 ∧ x = Int.tdiv w 2 + Int.tdiv (Int.tdiv (w * 2) 2) 2 ∧
        Int.tmod (Int.tdiv (w * 2) 2) 2 = 1 then clearLowByte (img y x)
    else img y x

/-- Chroma interpolation of a reference plane: the `memset` loops and
`image_dwt->synthesize(reference[i][c], pixels_in_y[0], pixels_in_x[0], 1)`. -/
def expandChroma (image_dwt : Dwt2d) (cfg : Config) (img : Plane) : Plane :=
  image_dwt.synthesize (zeroChromaQuadrants cfg.pixels_in_y0 cfg.pixels_in_x0 img)
    cfg.pixels_in_y0 cfg.pixels_in_x0 1

/-- The sub-pixel interpolation loop `for(s=1; s<=subpixel_accuracy; s++)`: zero the three
other quadrants of the `(y<<s) x (x<<s)` canvas, then synthesize one level. -/
def interpolate (image_dwt : Dwt2d) (cfg : Config) (img : Plane) : Plane :=
  (List.range' 1 cfg.subpixel_accuracy).foldl
    (fun p s =>
      image_dwt.synthesize
        (zeroQuadrants (shl cfg.pixels_in_y0 s) (shl cfg.pixels_in_x0 s)
          (Int.tdiv (shl cfg.pixels_in_x0 s) 2) p)
        (shl cfg.pixels_in_y0 s) (shl cfg.pixels_in_x0 s) 1)
    img

/-- Reading an even picture into a reference buffer: read the three components at their own
size, interpolate the chroma to the luma size, interpolate to sub-pixel accuracy, fill the
borders.  `even` holds the bytes of the picture, `reference` the previous content of the
buffer. -/
def readReference (image_dwt : Dwt2d) (cfg : Config) (even reference : Picture) : Picture :=
  fun c =>
    if c < COMPONENTS then
      let r := texture_read (even c) (reference c) (cfg.pixels_in_y c) (cfg.pixels_in_x c)
      let r := if c = 0 then r else expandChroma image_dwt cfg r
      fill_border (interpolate image_dwt cfg r)
        (shl cfg.pixels_in_y0 cfg.subpixel_accuracy)
        (shl cfg.pixels_in_x0 cfg.subpixel_accuracy)
        (shl cfg.picture_border_size cfg.subpixel_accuracy)
    else reference c

/-- The clip `if(val < 0) val = 0; else if(val > 255) val = 255;`. -/
def clip255 (val : Int) : Int :=
  if val < 0 then 0 else if val > 255 then 255 else val

/-- The clip `if(val < -128) val = -128; else if(val > 127) val = 127;`. -/
def clip128 (val : Int) : Int :=
  if val < -128 then -128 else if val > 127 then 127 else val

/-- The prediction of the odd picture: `predict()` at sub-pixel resolution, the clip of the
prediction to `[0,255]`, `subpixel_accuracy` levels of analysis on every component and one more
level on the two chroma components.  `reference Dir.PREV` is `reference[0]` and
`reference Dir.NEXT` is `reference[1]`.  Returns the scratch block and `prediction`. -/
def predictionStep (image_dwt : Dwt2d) (cfg : Config) (mv : MotionField)
    (prediction_block : Plane) (prediction : Picture) (reference : Dir → Picture) :
    Plane × Picture :=
  let s := cfg.subpixel_accuracy
  let r := predict (shl cfg.block_overlaping s) (shl cfg.block_size s) cfg.blocks_in_y
    cfg.blocks_in_x COMPONENTS (shl cfg.pixels_in_y0 s) (shl cfg.pixels_in_x0 s) mv image_dwt
    prediction_block prediction reference
  let clipped : Picture := fun c y x =>
    if c < COMPONENTS ∧ inRect (shl cfg.pixels_in_y0 s) (shl cfg.pixels_in_x0 s) y x then
      clip255 (r.2 c y x)
    else r.2 c y x
  let subsampled : Picture := fun c =>
    if c < COMPONENTS then
      image_dwt.analyze (clipped c) (shl cfg.pixels_in_y0 s) (shl cfg.pixels_in_x0 s) s
    else clipped c
  (r.1, fun c =>
    if c = 1 ∨ c = 2 then
      image_dwt.analyze (subsampled c) cfg.pixels_in_y0 cfg.pixels_in_x0 1
    else subsampled c)

/-- ANALYZE, "the residue image is generated":
`val = predicted[c][y][x] - prediction[c][y][x]`, clipped to `[-128,127]`. -/
def residueStep (cfg : Config) (predicted prediction residue : Picture) : Picture :=
  fun c y x =>
    if c < COMPONENTS ∧ inRect (cfg.pixels_in_y c) (cfg.pixels_in_x c) y x then
      clip128 (predicted c y x - prediction c y x)
    else residue c y x

/-! ### Entropies and the frame-type decision (ANALYZE) -/

/-- The floating-point services of the decision.  `toFloat r` is the `float` nearest to the
exact value `r` (the rounding applied by a conversion `(float)n` and by each `float` product);
`binary32` below instantiates it with the rounding of an IEEE 754 single-precision number.
`entropy count 256` is the value returned by `entropy(count, 256)` of `entropy.h`, which the
embedding does not compute.  A `float` is a rational number; infinities and NaN are left
out. -/
structure FloatModel where
  toFloat : ℚ → ℚ
  entropy : (Int → Int) → Int → ℚ

/-- The histogram built by `count[i] = 0` for all `i` followed by `count[s]++` for every
symbol `s` of the list. -/
def histogram (symbols : List Int) : Int → Int :=
  fun i => (symbols.count i : Int)

/-- The symbols counted for the motion entropy, in loop order:
`mv[PREV][Y_FIELD][y][x] + 128`, `mv[PREV][X_FIELD][y][x] + 128`,
`mv[NEXT][Y_FIELD][y][x] + 128`, `mv[NEXT][X_FIELD][y][x] + 128`. -/
def motionSymbols (blocks_in_y blocks_in_x : Int) (mv : MotionField) : List Int :=
  (intRange 0 blocks_in_y).flatMap fun y =>
    (intRange 0 blocks_in_x).flatMap fun x =>
      [mv Dir.PREV Axis.Y_FIELD y x + 128, mv Dir.PREV Axis.X_FIELD y x + 128,
       mv Dir.NEXT Axis.Y_FIELD y x + 128, mv Dir.NEXT Axis.X_FIELD y x + 128]

/-- The symbols of a luma plane, in loop order, each shifted by `offset`. -/
def planeSymbols (h w offset : Int) (img : Plane) : List Int :=
  (intRange 0 h).flatMap fun y => (intRange 0 w).map fun x => img y x + offset

/-- `float motion_entropy = 0.0;` and, unless `always_B`, the entropy of the motion field. -/
def motion_entropy (fm : FloatModel) (cfg : Config) (mv : MotionField) : ℚ :=
  if cfg.always_B = 0 then
    fm.entropy (histogram (motionSymbols cfg.blocks_in_y cfg.blocks_in_x mv)) 256
  else 0

/-- `predicted_entropy = 1.0` and, unless `always_B`, the entropy of the luma of the predicted
picture. -/
def predicted_entropy (fm : FloatModel) (cfg : Config) (predicted : Picture) : ℚ :=
  if cfg.always_B = 0 then
    fm.entropy (histogram (planeSymbols cfg.pixels_in_y0 cfg.pixels_in_x0 0 (predicted 0))) 256
  else 1

/-- `residue_entropy = 0.0` and, unless `always_B`, the entropy of the luma of the residue,
counted at `residue[0][y][x] + 128`. -/
def residue_entropy (fm : FloatModel) (cfg : Config) (residue : Picture) : ℚ :=
  if cfg.always_B = 0 then
    fm.entropy (histogram (planeSymbols cfg.pixels_in_y0 cfg.pixels_in_x0 128 (residue 0))) 256
  else 0

/-- The conversion `(int)f` of a `float`: truncation toward zero. -/
def truncToInt (f : ℚ) : Int := if 0 ≤ f then ⌊f⌋ else ⌈f⌉

/-- `(int)(e * (float)a * (float)b)`: the two conversions and the two products are rounded
to `float`, the result is truncated. -/
def entropySize (fm : FloatModel) (e : ℚ) (a b : Int) : Int :=
  truncToInt (fm.toFloat (fm.toFloat (e * fm.toFloat (a : ℚ)) * fm.toFloat (b : ℚ)))

/-- `int predicted_size = (int)(predicted_entropy * (float)pixels_in_y[0] * (float)pixels_in_x[0]);`. -/
def predicted_size (fm : FloatModel) (cfg : Config) (predicted_entropy : ℚ) : Int :=
  entropySize fm predicted_entropy cfg.pixels_in_y0 cfg.pixels_in_x0

/-- `int residue_size = (int)(residue_entropy * (float)pixels_in_y[0] * (float)pixels_in_x[0]);`. -/
def residue_size (fm : FloatModel) (cfg : Config) (residue_entropy : ℚ) : Int :=
  entropySize fm residue_entropy cfg.pixels_in_y0 cfg.pixels_in_x0

/-- `int motion_size = (int)(motion_entropy * (float)blocks_in_y * (float)blocks_in_x);`. -/
def motion_size (fm : FloatModel) (cfg : Config) (motion_entropy : ℚ) : Int :=
  entropySize fm motion_entropy cfg.blocks_in_y cfg.blocks_in_x

/-- The type byte chosen from the three entropies:
`if(predicted_size <= (residue_size + motion_size)) putc('I') else putc('B')`. -/
def electType (fm : FloatModel) (cfg : Config)
    (predicted_entropy residue_entropy motion_entropy : ℚ) : Char :=
  if predicted_size fm cfg predicted_entropy
      ≤ residue_size fm cfg residue_entropy + motion_size fm cfg motion_entropy then 'I'
  else 'B'

/-- The type byte written by ANALYZE for a frame, from the predicted picture, the residue and
the motion field. -/
def frameType (fm : FloatModel) (cfg : Config) (predicted residue : Picture)
    (mv : MotionField) : Char :=
  electType fm cfg (predicted_entropy fm cfg predicted) (residue_entropy fm cfg residue)
    (motion_entropy fm cfg mv)

/-- The motion field `zeroes`: `motion.alloc` followed by the loop that clears the four
components of every block; `alloc` is the content of the fresh allocation. -/
def zeroes (cfg : Config) (alloc : MotionField) : MotionField :=
  fun d a by_ bx =>
    if inRect cfg.blocks_in_y cfg.blocks_in_x by_ bx then 0 else alloc d a by_ bx

/-- The planes handed to `image.write(high_fd, residue[c], ...)`.  For an `I` picture the
predicted picture is copied into `residue`; for a `B` picture `residue + 128` is clipped to
`[0,255]`. -/
def highStep (cfg : Config) (frame_type : Char) (predicted residue : Picture) : Picture :=
  fun c y x =>
    if c < COMPONENTS ∧ inRect (cfg.pixels_in_y c) (cfg.pixels_in_x c) y x then
      if frame_type = 'I' then predicted c y x else clip255 (residue c y x + 128)
    else residue c y x

/-- The field handed to `motion.write(motion_out_fd, ...)`: `zeroes` for an `I` picture, `mv`
for a `B` picture. -/
def motionOutStep (frame_type : Char) (mv zeroes : MotionField) : MotionField :=
  if frame_type = 'I' then zeroes else mv

/-- The buffers that live across the iterations of the frame-pair loop. -/
structure State where
  reference0 : Picture
  reference1 : Picture
  predicted : Picture
  prediction : Picture
  residue : Picture
  prediction_block : Plane

/-- Modelled from the spec: the macros `PREV` and `NEXT` of `motion.cpp`, which is not among
the sources, index the reference window as 0 and 1: `reference[PREV]` is `reference[0]`, the
even picture that precedes the pair, and `reference[NEXT]` is `reference[1]`, the one that
follows it. -/
def State.reference (st : State) : Dir → Picture
  | Dir.PREV => st.reference0
  | Dir.NEXT => st.reference1

/-- What one ANALYZE iteration writes: the type byte, the planes written to `high_fn`, the
planes written to the prediction file and the field written to `motion_out_fn`. -/
structure AnalyzeOutput where
  frame_type : Char
  high : Picture
  prediction : Picture
  motion_out : MotionField

/-- One iteration of the frame-pair loop compiled with `ANALYZE`.  `odd` and `even` hold the
bytes of the pictures read from `odd_fn` and `even_fn`, `mv` is the field read from
`motion_in_fn`, `zeroes` the all-zero field built before the loop. -/
def analyzeIteration (image_dwt : Dwt2d) (fm : FloatModel) (cfg : Config)
    (zeroes : MotionField) (st : State) (odd even : Picture) (mv : MotionField) :
    State × AnalyzeOutput :=
  let predicted : Picture := fun c =>
    if c < COMPONENTS then
      texture_read (odd c) (st.predicted c) (cfg.pixels_in_y c) (cfg.pixels_in_x c)
    else st.predicted c
  let st1 : State := { st with predicted := predicted,
                               reference1 := readReference image_dwt cfg even st.reference1 }
  let p := predictionStep image_dwt cfg mv st1.prediction_block st1.prediction st1.reference
  let residue := residueStep cfg predicted p.2 st1.residue
  let frame_type := frameType fm cfg predicted residue mv
  let high := highStep cfg frame_type predicted residue
  ({ reference0 := st1.reference1, reference1 := st1.reference0, predicted := predicted,
     prediction := p.2, residue := high, prediction_block := p.1 },
   { frame_type := frame_type, high := high, prediction := p.2,
     motion_out := motionOutStep frame_type mv zeroes })

/-! ### Reconstruction (SYNTHESIZE) -/

/-- SYNTHESIZE, "the residue image is read": `image.read(high_fd, residue[c], ...)` followed by
`residue[c][y][x] -= 128`. -/
def readHigh (cfg : Config) (high residue : Picture) : Picture :=
  fun c y x =>
    if c < COMPONENTS ∧ inRect (cfg.pixels_in_y c) (cfg.pixels_in_x c) y x then high c y x - 128
    else residue c y x

/-- SYNTHESIZE, "decompensation": for the type byte `'I'`, `predicted = residue + 128` without
a clip; otherwise `predicted = residue + prediction` clipped to `[0,255]`. -/
def reconstructStep (cfg : Config) (frame_type : Char) (residue prediction predicted : Picture) :
    Picture :=
  fun c y x =>
    if c < COMPONENTS ∧ inRect (cfg.pixels_in_y c) (cfg.pixels_in_x c) y x then
      if frame_type = 'I' then residue c y x + 128
      else clip255 (residue c y x + prediction c y x)
    else predicted c y x

/-- One iteration of the frame-pair loop compiled without `ANALYZE`.  `high` and `even` hold
the bytes read from `high_fn` and `even_fn`, `mv` the field read from `motion_in_fn`,
`frame_type` the byte read from `frame_types_fn`.  The second component is the picture handed
to `image.write(odd_fd, predicted[c], ...)`. -/
def synthesizeIteration (image_dwt : Dwt2d) (cfg : Config) (st : State)
    (high even : Picture) (mv : MotionField) (frame_type : Char) : State × Picture :=
  let residue := readHigh cfg high st.residue
  let st1 : State := { st with residue := residue,
                               reference1 := readReference image_dwt cfg even st.reference1 }
  let p := predictionStep image_dwt cfg mv st1.prediction_block st1.prediction st1.reference
  let predicted := reconstructStep cfg frame_type residue p.2 st1.predicted
  ({ reference0 := st1.reference1, reference1 := st1.reference0, predicted := predicted,
     prediction := p.2, residue := residue, prediction_block := p.1 },
   predicted)

/-! ### Assumptions on the wavelet operator -/

/-- A transform with zero levels leaves the plane as it is. -/
def Dwt2d.ZeroLevelIdentity (d : Dwt2d) : Prop :=
  ∀ (p : Plane) (h w : Int), d.analyze p h w 0 = p ∧ d.synthesize p h w 0 = p

/-- The transform of the `h x w` rectangle depends on the content of that rectangle only. -/
def Dwt2d.ActsOnRect (d : Dwt2d) (h w levels : Int) : Prop :=
  ∀ p q : Plane, (∀ y x, inRect h w y x → p y x = q y x) →
    ∀ y x, inRect h w y x →
      d.analyze p h w levels y x = d.analyze q h w levels y x ∧
      d.synthesize p h w levels y x = d.synthesize q h w levels y x

/-- Analysis undoes synthesis on the `h x w` rectangle. -/
def Dwt2d.AnalyzeInvertsSynthesize (d : Dwt2d) (h w levels : Int) : Prop :=
  ∀ (p : Plane) (y x : Int), inRect h w y x →
    d.analyze (d.synthesize p h w levels) h w levels y x = p y x

/-- The truncating average of the two references displaced by the motion vectors of block
`(by, bx)`, at picture position `(y, x)`. -/
def motionAverage (mv : MotionField) (reference_picture : Dir → Picture) (c : Nat)
    (by_ bx y x : Int) : Int :=
  Int.tdiv
    (reference_picture Dir.PREV c (mv Dir.PREV Axis.Y_FIELD by_ bx + y)
        (mv Dir.PREV Axis.X_FIELD by_ bx + x)
      + reference_picture Dir.NEXT c (mv Dir.NEXT Axis.Y_FIELD by_ bx + y)
        (mv Dir.NEXT Axis.X_FIELD by_ bx + x)) 2

/-- The residue computed by an ANALYZE iteration ("the residue image is generated"), before it
is overwritten by the planes written to `high_fn`. -/
def analyzeResidue (image_dwt : Dwt2d) (fm : FloatModel) (cfg : Config)
    (zeroes : MotionField) (st : State) (odd even : Picture) (mv : MotionField) : Picture :=
  residueStep cfg (analyzeIteration image_dwt fm cfg zeroes st odd even mv).1.predicted
    (analyzeIteration image_dwt fm cfg zeroes st odd even mv).2.prediction st.residue

/-! ## Concrete inputs

Small instances of the parameters, used to evaluate the embedding. -/

/-- The transform that leaves every plane as it is. -/
def identityDwt : Dwt2d where
  analyze := fun p _ _ _ => p
  synthesize := fun p _ _ _ => p

/-- Exact arithmetic: no rounding, and a given entropy routine. -/
def exactArith (entropy : (Int → Int) → Int → ℚ) : FloatModel where
  toFloat := fun r => r
  entropy := entropy

/-- A picture whose three planes hold the value `v` everywhere. -/
def constPicture (v : Int) : Picture := fun _ _ _ => v

/-- The motion field with every component equal to `v`. -/
def constMotion (v : Int) : MotionField := fun _ _ _ _ => v

/-- A state whose buffers all hold `v`. -/
def constState (v : Int) : State where
  reference0 := constPicture v
  reference1 := constPicture v
  predicted := constPicture v
  prediction := constPicture v
  residue := constPicture v
  prediction_block := fun _ _ => v

/-- A `4 x 4` picture in blocks of side `block_size`, no overlap, full-pixel accuracy. -/
def smallConfig (block_size always_B : Int) : Config where
  block_overlaping := 0
  block_size := block_size
  pictures := 3
  pixels_in_x0 := 4
  pixels_in_y0 := 4
  search_range := 4
  subpixel_accuracy := 0
  always_B := always_B

/-- The state at the start of an iteration whose `reference[0]` holds the expanded picture
`even`; every other buffer holds `v`. -/
def referenceState (image_dwt : Dwt2d) (cfg : Config) (even : Picture) (v : Int) : State :=
  { constState v with reference0 := readReference image_dwt cfg even (constPicture v) }

/-- A transform that is the identity at zero levels and otherwise adds (synthesis) or removes
(analysis) the offset 1000 on every sample; its analysis undoes its synthesis. -/
def offsetDwt : Dwt2d where
  analyze := fun p _ _ levels => if levels = 0 then p else fun y x => p y x - 1000
  synthesize := fun p _ _ levels => if levels = 0 then p else fun y x => p y x + 1000

/-! ## The run of `main()` -/

/-- The outcome of the `fopen` calls of `main()`: `true` when the descriptor is not null. -/
structure OpenedFiles where
  even_fd : Bool
  motion_in_fd : Bool
  motion_out_fd : Bool
  odd_fd : Bool
  high_fd : Bool
  prediction_fd : Bool
  frame_types_fd : Bool

/-- Every `if(!fd) { error(...); abort(); }` of the ANALYZE build is passed. -/
def OpenedFiles.analyzeOk (f : OpenedFiles) : Bool :=
  f.even_fd && f.motion_in_fd && f.motion_out_fd && f.odd_fd && f.high_fd && f.prediction_fd
    && f.frame_types_fd

/-- Every `if(!fd) { error(...); abort(); }` of the SYNTHESIZE build is passed (that build
does not open `motion_out_fn`). -/
def OpenedFiles.synthesizeOk (f : OpenedFiles) : Bool :=
  f.even_fd && f.motion_in_fd && f.odd_fd && f.high_fd && f.prediction_fd && f.frame_types_fd

/-- The number of iterations of `for(int i=0; i<pictures/2; i++)`. -/
def Config.pairs (cfg : Config) : Nat := (Int.tdiv cfg.pictures 2).toNat

/-- "The first image (reference [0]) is read": the state before the frame-pair loop.  `alloc`
holds the content of the buffers as allocated, `even0` the bytes of the first even picture. -/
def initialState (image_dwt : Dwt2d) (cfg : Config) (alloc : State) (even0 : Picture) : State :=
  { alloc with reference0 := readReference image_dwt cfg even0 alloc.reference0 }

/-- The state at the start of iteration `i` of the ANALYZE loop.  Iteration `i` reads the odd
picture `odd i`, the even picture `even (i+1)` and the motion field `mv i`. -/
def analyzeStateAt (image_dwt : Dwt2d) (fm : FloatModel) (cfg : Config) (zeroes : MotionField)
    (alloc : State) (odd even : Nat → Picture) (mv : Nat → MotionField) : Nat → State
  | 0 => initialState image_dwt cfg alloc (even 0)
  | i + 1 =>
    (analyzeIteration image_dwt fm cfg zeroes
      (analyzeStateAt image_dwt fm cfg zeroes alloc odd even mv i) (odd i) (even (i + 1))
      (mv i)).1

/-- What iteration `i` of the ANALYZE loop writes. -/
def analyzeOutputAt (image_dwt : Dwt2d) (fm : FloatModel) (cfg : Config) (zeroes : MotionField)
    (alloc : State) (odd even : Nat → Picture) (mv : Nat → MotionField) (i : Nat) :
    AnalyzeOutput :=
  (analyzeIteration image_dwt fm cfg zeroes
    (analyzeStateAt image_dwt fm cfg zeroes alloc odd even mv i) (odd i) (even (i + 1))
    (mv i)).2

/-- The ANALYZE build of `main()` after the command line has been read: the run aborts when a
file cannot be opened, and otherwise executes `pictures/2` iterations; the result lists what
each iteration writes, in order.  `zalloc` is the content of the allocation of `zeroes`.  The
input files are taken to hold enough pictures and motion fields, and the divisions by
`block_size`, `blocks_in_y` and `blocks_in_x` that precede the loop to be defined. -/
def analyzeMain (image_dwt : Dwt2d) (fm : FloatModel) (cfg : Config) (files : OpenedFiles)
    (alloc : State) (zalloc : MotionField) (odd even : Nat → Picture)
    (mv : Nat → MotionField) : Option (List AnalyzeOutput) :=
  if files.analyzeOk then
    some ((List.range cfg.pairs).map
      (analyzeOutputAt image_dwt fm cfg (zeroes cfg zalloc) alloc odd even mv))
  else none

/-- The state at the start of iteration `i` of the SYNTHESIZE loop.  Iteration `i` reads the
picture `high i`, the even picture `even (i+1)`, the motion field `mv i` and the type byte
`types i`. -/
def synthesizeStateAt (image_dwt : Dwt2d) (cfg : Config) (alloc : State)
    (high even : Nat → Picture) (mv : Nat → MotionField) (types : Nat → Char) : Nat → State
  | 0 => initialState image_dwt cfg alloc (even 0)
  | i + 1 =>
    (synthesizeIteration image_dwt cfg
      (synthesizeStateAt image_dwt cfg alloc high even mv types i) (high i) (even (i + 1))
      (mv i) (types i)).1

/-- The picture that iteration `i` of the SYNTHESIZE loop writes to `odd_fn`. -/
def synthesizeOutputAt (image_dwt : Dwt2d) (cfg : Config) (alloc : State)
    (high even : Nat → Picture) (mv : Nat → MotionField) (types : Nat → Char) (i : Nat) :
    Picture :=
  (synthesizeIteration image_dwt cfg
    (synthesizeStateAt image_dwt cfg alloc high even mv types i) (high i) (even (i + 1))
    (mv i) (types i)).2

/-- The SYNTHESIZE build of `main()` after the command line has been read. -/
def synthesizeMain (image_dwt : Dwt2d) (cfg : Config) (files : OpenedFiles) (alloc : State)
    (high even : Nat → Picture) (mv : Nat → MotionField) (types : Nat → Char) :
    Option (List Picture) :=
  if files.synthesizeOk then
    some ((List.range cfg.pairs).map
      (synthesizeOutputAt image_dwt cfg alloc high even mv types))
  else none

/-! ## The reads of `predict()` -/

/-- The samples of `reference_picture` read by the "each block is copied" loops of one call of
`predict()`, in execution order: direction, component, row, column. -/
def predictReads (block_overlaping block_size blocks_in_y blocks_in_x : Int)
    (components : Nat) (mv : MotionField) : List (Dir × Nat × Int × Int) :=
  (List.range components).flatMap fun c =>
    (intRange 0 blocks_in_y).flatMap fun by_ =>
      (intRange 0 blocks_in_x).flatMap fun bx =>
        (intRange (-block_overlaping) (block_size + block_overlaping)).flatMap fun y =>
          (intRange (-block_overlaping) (block_size + block_overlaping)).flatMap fun x =>
            [(Dir.PREV, c, mv Dir.PREV Axis.Y_FIELD by_ bx + by_ * block_size + y,
                mv Dir.PREV Axis.X_FIELD by_ bx + bx * block_size + x),
             (Dir.NEXT, c, mv Dir.NEXT Axis.Y_FIELD by_ bx + by_ * block_size + y,
                mv Dir.NEXT Axis.X_FIELD by_ bx + bx * block_size + x)]

/-- Every file is opened. -/
def allOpened : OpenedFiles where
  even_fd := true
  motion_in_fd := true
  motion_out_fd := true
  odd_fd := true
  high_fd := true
  prediction_fd := true
  frame_types_fd := true

/-- A motion field with the same vectors for every block: `(-4, -8)` toward the previous
picture and `(8, 8)` toward the next one. -/
def skewMotion : MotionField := fun d a _ _ =>
  match d, a with
  | Dir.PREV, Axis.Y_FIELD => -4
  | Dir.PREV, Axis.X_FIELD => -8
  | Dir.NEXT, _ => 8

/-- The reference window made of the pictures `prev` and `next`, as `predict()` indexes it. -/
def referenceWindow (prev next : Picture) : Dir → Picture
  | Dir.PREV => prev
  | Dir.NEXT => next

/-- The defaults of `main()`: a `352 x 288` picture in blocks of side 16, 33 pictures, no
overlap, full-pixel accuracy, `always_B = 0`. -/
def defaultConfig : Config where
  block_overlaping := 0
  block_size := 16
  pictures := 33
  pixels_in_x0 := 352
  pixels_in_y0 := 288
  search_range := 4
  subpixel_accuracy := 0
  always_B := 0

/-- A `4 x 4` picture in blocks of side 3 and an even number of pictures: the width and the
height are not multiples of the block side and `pictures` is not odd. -/
def unevenConfig : Config where
  block_overlaping := 0
  block_size := 3
  pictures := 4
  pixels_in_x0 := 4
  pixels_in_y0 := 4
  search_range := 4
  subpixel_accuracy := 0
  always_B := 0

/-- Modelled from the spec: `entropy(count, 256)` of `entropy.h`, which is not among the
sources, is the Shannon entropy of the histogram in bits per symbol, `-Σ p_i log2 p_i` with
`0 log 0 = 0`.  Two facts of it are kept: it is never negative, and it is 0 for a histogram
with a single occupied bin (`p = 1`). -/
def FloatModel.ShannonEntropy (fm : FloatModel) : Prop :=
  (∀ (count : Int → Int) (n : Int), 0 ≤ fm.entropy count n) ∧
  (∀ (count : Int → Int) (n b : Int), 0 < count b → (∀ i, i ≠ b → count i = 0) →
    fm.entropy count n = 0)

/-! ## The scratch block -/

/-- The number of rows of the allocation of `prediction_block`:
`(pixels_in_y[0]/blocks_in_y + block_overlaping*2) << subpixel_accuracy`. -/
def Config.prediction_block_rows (cfg : Config) : Int :=
  shl (Int.tdiv cfg.pixels_in_y0 cfg.blocks_in_y + cfg.block_overlaping * 2)
    cfg.subpixel_accuracy

/-- The number of columns of the allocation of `prediction_block`:
`(pixels_in_x[0]/blocks_in_x + block_overlaping*2) << subpixel_accuracy`. -/
def Config.prediction_block_cols (cfg : Config) : Int :=
  shl (Int.tdiv cfg.pixels_in_x0 cfg.blocks_in_x + cfg.block_overlaping * 2)
    cfg.subpixel_accuracy

/-- The side `block_size + dwt_border * 2` of the enlarged block that `predict()` fills and
transforms, for the arguments `block_overlaping << subpixel_accuracy` and
`block_size << subpixel_accuracy` that `main()` passes. -/
def Config.enlarged_block_side (cfg : Config) : Int :=
  shl cfg.block_size cfg.subpixel_accuracy + shl cfg.block_overlaping cfg.subpixel_accuracy * 2

/-- A `10 x 7` picture in blocks of side 3 with overlap 2 at half-pixel accuracy. -/
def oddConfig : Config where
  block_overlaping := 2
  block_size := 3
  pictures := 3
  pixels_in_x0 := 7
  pixels_in_y0 := 10
  search_range := 4
  subpixel_accuracy := 1
  always_B := 0

/-! ### The arithmetic of `float` -/

/-- Rounding to the nearest integer, a tie going to the even one. -/
def roundHalfEven (q : ℚ) : Int :=
  if q - ⌊q⌋ < 1 / 2 then ⌊q⌋
  else if 1 / 2 < q - ⌊q⌋ then ⌊q⌋ + 1
  else if ⌊q⌋ % 2 = 0 then ⌊q⌋
  else ⌊q⌋ + 1

/-- The value a number takes in a C `float` (IEEE 754 binary32, round to nearest, ties to
even): for `2^e <= |r| < 2^(e+1)` the nearest multiple of `2^(e-23)`, which leaves 24
significant bits.  The exponent is not bounded: the entropies and sizes of this program are far
from the overflow and from the subnormal range. -/
def roundBinary32 (r : ℚ) : ℚ :=
  if r = 0 then 0
  else (roundHalfEven (r / 2 ^ (Int.log 2 |r| - 23)) : ℚ) * 2 ^ (Int.log 2 |r| - 23)

/-- The arithmetic of the program as compiled: a `float` is a binary32 number, and every
conversion `(float)n` and every `float` product is rounded to one. -/
def binary32 (entropy : (Int → Int) → Int → ℚ) : FloatModel where
  toFloat := roundBinary32
  entropy := entropy

/-! ### The expansion of an even picture in the words of the spec

Sections 4.1 to 4.3 of the spec describe the expansion of a picture without reference to the
buffer it is built in: these definitions follow that description, to be compared with
`readReference`. -/

/-- The canvas that holds `img` in its top-left `h x w` corner and zero everywhere else. -/
def specZeroPad (h w : Int) (img : Plane) : Plane :=
  fun y x => if inRect h w y x then img y x else 0

/-- Spec 4.2, expand: "on a luma-sized canvas, the (H/2)x(W/2) chroma sits in the top-left
quadrant; zero-fill the other three quadrants; apply one level of DWT synthesis on the whole
luma-sized plane". -/
def specExpandChroma (image_dwt : Dwt2d) (cfg : Config) (chroma : Plane) : Plane :=
  image_dwt.synthesize
    (specZeroPad (Int.tdiv cfg.pixels_in_y0 2) (Int.tdiv cfg.pixels_in_x0 2) chroma)
    cfg.pixels_in_y0 cfg.pixels_in_x0 1

/-- Spec 4.3: "repeat for k = 1..s: zero-pad the top-left (H*2^(k-1))x(W*2^(k-1)) quadrant
inside a (H*2^k)x(W*2^k) canvas and apply one-level DWT synthesis". -/
def specInterpolate (image_dwt : Dwt2d) (cfg : Config) (img : Plane) : Plane :=
  (List.range' 1 cfg.subpixel_accuracy).foldl
    (fun p k =>
      image_dwt.synthesize
        (specZeroPad (shl cfg.pixels_in_y0 (k - 1)) (shl cfg.pixels_in_x0 (k - 1)) p)
        (shl cfg.pixels_in_y0 k) (shl cfg.pixels_in_x0 k) 1)
    img

/-- The expanded even picture of the spec: component `c` of `even`, the chroma expanded to the
luma size, interpolated to the sub-pixel accuracy, with the halo filled from the nearest edge
sample.  It depends on the picture only. -/
def specExpand (image_dwt : Dwt2d) (cfg : Config) (even : Picture) (c : Nat) : Plane :=
  fill_border
    (specInterpolate image_dwt cfg
      (if c = 0 then specZeroPad cfg.pixels_in_y0 cfg.pixels_in_x0 (even 0)
       else specExpandChroma image_dwt cfg (even c)))
    (shl cfg.pixels_in_y0 cfg.subpixel_accuracy)
    (shl cfg.pixels_in_x0 cfg.subpixel_accuracy)
    (shl cfg.picture_border_size cfg.subpixel_accuracy)

/-- The samples of a reference plane: the interpolated picture and its halo. -/
def Config.inReference (cfg : Config) (y x : Int) : Prop :=
  inRect
    (shl cfg.pixels_in_y0 cfg.subpixel_accuracy
      + 2 * shl cfg.picture_border_size cfg.subpixel_accuracy)
    (shl cfg.pixels_in_x0 cfg.subpixel_accuracy
      + 2 * shl cfg.picture_border_size cfg.subpixel_accuracy)
    (y + shl cfg.picture_border_size cfg.subpixel_accuracy)
    (x + shl cfg.picture_border_size cfg.subpixel_accuracy)

instance (cfg : Config) (y x : Int) : Decidable (cfg.inReference y x) := by
  unfold Config.inReference
  infer_instance

/-- A picture whose sample `(y, x)` of component `c` is `100*c + 10*y + x + k`. -/
def rampPicture (k : Int) : Picture := fun c y x => 100 * (c : Int) + 10 * y + x + k

/-- A `4 x 4` picture in blocks of side 2 at half-pixel accuracy, no overlap. -/
def halfPixelConfig : Config where
  block_overlaping := 0
  block_size := 2
  pictures := 3
  pixels_in_x0 := 4
  pixels_in_y0 := 4
  search_range := 1
  subpixel_accuracy := 1
  always_B := 1

/-! ## Loop ranges -/

theorem mem_intRange (lo hi v : Int) : v ∈ intRange lo hi ↔ lo ≤ v ∧ v < hi := by
  unfold intRange
  simp only [List.mem_map, List.mem_range]
  constructor
  · rintro ⟨k, hk, rfl⟩
    omega
  · rintro ⟨h1, h2⟩
    exact ⟨(v - lo).toNat, by omega, by omega⟩

theorem nodup_intRange (lo hi : Int) : (intRange lo hi).Nodup := by
  unfold intRange
  refine List.Nodup.map ?_ (List.nodup_range _)
  intro a b h
  simpa using h

/-- Lists produced for distinct keys are disjoint when every element records its key. -/
theorem nodup_flatMap_of_key {α β : Type} (key : β → α) (l : List α) (f : α → List β)
    (hl : l.Nodup) (hf : ∀ a ∈ l, (f a).Nodup) (hk : ∀ a ∈ l, ∀ b ∈ f a, key b = a) :
    (l.flatMap f).Nodup := by
  rw [List.nodup_flatMap]
  refine ⟨hf, ?_⟩
  refine (List.pairwise_iff_forall_sublist.2 ?_)
  intro a b hab
  have hne : a ≠ b := by
    have := hl.sublist hab
    simpa using this
  have ha : a ∈ l := hab.subset (by simp)
  have hb : b ∈ l := hab.subset (by simp)
  intro z hza hzb
  exact hne ((hk a ha z hza).symm.trans (hk b hb z hzb))

theorem nodup_scatterHigh (block_size : Int) (levels c : Nat) (by_ bx : Int) :
    (scatterHigh block_size levels c by_ bx).Nodup := by
  unfold scatterHigh
  refine nodup_flatMap_of_key ScatterIter.l _ _ (List.nodup_range' _ _) ?_ ?_
  · intro l _
    refine nodup_flatMap_of_key ScatterIter.y _ _ (nodup_intRange _ _) ?_ ?_
    · intro y _
      refine nodup_flatMap_of_key ScatterIter.x _ _ (nodup_intRange _ _) ?_ ?_
      · intro x _
        simp
      · intro x _ b hb
        simp at hb
        rcases hb with rfl | rfl | rfl <;> rfl
    · intro y _ b hb
      simp only [List.mem_flatMap] at hb
      obtain ⟨x, _, hb⟩ := hb
      simp at hb
      rcases hb with rfl | rfl | rfl <;> rfl
  · intro l _ b hb
    simp only [List.mem_flatMap] at hb
    obtain ⟨y, _, x, _, hb⟩ := hb
    simp at hb
    rcases hb with rfl | rfl | rfl <;> rfl

theorem nodup_scatterLow (block_size : Int) (levels c : Nat) (by_ bx : Int) :
    (scatterLow block_size levels c by_ bx).Nodup := by
  unfold scatterLow
  refine nodup_flatMap_of_key ScatterIter.y _ _ (nodup_intRange _ _) ?_ ?_
  · intro y _
    refine List.Nodup.map ?_ (nodup_intRange _ _)
    intro a b h
    simpa using h
  · intro y _ b hb
    simp only [List.mem_map] at hb
    obtain ⟨x, _, rfl⟩ := hb
    rfl

theorem mem_scatterHigh (block_size : Int) (levels c : Nat) (by_ bx : Int) (it : ScatterIter) :
    it ∈ scatterHigh block_size levels c by_ bx ↔
      it.c = c ∧ it.by_ = by_ ∧ it.bx = bx ∧ 1 ≤ it.l ∧ it.l ≤ levels ∧ it.band ≠ Subband.LL ∧
      0 ≤ it.y ∧ it.y < block_size >>> it.l ∧ 0 ≤ it.x ∧ it.x < block_size >>> it.l := by
  unfold scatterHigh
  simp only [List.mem_flatMap, List.mem_range'_1, mem_intRange]
  constructor
  · rintro ⟨l, hl, y, hy, x, hx, h⟩
    have hl2 : l ≤ levels := by omega
    simp only [List.mem_cons, List.mem_singleton, List.not_mem_nil, or_false] at h
    rcases h with rfl | rfl | rfl <;>
      exact ⟨rfl, rfl, rfl, hl.1, hl2, by simp, hy.1, hy.2, hx.1, hx.2⟩
  · rintro ⟨rfl, rfl, rfl, h1, h2, h3, h4, h5, h6, h7⟩
    refine ⟨it.l, ⟨h1, by omega⟩, it.y, ⟨h4, h5⟩, it.x, ⟨h6, h7⟩, ?_⟩
    rcases it with ⟨c, b1, b2, l, band, y, x⟩
    cases band <;> simp at h3 ⊢

theorem mem_scatterLow (block_size : Int) (levels c : Nat) (by_ bx : Int) (it : ScatterIter) :
    it ∈ scatterLow block_size levels c by_ bx ↔
      it.c = c ∧ it.by_ = by_ ∧ it.bx = bx ∧ it.l = levels ∧ it.band = Subband.LL ∧
      0 ≤ it.y ∧ it.y < block_size >>> it.l ∧ 0 ≤ it.x ∧ it.x < block_size >>> it.l := by
  unfold scatterLow
  simp only [List.mem_flatMap, List.mem_map, mem_intRange]
  constructor
  · rintro ⟨y, hy, x, hx, rfl⟩
    simp
    omega
  · rintro ⟨rfl, rfl, rfl, rfl, h3, h4, h5, h6, h7⟩
    refine ⟨it.y, ⟨h4, h5⟩, it.x, ⟨h6, h7⟩, ?_⟩
    rcases it with ⟨c, b1, b2, l, band, y, x⟩
    simp at h3
    simp [h3]

theorem nodup_scatterBlock (block_size : Int) (levels c : Nat) (by_ bx : Int) :
    (scatterBlock block_size levels c by_ bx).Nodup := by
  unfold scatterBlock
  refine List.Nodup.append (nodup_scatterHigh _ _ _ _ _) (nodup_scatterLow _ _ _ _ _) ?_
  intro it h1 h2
  rw [mem_scatterHigh] at h1
  rw [mem_scatterLow] at h2
  exact h1.2.2.2.2.2.1 h2.2.2.2.2.1

theorem mem_scatterBlock (block_size : Int) (levels c : Nat) (by_ bx : Int) (it : ScatterIter) :
    it ∈ scatterBlock block_size levels c by_ bx ↔
      it.c = c ∧ it.by_ = by_ ∧ it.bx = bx ∧
      ((it.band = Subband.LL ∧ it.l = levels) ∨ (it.band ≠ Subband.LL ∧ 1 ≤ it.l ∧ it.l ≤ levels)) ∧
      0 ≤ it.y ∧ it.y < block_size >>> it.l ∧ 0 ≤ it.x ∧ it.x < block_size >>> it.l := by
  unfold scatterBlock
  rw [List.mem_append, mem_scatterHigh, mem_scatterLow]
  tauto

theorem mem_predictScatter (block_overlaping block_size blocks_in_y blocks_in_x : Int)
    (components : Nat) (it : ScatterIter) :
    it ∈ predictScatter block_overlaping block_size blocks_in_y blocks_in_x components ↔
      it.c < components ∧ 0 ≤ it.by_ ∧ it.by_ < blocks_in_y ∧ 0 ≤ it.bx ∧ it.bx < blocks_in_x ∧
      ((it.band = Subband.LL ∧ it.l = predictLevels block_overlaping) ∨
        (it.band ≠ Subband.LL ∧ 1 ≤ it.l ∧ it.l ≤ predictLevels block_overlaping)) ∧
      0 ≤ it.y ∧ it.y < block_size >>> it.l ∧ 0 ≤ it.x ∧ it.x < block_size >>> it.l := by
  unfold predictScatter
  simp only [List.mem_flatMap, List.mem_range, mem_intRange, mem_scatterBlock]
  constructor
  · rintro ⟨c, hc, b1, hb1, b2, hb2, rfl, rfl, rfl, h⟩
    exact ⟨hc, hb1.1, hb1.2, hb2.1, hb2.2, h⟩
  · rintro ⟨hc, h1, h2, h3, h4, h⟩
    exact ⟨it.c, hc, it.by_, ⟨h1, h2⟩, it.bx, ⟨h3, h4⟩, rfl, rfl, rfl, h⟩

theorem nodup_predictScatter (block_overlaping block_size blocks_in_y blocks_in_x : Int)
    (components : Nat) :
    (predictScatter block_overlaping block_size blocks_in_y blocks_in_x components).Nodup := by
  unfold predictScatter
  refine nodup_flatMap_of_key ScatterIter.c _ _ (List.nodup_range _) ?_ ?_
  · intro c _
    refine nodup_flatMap_of_key ScatterIter.by_ _ _ (nodup_intRange _ _) ?_ ?_
    · intro b1 _
      refine nodup_flatMap_of_key ScatterIter.bx _ _ (nodup_intRange _ _) ?_ ?_
      · intro b2 _
        exact nodup_scatterBlock _ _ _ _ _
      · intro b2 _ it hit
        exact ((mem_scatterBlock _ _ _ _ _ _).1 hit).2.2.1
    · intro b1 _ it hit
      simp only [List.mem_flatMap] at hit
      obtain ⟨b2, _, hit⟩ := hit
      exact ((mem_scatterBlock _ _ _ _ _ _).1 hit).2.1
  · intro c _ it hit
    simp only [List.mem_flatMap] at hit
    obtain ⟨b1, _, b2, _, hit⟩ := hit
    exact ((mem_scatterBlock _ _ _ _ _ _).1 hit).1


/-! ## Arithmetic of the dyadic layout -/

theorem shr_nonneg (m : Int) (l : Nat) (hm : 0 ≤ m) : 0 ≤ m >>> l := by
  rw [Int.shiftRight_eq_div_pow]
  exact Int.ediv_nonneg hm (by positivity)

/-- Halving one more time: exact when the power of two divides. -/
theorem shr_succ_of_dvd (m : Int) (l L : Nat) (hl : l < L) (hdiv : (2 : Int) ^ L ∣ m) :
    m >>> l = 2 * (m >>> (l + 1)) := by
  obtain ⟨q, rfl⟩ := hdiv
  obtain ⟨d, rfl⟩ : ∃ d, L = (l + 1) + d := ⟨L - (l + 1), by omega⟩
  rw [Int.shiftRight_eq_div_pow, Int.shiftRight_eq_div_pow]
  have h1 : (2 : Int) ^ (l + 1 + d) * q = (2 : Int) ^ l * (2 * (2 ^ d * q)) := by ring
  have h2 : (2 : Int) ^ (l + 1 + d) * q = (2 : Int) ^ (l + 1) * (2 ^ d * q) := by ring
  have p1 : ((2 : Int) ^ l) ≠ 0 := by positivity
  have p2 : ((2 : Int) ^ (l + 1)) ≠ 0 := by positivity
  push_cast
  rw [show (2 : Int) ^ (l + 1 + d) * q / 2 ^ l = 2 * (2 ^ d * q) from by
        rw [h1]; exact Int.mul_ediv_cancel_left _ p1,
      show (2 : Int) ^ (l + 1 + d) * q / 2 ^ (l + 1) = 2 ^ d * q from by
        rw [h2]; exact Int.mul_ediv_cancel_left _ p2]

theorem shr_mul_of_dvd (n m : Int) (l L : Nat) (hl : l ≤ L) (hdiv : (2 : Int) ^ L ∣ m) :
    (n * m) >>> l = n * (m >>> l) := by
  have hd : (2 : Int) ^ l ∣ m := (pow_dvd_pow 2 hl).trans hdiv
  rw [Int.shiftRight_eq_div_pow, Int.shiftRight_eq_div_pow]
  push_cast
  exact Int.mul_ediv_assoc n hd

theorem shr_antitone (m : Int) (hm : 0 ≤ m) (L : Nat) (hdiv : (2 : Int) ^ L ∣ m) (l : Nat) :
    ∀ d : Nat, l + d + 1 ≤ L → 2 * (m >>> (l + d + 1)) ≤ m >>> l := by
  intro d
  induction d with
  | zero =>
    intro h
    have := shr_succ_of_dvd m l L (by omega) hdiv
    simp only [add_zero]
    omega
  | succ d ih =>
    intro h
    have h1 := ih (by omega)
    have h2 := shr_succ_of_dvd m (l + d + 1) L (by omega) hdiv
    have h3 := shr_nonneg m (l + d + 1 + 1) hm
    have : l + (d + 1) + 1 = l + d + 1 + 1 := by omega
    rw [this]
    omega

theorem shr_two_le (m : Int) (hm : 0 ≤ m) (L : Nat) (hdiv : (2 : Int) ^ L ∣ m) (l l' : Nat)
    (h1 : l < l') (h2 : l' ≤ L) : 2 * (m >>> l') ≤ m >>> l := by
  obtain ⟨d, rfl⟩ : ∃ d, l' = l + d + 1 := ⟨l' - l - 1, by omega⟩
  exact shr_antitone m hm L hdiv l d h2

/-- A cell of tile `b` lies inside the `n` tiles. -/
theorem tile_bound (n b bs y : Int) (hb0 : 0 ≤ b) (hb1 : b < n) (hy0 : 0 ≤ y) (hy1 : y < bs) :
    0 ≤ b * bs + y ∧ b * bs + y < n * bs := by
  constructor
  · nlinarith
  · nlinarith

/-- A tile index and an offset inside the tile determine each other. -/
theorem tile_unique (bs a a' y y' : Int) (h0 : 0 ≤ y) (h1 : y < bs) (h0' : 0 ≤ y')
    (h1' : y' < bs) (h : a * bs + y = a' * bs + y') : a = a' ∧ y = y' := by
  have ha : a = a' := by
    rcases lt_trichotomy a a' with hlt | heq | hgt
    · exfalso; nlinarith
    · exact heq
    · exfalso; nlinarith
  subst ha
  exact ⟨rfl, by omega⟩

theorem tile_decode (n bs r : Int) (hbs : 0 ≤ bs) (hr0 : 0 ≤ r) (hr1 : r < n * bs) :
    ∃ b y, 0 ≤ b ∧ b < n ∧ 0 ≤ y ∧ y < bs ∧ b * bs + y = r := by
  have hpos : 0 < bs := by
    rcases hbs.lt_or_eq with h | h
    · exact h
    · exfalso; rw [← h] at hr1; simp at hr1; omega
  refine ⟨r / bs, r % bs, Int.ediv_nonneg hr0 hbs, Int.ediv_lt_of_lt_mul hpos hr1,
    Int.emod_nonneg _ hpos.ne', Int.emod_lt_of_pos _ hpos, ?_⟩
  rw [mul_comm]
  exact Int.ediv_add_emod r bs


/-! ## The scatter of `predict()` tiles the picture -/

theorem dst_injective (block_size blocks_in_y blocks_in_x : Int) (levels : Nat)
    (hbs : 0 ≤ block_size) (hdiv : (2 : Int) ^ levels ∣ block_size)
    (it1 it2 : ScatterIter)
    (v1 : it1.InLoops block_size blocks_in_y blocks_in_x levels)
    (v2 : it2.InLoops block_size blocks_in_y blocks_in_x levels)
    (hc : it1.c = it2.c)
    (hd : it1.dst block_size (blocks_in_y * block_size) (blocks_in_x * block_size)
        = it2.dst block_size (blocks_in_y * block_size) (blocks_in_x * block_size)) :
    it1 = it2 := by
  obtain ⟨c1, b1, d1, l1, band1, y1, x1⟩ := it1
  obtain ⟨c2, b2, d2, l2, band2, y2, x2⟩ := it2
  obtain ⟨p1, p2, p3, p4, p5, p6, p7, p8, p9⟩ := v1
  obtain ⟨q1, q2, q3, q4, q5, q6, q7, q8, q9⟩ := v2
  simp only at p1 p2 p3 p4 p5 p6 p7 p8 p9 q1 q2 q3 q4 q5 q6 q7 q8 q9 hc
  subst hc
  have hl1 : l1 ≤ levels := by rcases p5 with h | h <;> omega
  have hl2 : l2 ≤ levels := by rcases q5 with h | h <;> omega
  have hny : 0 ≤ blocks_in_y := by omega
  have hnx : 0 ≤ blocks_in_x := by omega
  have hH : 0 ≤ blocks_in_y * block_size := mul_nonneg hny hbs
  have hW : 0 ≤ blocks_in_x * block_size := mul_nonneg hnx hbs
  have dH : (2 : Int) ^ levels ∣ blocks_in_y * block_size := Dvd.dvd.mul_left hdiv _
  have dW : (2 : Int) ^ levels ∣ blocks_in_x * block_size := Dvd.dvd.mul_left hdiv _
  have ry1 := tile_bound blocks_in_y b1 (block_size >>> l1) y1 p1 p2 p6 p7
  have rx1 := tile_bound blocks_in_x d1 (block_size >>> l1) x1 p3 p4 p8 p9
  have ry2 := tile_bound blocks_in_y b2 (block_size >>> l2) y2 q1 q2 q6 q7
  have rx2 := tile_bound blocks_in_x d2 (block_size >>> l2) x2 q3 q4 q8 q9
  have mH1 := shr_mul_of_dvd blocks_in_y block_size l1 levels hl1 hdiv
  have mW1 := shr_mul_of_dvd blocks_in_x block_size l1 levels hl1 hdiv
  have mH2 := shr_mul_of_dvd blocks_in_y block_size l2 levels hl2 hdiv
  have mW2 := shr_mul_of_dvd blocks_in_x block_size l2 levels hl2 hdiv
  have hl : l1 = l2 := by
    rcases lt_trichotomy l1 l2 with hlt | heq | hgt
    · exfalso
      have e1 := shr_two_le _ hH levels dH l1 l2 hlt hl2
      have e2 := shr_two_le _ hW levels dW l1 l2 hlt hl2
      have hb : band1 ≠ Subband.LL := by rcases p5 with h | h <;> [omega; exact h.1]
      cases band1 <;> cases band2 <;> simp only [ScatterIter.dst, Prod.mk.injEq, ne_eq,
        not_true_eq_false] at hd hb <;> omega
    · exact heq
    · exfalso
      have e1 := shr_two_le _ hH levels dH l2 l1 hgt hl1
      have e2 := shr_two_le _ hW levels dW l2 l1 hgt hl1
      have hb : band2 ≠ Subband.LL := by rcases q5 with h | h <;> [omega; exact h.1]
      cases band1 <;> cases band2 <;> simp only [ScatterIter.dst, Prod.mk.injEq, ne_eq,
        not_true_eq_false] at hd hb <;> omega
  subst hl
  have key : band1 = band2 ∧ b1 * (block_size >>> l1) + y1 = b2 * (block_size >>> l1) + y2 ∧
      d1 * (block_size >>> l1) + x1 = d2 * (block_size >>> l1) + x2 := by
    cases band1 <;> cases band2 <;> simp only [ScatterIter.dst, Prod.mk.injEq, true_and,
      false_and, reduceCtorEq] at hd ⊢ <;> omega
  obtain ⟨k1, k2, k3⟩ := key
  obtain ⟨e1, e2⟩ := tile_unique _ _ _ _ _ p6 p7 q6 q7 k2
  obtain ⟨e3, e4⟩ := tile_unique _ _ _ _ _ p8 p9 q8 q9 k3
  subst k1 e1 e2 e3 e4
  rfl

theorem dst_surjective (block_size blocks_in_y blocks_in_x : Int) (levels : Nat)
    (hbs : 0 ≤ block_size) (hdiv : (2 : Int) ^ levels ∣ block_size) (c : Nat) (ty tx : Int)
    (hty : 0 ≤ ty) (htx : 0 ≤ tx) :
    ∀ j l : Nat, l + j = levels →
      ty < (blocks_in_y * block_size) >>> l → tx < (blocks_in_x * block_size) >>> l →
      ∃ it : ScatterIter, it.InLoops block_size blocks_in_y blocks_in_x levels ∧ it.c = c ∧
        it.dst block_size (blocks_in_y * block_size) (blocks_in_x * block_size) = (ty, tx) := by
  have dH : (2 : Int) ^ levels ∣ blocks_in_y * block_size := Dvd.dvd.mul_left hdiv _
  have dW : (2 : Int) ^ levels ∣ blocks_in_x * block_size := Dvd.dvd.mul_left hdiv _
  intro j
  induction j with
  | zero =>
    intro l hl h1 h2
    have hl' : l = levels := by omega
    subst hl'
    rw [shr_mul_of_dvd _ _ _ _ le_rfl hdiv] at h1 h2
    obtain ⟨b, y, hb0, hb1, hy0, hy1, hy⟩ :=
      tile_decode blocks_in_y (block_size >>> l) ty (shr_nonneg _ _ hbs) hty h1
    obtain ⟨d, x, hd0, hd1, hx0, hx1, hx⟩ :=
      tile_decode blocks_in_x (block_size >>> l) tx (shr_nonneg _ _ hbs) htx h2
    refine ⟨⟨c, b, d, l, Subband.LL, y, x⟩, ⟨hb0, hb1, hd0, hd1, Or.inl ⟨rfl, rfl⟩, hy0, hy1, hx0,
      hx1⟩, rfl, ?_⟩
    simp only [ScatterIter.dst, hy, hx]
  | succ j ih =>
    intro l hl h1 h2
    by_cases hin : ty < (blocks_in_y * block_size) >>> (l + 1) ∧
        tx < (blocks_in_x * block_size) >>> (l + 1)
    · exact ih (l + 1) (by omega) hin.1 hin.2
    · have eH := shr_succ_of_dvd _ l levels (by omega) dH
      have eW := shr_succ_of_dvd _ l levels (by omega) dW
      have hl1 : l + 1 ≤ levels := by omega
      have mH := shr_mul_of_dvd blocks_in_y block_size (l + 1) levels hl1 hdiv
      have mW := shr_mul_of_dvd blocks_in_x block_size (l + 1) levels hl1 hdiv
      have hbs' := shr_nonneg block_size (l + 1) hbs
      by_cases hy : ty < (blocks_in_y * block_size) >>> (l + 1)
      · -- rows in the low half, columns in the high half: subband LH
        have hx : (blocks_in_x * block_size) >>> (l + 1) ≤ tx := by
          by_contra hcon
          exact hin ⟨hy, by omega⟩
        obtain ⟨b, y, hb0, hb1, hy0, hy1, hyy⟩ :=
          tile_decode blocks_in_y (block_size >>> (l + 1)) ty hbs' hty (by omega)
        obtain ⟨d, x, hd0, hd1, hx0, hx1, hxx⟩ :=
          tile_decode blocks_in_x (block_size >>> (l + 1))
            (tx - (blocks_in_x * block_size) >>> (l + 1)) hbs' (by omega) (by omega)
        refine ⟨⟨c, b, d, l + 1, Subband.LH, y, x⟩, ⟨hb0, hb1, hd0, hd1,
          Or.inr ⟨by simp, Nat.le_add_left 1 l, hl1⟩, hy0, hy1, hx0, hx1⟩, rfl, ?_⟩
        simp only [ScatterIter.dst, Prod.mk.injEq]
        constructor <;> omega
      · by_cases hx : tx < (blocks_in_x * block_size) >>> (l + 1)
        · obtain ⟨b, y, hb0, hb1, hy0, hy1, hyy⟩ :=
            tile_decode blocks_in_y (block_size >>> (l + 1))
              (ty - (blocks_in_y * block_size) >>> (l + 1)) hbs' (by omega) (by omega)
          obtain ⟨d, x, hd0, hd1, hx0, hx1, hxx⟩ :=
            tile_decode blocks_in_x (block_size >>> (l + 1)) tx hbs' htx (by omega)
          refine ⟨⟨c, b, d, l + 1, Subband.HL, y, x⟩, ⟨hb0, hb1, hd0, hd1,
            Or.inr ⟨by simp, Nat.le_add_left 1 l, hl1⟩, hy0, hy1, hx0, hx1⟩, rfl, ?_⟩
          simp only [ScatterIter.dst, Prod.mk.injEq]
          constructor <;> omega
        · obtain ⟨b, y, hb0, hb1, hy0, hy1, hyy⟩ :=
            tile_decode blocks_in_y (block_size >>> (l + 1))
              (ty - (blocks_in_y * block_size) >>> (l + 1)) hbs' (by omega) (by omega)
          obtain ⟨d, x, hd0, hd1, hx0, hx1, hxx⟩ :=
            tile_decode blocks_in_x (block_size >>> (l + 1))
              (tx - (blocks_in_x * block_size) >>> (l + 1)) hbs' (by omega) (by omega)
          refine ⟨⟨c, b, d, l + 1, Subband.HH, y, x⟩, ⟨hb0, hb1, hd0, hd1,
            Or.inr ⟨by simp, Nat.le_add_left 1 l, hl1⟩, hy0, hy1, hx0, hx1⟩, rfl, ?_⟩
          simp only [ScatterIter.dst, Prod.mk.injEq]
          constructor <;> omega


theorem predictLevels_zero : predictLevels 0 = 0 := by
  simp [predictLevels]

theorem predictLevels_two_pow (k : Nat) : predictLevels ((2 : Int) ^ k) = k := by
  have hpos : (2 : Int) ^ k > 0 := by positivity
  have hcast : ((2 : Int) ^ k).toNat = 2 ^ k := by
    have : ((2 : Int) ^ k) = ((2 ^ k : Nat) : Int) := by push_cast; rfl
    rw [this, Int.toNat_natCast]
  unfold predictLevels
  rw [if_pos hpos, hcast, ← pow_mul, Nat.log_pow (by norm_num)]
  omega

theorem predictScatter_inLoops (block_overlaping block_size blocks_in_y blocks_in_x : Int)
    (components : Nat) (it : ScatterIter) :
    it ∈ predictScatter block_overlaping block_size blocks_in_y blocks_in_x components ↔
      it.c < components ∧
        it.InLoops block_size blocks_in_y blocks_in_x (predictLevels block_overlaping) := by
  rw [mem_predictScatter]
  unfold ScatterIter.InLoops
  tauto

theorem count_eq_one_of_nodup_mem {α : Type} [BEq α] [LawfulBEq α] {a : α} :
    ∀ {l : List α}, l.Nodup → a ∈ l → l.count a = 1
  | [], _, h => by simp at h
  | b :: l, d, h => by
    rw [List.nodup_cons] at d
    rw [List.count_cons]
    by_cases hba : b = a
    · subst hba
      have : List.count b l = 0 := List.count_eq_zero.2 d.1
      simp [this]
    · have hmem : a ∈ l := by
        rcases List.mem_cons.1 h with h | h
        · exact absurd h.symm hba
        · exact h
      have ih := count_eq_one_of_nodup_mem d.2 hmem
      simp [ih, hba]

/-- Coverage and disjointness of the scatter for a geometry whose block size is a multiple
of `2^levels`. -/
theorem predictWrites_count (block_overlaping block_size blocks_in_y blocks_in_x : Int)
    (components : Nat) (hbs : 0 ≤ block_size)
    (hdiv : (2 : Int) ^ predictLevels block_overlaping ∣ block_size)
    (c : Nat) (y x : Int) (hc : c < components)
    (hy0 : 0 ≤ y) (hy1 : y < blocks_in_y * block_size)
    (hx0 : 0 ≤ x) (hx1 : x < blocks_in_x * block_size) :
    (predictWrites block_overlaping block_size blocks_in_y blocks_in_x components
      (blocks_in_y * block_size) (blocks_in_x * block_size)).count (c, y, x) = 1 := by
  apply count_eq_one_of_nodup_mem
  · unfold predictWrites
    refine List.Nodup.map_on ?_ (nodup_predictScatter _ _ _ _ _)
    intro it1 h1 it2 h2 heq
    rw [predictScatter_inLoops] at h1 h2
    simp only [Prod.mk.injEq] at heq
    exact dst_injective block_size blocks_in_y blocks_in_x _ hbs hdiv it1 it2 h1.2 h2.2 heq.1
      heq.2
  · unfold predictWrites
    rw [List.mem_map]
    obtain ⟨it, hv, hcc, hd⟩ := dst_surjective block_size blocks_in_y blocks_in_x
      (predictLevels block_overlaping) hbs hdiv c y x hy0 hx0 (predictLevels block_overlaping) 0
      (by omega) (by rw [Int.shiftRight_eq_div_pow]; simpa using hy1)
      (by rw [Int.shiftRight_eq_div_pow]; simpa using hx1)
    refine ⟨it, (predictScatter_inLoops _ _ _ _ _ _).2 ⟨by omega, hv⟩, ?_⟩
    rw [hcc, hd]

/-- C1. In `predict()`, when `block_overlaping` is 0 or a power of two `2^levels` that divides
the (non-negative) `block_size`, and the picture is exactly `blocks_in_y x blocks_in_x` blocks,
the scatter loops (LH, HL, HH for `l = 1..levels` and LL at the coarsest level, over all
blocks) write every coordinate `(y, x)` of `prediction_picture[c]` with
`0 <= y < pixels_in_y`, `0 <= x < pixels_in_x` exactly once, for every component `c`. -/
theorem predict_scatter_writes_each_coordinate_once
    (block_overlaping block_size blocks_in_y blocks_in_x pixels_in_y pixels_in_x : Int)
    (components levels : Nat) (hbs : 0 ≤ block_size)
    (hov : block_overlaping = 0 ∨
      (block_overlaping = 2 ^ levels ∧ (2 : Int) ^ levels ∣ block_size))
    (hy : pixels_in_y = blocks_in_y * block_size)
    (hx : pixels_in_x = blocks_in_x * block_size)
    (c : Nat) (y x : Int) (hc : c < components)
    (hy0 : 0 ≤ y) (hy1 : y < pixels_in_y) (hx0 : 0 ≤ x) (hx1 : x < pixels_in_x) :
    (predictWrites block_overlaping block_size blocks_in_y blocks_in_x components
      pixels_in_y pixels_in_x).count (c, y, x) = 1 := by
  subst hy hx
  refine predictWrites_count block_overlaping block_size blocks_in_y blocks_in_x components hbs
    ?_ c y x hc hy0 hy1 hx0 hx1
  rcases hov with h | ⟨h, hd⟩
  · rw [h, predictLevels_zero]
    simp
  · rw [h, predictLevels_two_pow]
    exact hd

theorem predict_scatter_writes_each_coordinate_once_witness :
    (predictWrites 2 4 2 3 3 8 12).count (1, 5, 7) = 1 :=
  predict_scatter_writes_each_coordinate_once 2 4 2 3 8 12 3 1 (by decide)
    (Or.inr ⟨by norm_num, by norm_num⟩) (by norm_num) (by norm_num) 1 5 7 (by decide)
    (by decide) (by decide) (by decide) (by decide)



/-! ## Clips -/

theorem clip255_range (v : Int) : 0 ≤ clip255 v ∧ clip255 v ≤ 255 := by
  unfold clip255
  split_ifs <;> omega

theorem clip255_of_range (v : Int) (h0 : 0 ≤ v) (h1 : v ≤ 255) : clip255 v = v := by
  unfold clip255
  split_ifs <;> omega

theorem clip128_range (v : Int) : -128 ≤ clip128 v ∧ clip128 v ≤ 127 := by
  unfold clip128
  split_ifs <;> omega

theorem clip128_of_range (v : Int) (h0 : -128 ≤ v) (h1 : v ≤ 127) : clip128 v = v := by
  unfold clip128
  split_ifs <;> omega

/-! ## What one iteration writes -/

/-- The predicted picture after `image.read(odd_fd, predicted[c], ...)`. -/
theorem analyzeIteration_predicted (image_dwt : Dwt2d) (fm : FloatModel) (cfg : Config)
    (zeroes : MotionField) (st : State) (odd even : Picture) (mv : MotionField)
    (c : Nat) (y x : Int) (hc : c < COMPONENTS)
    (hin : inRect (cfg.pixels_in_y c) (cfg.pixels_in_x c) y x) :
    (analyzeIteration image_dwt fm cfg zeroes st odd even mv).1.predicted c y x = odd c y x := by
  simp only [analyzeIteration, texture_read, hc, hin, if_true]

theorem analyzeIteration_high (image_dwt : Dwt2d) (fm : FloatModel) (cfg : Config)
    (zeroes : MotionField) (st : State) (odd even : Picture) (mv : MotionField) :
    (analyzeIteration image_dwt fm cfg zeroes st odd even mv).2.high =
      highStep cfg (analyzeIteration image_dwt fm cfg zeroes st odd even mv).2.frame_type
        (analyzeIteration image_dwt fm cfg zeroes st odd even mv).1.predicted
        (residueStep cfg (analyzeIteration image_dwt fm cfg zeroes st odd even mv).1.predicted
          (analyzeIteration image_dwt fm cfg zeroes st odd even mv).2.prediction st.residue) :=
  rfl

theorem analyzeIteration_frame_type (image_dwt : Dwt2d) (fm : FloatModel) (cfg : Config)
    (zeroes : MotionField) (st : State) (odd even : Picture) (mv : MotionField) :
    (analyzeIteration image_dwt fm cfg zeroes st odd even mv).2.frame_type =
      frameType fm cfg (analyzeIteration image_dwt fm cfg zeroes st odd even mv).1.predicted
        (residueStep cfg (analyzeIteration image_dwt fm cfg zeroes st odd even mv).1.predicted
          (analyzeIteration image_dwt fm cfg zeroes st odd even mv).2.prediction st.residue)
        mv :=
  rfl

theorem analyzeIteration_motion_out (image_dwt : Dwt2d) (fm : FloatModel) (cfg : Config)
    (zeroes : MotionField) (st : State) (odd even : Picture) (mv : MotionField) :
    (analyzeIteration image_dwt fm cfg zeroes st odd even mv).2.motion_out =
      motionOutStep (analyzeIteration image_dwt fm cfg zeroes st odd even mv).2.frame_type mv
        zeroes :=
  rfl

theorem synthesizeIteration_odd (image_dwt : Dwt2d) (cfg : Config) (st : State)
    (high even : Picture) (mv : MotionField) (frame_type : Char) :
    (synthesizeIteration image_dwt cfg st high even mv frame_type).2 =
      reconstructStep cfg frame_type (readHigh cfg high st.residue)
        (synthesizeIteration image_dwt cfg st high even mv frame_type).1.prediction
        st.predicted :=
  rfl

/-! ## The frame-type decision -/

theorem truncToInt_mono {a b : ℚ} (h : a ≤ b) : truncToInt a ≤ truncToInt b := by
  unfold truncToInt
  split_ifs with ha hb hb
  · exact Int.floor_le_floor h
  · exact absurd (le_trans ha h) hb
  · have h1 : ⌈a⌉ ≤ 0 := by
      rw [Int.ceil_le]
      push_cast
      exact le_of_lt (not_le.1 ha)
    have h2 : (0 : Int) ≤ ⌊b⌋ := Int.floor_nonneg.2 hb
    omega
  · exact Int.ceil_le_ceil h

theorem truncToInt_intCast (n : Int) : truncToInt (n : ℚ) = n := by
  unfold truncToInt
  split_ifs <;> simp

/-- The size estimate grows with the entropy when the two dimensions are non-negative. -/
theorem entropySize_mono (fm : FloatModel) (hmono : Monotone fm.toFloat)
    (hzero : fm.toFloat 0 = 0) (a b : Int) (ha : 0 ≤ a) (hb : 0 ≤ b) {e e' : ℚ} (h : e' ≤ e) :
    entropySize fm e' a b ≤ entropySize fm e a b := by
  unfold entropySize
  have fa : 0 ≤ fm.toFloat (a : ℚ) := by
    rw [← hzero]
    exact hmono (by exact_mod_cast ha)
  have fb : 0 ≤ fm.toFloat (b : ℚ) := by
    rw [← hzero]
    exact hmono (by exact_mod_cast hb)
  apply truncToInt_mono
  apply hmono
  apply mul_le_mul_of_nonneg_right _ fb
  apply hmono
  exact mul_le_mul_of_nonneg_right h fa

theorem entropySize_zero (fm : FloatModel) (hzero : fm.toFloat 0 = 0) (a b : Int) :
    entropySize fm 0 a b = 0 := by
  unfold entropySize
  rw [zero_mul, hzero, zero_mul, hzero]
  exact truncToInt_intCast 0

theorem entropySize_one_pos (fm : FloatModel) (hmono : Monotone fm.toFloat)
    (hone : fm.toFloat 1 = 1) (a b : Int) (ha : 0 < a) (hb : 0 < b) :
    0 < entropySize fm 1 a b := by
  unfold entropySize
  have fa : 1 ≤ fm.toFloat (a : ℚ) := by
    rw [← hone]
    exact hmono (by exact_mod_cast ha)
  have fb : 1 ≤ fm.toFloat (b : ℚ) := by
    rw [← hone]
    exact hmono (by exact_mod_cast hb)
  have h1 : 1 ≤ fm.toFloat (1 * fm.toFloat (a : ℚ)) := by
    rw [one_mul]
    calc (1 : ℚ) = fm.toFloat 1 := hone.symm
      _ ≤ fm.toFloat (fm.toFloat (a : ℚ)) := hmono fa
  have h2 : 1 ≤ fm.toFloat (fm.toFloat (1 * fm.toFloat (a : ℚ)) * fm.toFloat (b : ℚ)) := by
    calc (1 : ℚ) = fm.toFloat 1 := hone.symm
      _ ≤ _ := hmono (by nlinarith)
  have h3 : truncToInt (((1 : Int) : ℚ)) ≤
      truncToInt (fm.toFloat (fm.toFloat (1 * fm.toFloat (a : ℚ)) * fm.toFloat (b : ℚ))) :=
    truncToInt_mono (by rw [Int.cast_one]; exact h2)
  rw [truncToInt_intCast] at h3
  omega

/-- With `always_B` set and a non-empty luma plane the decision takes the `else` branch. -/
theorem frameType_always_B (fm : FloatModel) (cfg : Config) (hmono : Monotone fm.toFloat)
    (hzero : fm.toFloat 0 = 0) (hone : fm.toFloat 1 = 1) (hB : cfg.always_B ≠ 0)
    (hy : 0 < cfg.pixels_in_y0) (hx : 0 < cfg.pixels_in_x0)
    (predicted residue : Picture) (mv : MotionField) :
    frameType fm cfg predicted residue mv = 'B' := by
  unfold frameType electType predicted_entropy residue_entropy motion_entropy predicted_size
    residue_size motion_size
  rw [if_neg hB, if_neg hB, if_neg hB, entropySize_zero fm hzero, entropySize_zero fm hzero]
  have := entropySize_one_pos fm hmono hone _ _ hy hx
  rw [if_neg (by omega)]



/-! ## Residue, high band and reconstruction -/

/-- C5. In analysis, for every component `c` and every in-range `(y, x)`, the residue equals
`predicted[c][y][x] - prediction[c][y][x]` saturated to `[-128,127]`: the difference itself when
it lies in `[-128,127]`, `-128` when it is below, `127` when it is above; so every residue
sample lies in `[-128,127]`. -/
theorem residue_is_saturated_difference (cfg : Config) (predicted prediction residue : Picture)
    (c : Nat) (y x : Int) (hc : c < COMPONENTS)
    (hin : inRect (cfg.pixels_in_y c) (cfg.pixels_in_x c) y x) :
    (-128 ≤ predicted c y x - prediction c y x → predicted c y x - prediction c y x ≤ 127 →
      residueStep cfg predicted prediction residue c y x
        = predicted c y x - prediction c y x) ∧
    (predicted c y x - prediction c y x < -128 →
      residueStep cfg predicted prediction residue c y x = -128) ∧
    (127 < predicted c y x - prediction c y x →
      residueStep cfg predicted prediction residue c y x = 127) ∧
    -128 ≤ residueStep cfg predicted prediction residue c y x ∧
    residueStep cfg predicted prediction residue c y x ≤ 127 := by
  have h : residueStep cfg predicted prediction residue c y x
      = clip128 (predicted c y x - prediction c y x) := by
    simp only [residueStep, hc, hin, and_self, if_true]
  rw [h]
  unfold clip128
  refine ⟨?_, ?_, ?_, ?_, ?_⟩ <;> intros <;> split_ifs <;> omega

theorem residue_is_saturated_difference_witness :
    residueStep (smallConfig 4 1) (constPicture 200) (constPicture 10) (constPicture 7) 1 1 1
      = 127 :=
  (residue_is_saturated_difference (smallConfig 4 1) (constPicture 200) (constPicture 10)
    (constPicture 7) 1 1 1 (by decide) (by decide)).2.2.1 (by decide)

/-- C3. In synthesis, whenever the type byte read is `'I'`, for every component `c` and every
in-range `(y, x)` the sample handed to the writer of `odd` equals the sample read from `high`
(`(high - 128) + 128 = high`), whatever the references, the motion field and the prediction. -/
theorem synthesis_I_carry_through (image_dwt : Dwt2d) (cfg : Config) (st : State)
    (high even : Picture) (mv : MotionField) (c : Nat) (y x : Int) (hc : c < COMPONENTS)
    (hin : inRect (cfg.pixels_in_y c) (cfg.pixels_in_x c) y x) :
    (synthesizeIteration image_dwt cfg st high even mv 'I').2 c y x = high c y x := by
  rw [synthesizeIteration_odd]
  simp only [reconstructStep, readHigh, hc, hin, and_self, if_true]
  omega

theorem synthesis_I_carry_through_witness :
    (synthesizeIteration identityDwt (smallConfig 4 0) (constState 9) (constPicture 201)
      (constPicture 50) (constMotion 0) 'I').2 2 1 0 = 201 :=
  synthesis_I_carry_through identityDwt (smallConfig 4 0) (constState 9) (constPicture 201)
    (constPicture 50) (constMotion 0) 2 1 0 (by decide) (by decide)

/-- C4. For samples of `odd` and `high` in `[0,255]` and any prediction, every working value
handed to the writer of `high` by analysis (whether the picture is elected `I` or `B`) and to
the writer of `odd` by synthesis (whether the type byte is `'I'` or not) lies in `[0,255]`. -/
theorem written_samples_in_byte_range (image_dwt : Dwt2d) (fm : FloatModel) (cfg : Config)
    (zeroes : MotionField) (st st' : State) (odd even high even' : Picture)
    (mv mv' : MotionField) (frame_type : Char)
    (hodd : ∀ c y x, 0 ≤ odd c y x ∧ odd c y x ≤ 255)
    (hhigh : ∀ c y x, 0 ≤ high c y x ∧ high c y x ≤ 255)
    (c : Nat) (y x : Int) (hc : c < COMPONENTS)
    (hin : inRect (cfg.pixels_in_y c) (cfg.pixels_in_x c) y x) :
    (0 ≤ (analyzeIteration image_dwt fm cfg zeroes st odd even mv).2.high c y x ∧
      (analyzeIteration image_dwt fm cfg zeroes st odd even mv).2.high c y x ≤ 255) ∧
    (0 ≤ (synthesizeIteration image_dwt cfg st' high even' mv' frame_type).2 c y x ∧
      (synthesizeIteration image_dwt cfg st' high even' mv' frame_type).2 c y x ≤ 255) := by
  constructor
  · rw [analyzeIteration_high]
    simp only [highStep, hc, hin, and_self, if_true]
    split_ifs
    · rw [analyzeIteration_predicted _ _ _ _ _ _ _ _ c y x hc hin]
      exact hodd c y x
    · exact clip255_range _
  · rw [synthesizeIteration_odd]
    simp only [reconstructStep, readHigh, hc, hin, and_self, if_true]
    split_ifs
    · have := hhigh c y x
      omega
    · exact clip255_range _

theorem written_samples_in_byte_range_witness :
    (0 ≤ (analyzeIteration identityDwt (exactArith fun _ _ => 0) (smallConfig 4 0)
        (constMotion 0) (constState 0) (constPicture 255) (constPicture 0)
        (constMotion 0)).2.high 0 1 1 ∧
      (analyzeIteration identityDwt (exactArith fun _ _ => 0) (smallConfig 4 0)
        (constMotion 0) (constState 0) (constPicture 255) (constPicture 0)
        (constMotion 0)).2.high 0 1 1 ≤ 255) ∧
    (0 ≤ (synthesizeIteration identityDwt (smallConfig 4 0) (constState 0) (constPicture 255)
        (constPicture 0) (constMotion 0) 'B').2 0 1 1 ∧
      (synthesizeIteration identityDwt (smallConfig 4 0) (constState 0) (constPicture 255)
        (constPicture 0) (constMotion 0) 'B').2 0 1 1 ≤ 255) :=
  written_samples_in_byte_range identityDwt (exactArith fun _ _ => 0) (smallConfig 4 0)
    (constMotion 0) (constState 0) (constState 0) (constPicture 255) (constPicture 0)
    (constPicture 255) (constPicture 0) (constMotion 0) (constMotion 0) 'B'
    (fun _ _ _ => by simp [constPicture]) (fun _ _ _ => by simp [constPicture]) 0 1 1
    (by decide) (by decide)


/-! ## Frame-type election -/

theorem roundHalfEven_intCast (n : Int) : roundHalfEven (n : ℚ) = n := by
  unfold roundHalfEven
  simp

theorem roundHalfEven_tie (f : Int) :
    roundHalfEven ((f : ℚ) + 1 / 2) = if f % 2 = 0 then f else f + 1 := by
  have hf : ⌊(f : ℚ) + 1 / 2⌋ = f := by
    rw [Int.floor_eq_iff]
    constructor <;> norm_num
  unfold roundHalfEven
  rw [hf]
  norm_num

/-- The exponent of a positive number. -/
theorem log_of_binade (r : ℚ) (e : Int) (hr : 0 < r) (h1 : (2 : ℚ) ^ e ≤ r)
    (h2 : r < (2 : ℚ) ^ (e + 1)) : Int.log 2 |r| = e := by
  rw [abs_of_pos hr]
  have a1 : e ≤ Int.log 2 r :=
    (Int.zpow_le_iff_le_log (by norm_num) hr).1 (by exact_mod_cast h1)
  have a2 : Int.log 2 r < e + 1 :=
    (Int.lt_zpow_iff_log_lt (by norm_num) hr).1 (by exact_mod_cast h2)
  omega

/-- The binary32 value of a positive number of exponent `e`. -/
theorem roundBinary32_of_binade (r : ℚ) (e n : Int) (hr : 0 < r) (h1 : (2 : ℚ) ^ e ≤ r)
    (h2 : r < (2 : ℚ) ^ (e + 1)) (hn : roundHalfEven (r / 2 ^ (e - 23)) = n) :
    roundBinary32 r = (n : ℚ) * 2 ^ (e - 23) := by
  unfold roundBinary32
  rw [if_neg (ne_of_gt hr), log_of_binade r e hr h1 h2, hn]

/-- A number with at most 24 significant bits is a binary32 number. -/
theorem roundBinary32_exact (r : ℚ) (e m : Int) (hr : 0 < r) (h1 : (2 : ℚ) ^ e ≤ r)
    (h2 : r < (2 : ℚ) ^ (e + 1)) (hm : r = (m : ℚ) * 2 ^ (e - 23)) : roundBinary32 r = r := by
  have hp : (2 : ℚ) ^ (e - 23) ≠ 0 := zpow_ne_zero _ (by norm_num)
  rw [roundBinary32_of_binade r e m hr h1 h2 ?_, ← hm]
  rw [hm, mul_div_assoc, div_self hp, mul_one, roundHalfEven_intCast]

theorem roundBinary32_zero : roundBinary32 0 = 0 := by
  unfold roundBinary32
  rw [if_pos rfl]

theorem roundBinary32_288 : roundBinary32 288 = 288 :=
  roundBinary32_exact 288 8 9437184 (by norm_num) (by norm_num) (by norm_num) (by norm_num)

theorem roundBinary32_352 : roundBinary32 352 = 352 :=
  roundBinary32_exact 352 8 11534336 (by norm_num) (by norm_num) (by norm_num) (by norm_num)

/-- `218165/131072 * 288` has 21 significant bits. -/
theorem roundBinary32_predicted_rows :
    roundBinary32 (218165 / 131072 * 288) = 1963485 / 4096 :=
  (roundBinary32_exact (218165 / 131072 * 288) 8 15707880 (by norm_num) (by norm_num)
    (by norm_num) (by norm_num)).trans (by norm_num)

/-- `218165/131072 * 288 * 352 = 168736 + 127/128` lies half-way between the binary32 numbers
`168736 + 63/64` and `168737`, and is rounded to the one with the even significand. -/
theorem roundBinary32_predicted_product :
    roundBinary32 (1963485 / 4096 * 352) = 168737 := by
  rw [roundBinary32_of_binade (1963485 / 4096 * 352) 17 10799168 (by norm_num) (by norm_num)
    (by norm_num) ?_]
  · norm_num
  · rw [show (1963485 / 4096 * 352 : ℚ) / 2 ^ ((17 : Int) - 23) = ((10799167 : Int) : ℚ) + 1 / 2 by
      norm_num, roundHalfEven_tie]
    decide

theorem roundBinary32_residue_rows :
    roundBinary32 (218164 / 131072 * 288) = 490869 / 1024 :=
  (roundBinary32_exact (218164 / 131072 * 288) 8 15707808 (by norm_num) (by norm_num)
    (by norm_num) (by norm_num)).trans (by norm_num)

theorem roundBinary32_residue_product :
    roundBinary32 (490869 / 1024 * 352) = 5399559 / 32 :=
  (roundBinary32_exact (490869 / 1024 * 352) 17 10799118 (by norm_num) (by norm_num)
    (by norm_num) (by norm_num)).trans (by norm_num)

theorem truncToInt_of_floor (f : ℚ) (n : Int) (h0 : 0 ≤ f) (h1 : (n : ℚ) ≤ f)
    (h2 : f < (n : ℚ) + 1) : truncToInt f = n := by
  unfold truncToInt
  rw [if_pos h0, Int.floor_eq_iff]
  exact ⟨h1, h2⟩

theorem entropySize_binary32_predicted (entropy : (Int → Int) → Int → ℚ) :
    entropySize (binary32 entropy) (218165 / 131072) 288 352 = 168737 := by
  unfold entropySize binary32
  simp only [Int.cast_ofNat]
  rw [roundBinary32_288, roundBinary32_352, roundBinary32_predicted_rows,
    roundBinary32_predicted_product]
  exact truncToInt_intCast 168737

theorem entropySize_binary32_residue (entropy : (Int → Int) → Int → ℚ) :
    entropySize (binary32 entropy) (218164 / 131072) 288 352 = 168736 := by
  unfold entropySize binary32
  simp only [Int.cast_ofNat]
  rw [roundBinary32_288, roundBinary32_352, roundBinary32_residue_rows,
    roundBinary32_residue_product]
  exact truncToInt_of_floor _ 168736 (by norm_num) (by norm_num) (by norm_num)

/-- C7 fails in `float` arithmetic.  On a `352 x 288` picture in blocks of side 16 (the
defaults of `main()`), take the predicted entropy `218165/131072`, the residue entropy
`218164/131072` (both `float` numbers) and the motion entropy 0.  The `float` product
`predicted_entropy * 288 * 352` is rounded from `168736 + 127/128` up to `168737`, so the
program computes `predicted_size = 168737`, `residue_size = 168736`, `motion_size = 0` and
elects `'B'`; the exact products of the claim truncate to `168736`, `168736` and `0`, for which
`predicted_size <= residue_size + motion_size` holds and the claim gives `'I'`. -/
theorem frame_type_election_counterexample :
    roundBinary32 (218165 / 131072) = 218165 / 131072 ∧
    roundBinary32 (218164 / 131072) = 218164 / 131072 ∧
    predicted_size (binary32 fun _ _ => 0) defaultConfig (218165 / 131072) = 168737 ∧
    residue_size (binary32 fun _ _ => 0) defaultConfig (218164 / 131072) = 168736 ∧
    motion_size (binary32 fun _ _ => 0) defaultConfig 0 = 0 ∧
    electType (binary32 fun _ _ => 0) defaultConfig (218165 / 131072) (218164 / 131072) 0
      = 'B' ∧
    truncToInt ((218165 / 131072 : ℚ) * defaultConfig.pixels_in_y0
      * defaultConfig.pixels_in_x0) = 168736 ∧
    truncToInt ((218164 / 131072 : ℚ) * defaultConfig.pixels_in_y0
      * defaultConfig.pixels_in_x0) = 168736 ∧
    truncToInt ((0 : ℚ) * defaultConfig.blocks_in_y * defaultConfig.blocks_in_x) = 0 ∧
    truncToInt ((218165 / 131072 : ℚ) * defaultConfig.pixels_in_y0
        * defaultConfig.pixels_in_x0)
      ≤ truncToInt ((218164 / 131072 : ℚ) * defaultConfig.pixels_in_y0
          * defaultConfig.pixels_in_x0)
        + truncToInt ((0 : ℚ) * defaultConfig.blocks_in_y * defaultConfig.blocks_in_x) := by
  have hp : predicted_size (binary32 fun _ _ => 0) defaultConfig (218165 / 131072) = 168737 :=
    entropySize_binary32_predicted _
  have hr : residue_size (binary32 fun _ _ => 0) defaultConfig (218164 / 131072) = 168736 :=
    entropySize_binary32_residue _
  have hm : motion_size (binary32 fun _ _ => 0) defaultConfig 0 = 0 :=
    entropySize_zero _ roundBinary32_zero _ _
  have cp : truncToInt ((218165 / 131072 : ℚ) * defaultConfig.pixels_in_y0
      * defaultConfig.pixels_in_x0) = 168736 := by
    apply truncToInt_of_floor <;> norm_num [defaultConfig]
  have cr : truncToInt ((218164 / 131072 : ℚ) * defaultConfig.pixels_in_y0
      * defaultConfig.pixels_in_x0) = 168736 := by
    apply truncToInt_of_floor <;> norm_num [defaultConfig]
  have cm : truncToInt ((0 : ℚ) * defaultConfig.blocks_in_y * defaultConfig.blocks_in_x)
      = 0 := by
    rw [zero_mul, zero_mul]
    exact truncToInt_intCast 0
  refine ⟨?_, ?_, hp, hr, hm, ?_, cp, cr, cm, ?_⟩
  · exact roundBinary32_exact _ 0 13962560 (by norm_num) (by norm_num) (by norm_num)
      (by norm_num)
  · exact roundBinary32_exact _ 0 13962496 (by norm_num) (by norm_num) (by norm_num)
      (by norm_num)
  · unfold electType
    rw [hp, hr, hm]
    decide
  · rw [cp, cr, cm]
    decide

/-- C7, as amended.  In analysis the type byte written for a frame is `'I'` if and only if
`predicted_size <= residue_size + motion_size`, and `'B'` otherwise, where every size is the
truncation of a `float` product, each factor and each product being rounded to binary32 (`fl`):
`predicted_size = trunc(fl(fl(predicted_entropy * fl(H)) * fl(W)))`, `residue_size` likewise
from the residue entropy, and
`motion_size = trunc(fl(fl(motion_entropy * fl(blocks_in_y)) * fl(blocks_in_x)))`, with `H`,
`W` the luma dimensions.  Such a size is `trunc(entropy * a * b)` whenever the two factors
`a`, `b` and the two products `entropy * a`, `entropy * a * b` are binary32 numbers. -/
theorem frame_type_election_rule (image_dwt : Dwt2d) (entropy : (Int → Int) → Int → ℚ)
    (cfg : Config) (zeroes : MotionField) (st : State) (odd even : Picture) (mv : MotionField) :
    ((analyzeIteration image_dwt (binary32 entropy) cfg zeroes st odd even mv).2.frame_type
        = 'I' ↔
      truncToInt (roundBinary32 (roundBinary32
          (predicted_entropy (binary32 entropy) cfg
              (analyzeIteration image_dwt (binary32 entropy) cfg zeroes st odd even
                mv).1.predicted
            * roundBinary32 cfg.pixels_in_y0) * roundBinary32 cfg.pixels_in_x0))
        ≤ truncToInt (roundBinary32 (roundBinary32
              (residue_entropy (binary32 entropy) cfg
                  (analyzeResidue image_dwt (binary32 entropy) cfg zeroes st odd even mv)
                * roundBinary32 cfg.pixels_in_y0) * roundBinary32 cfg.pixels_in_x0))
          + truncToInt (roundBinary32 (roundBinary32
              (motion_entropy (binary32 entropy) cfg mv
                * roundBinary32 cfg.blocks_in_y) * roundBinary32 cfg.blocks_in_x))) ∧
    ((analyzeIteration image_dwt (binary32 entropy) cfg zeroes st odd even mv).2.frame_type
        = 'B' ↔
      ¬ truncToInt (roundBinary32 (roundBinary32
          (predicted_entropy (binary32 entropy) cfg
              (analyzeIteration image_dwt (binary32 entropy) cfg zeroes st odd even
                mv).1.predicted
            * roundBinary32 cfg.pixels_in_y0) * roundBinary32 cfg.pixels_in_x0))
        ≤ truncToInt (roundBinary32 (roundBinary32
              (residue_entropy (binary32 entropy) cfg
                  (analyzeResidue image_dwt (binary32 entropy) cfg zeroes st odd even mv)
                * roundBinary32 cfg.pixels_in_y0) * roundBinary32 cfg.pixels_in_x0))
          + truncToInt (roundBinary32 (roundBinary32
              (motion_entropy (binary32 entropy) cfg mv
                * roundBinary32 cfg.blocks_in_y) * roundBinary32 cfg.blocks_in_x))) ∧
    (∀ (e : ℚ) (a b : Int), roundBinary32 a = a → roundBinary32 b = b →
      roundBinary32 (e * a) = e * a → roundBinary32 (e * a * b) = e * a * b →
      entropySize (binary32 entropy) e a b = truncToInt (e * a * b)) := by
  have hft : (analyzeIteration image_dwt (binary32 entropy) cfg zeroes st odd even
      mv).2.frame_type =
      electType (binary32 entropy) cfg
        (predicted_entropy (binary32 entropy) cfg
          (analyzeIteration image_dwt (binary32 entropy) cfg zeroes st odd even mv).1.predicted)
        (residue_entropy (binary32 entropy) cfg
          (analyzeResidue image_dwt (binary32 entropy) cfg zeroes st odd even mv))
        (motion_entropy (binary32 entropy) cfg mv) := rfl
  refine ⟨?_, ?_, ?_⟩
  · rw [hft]
    unfold electType predicted_size residue_size motion_size entropySize
    show (if _ then 'I' else 'B') = 'I' ↔ _
    split_ifs with h
    · exact ⟨fun _ => h, fun _ => rfl⟩
    · exact ⟨fun hc => absurd hc (by decide), fun hc => absurd hc h⟩
  · rw [hft]
    unfold electType predicted_size residue_size motion_size entropySize
    show (if _ then 'I' else 'B') = 'B' ↔ _
    split_ifs with h
    · exact ⟨fun hc => absurd hc (by decide), fun hc => absurd h hc⟩
    · exact ⟨fun _ => h, fun _ => rfl⟩
  · intro e a b ha hb h1 h2
    show truncToInt (roundBinary32 (roundBinary32 (e * roundBinary32 a) * roundBinary32 b))
      = _
    rw [ha, hb, h1, h2]

theorem frame_type_election_rule_witness :
    roundBinary32 ((288 : Int) : ℚ) = ((288 : Int) : ℚ) ∧
    roundBinary32 ((352 : Int) : ℚ) = ((352 : Int) : ℚ) ∧
    entropySize (binary32 fun _ _ => 0) (218164 / 131072) 288 352
      = truncToInt ((218164 / 131072 : ℚ) * ((288 : Int) : ℚ) * ((352 : Int) : ℚ)) :=
  have ha : roundBinary32 ((288 : Int) : ℚ) = ((288 : Int) : ℚ) := by
    rw [Int.cast_ofNat]
    exact roundBinary32_288
  have hb : roundBinary32 ((352 : Int) : ℚ) = ((352 : Int) : ℚ) := by
    rw [Int.cast_ofNat]
    exact roundBinary32_352
  ⟨ha, hb,
    (frame_type_election_rule identityDwt (fun _ _ => 0) defaultConfig (constMotion 0)
      (constState 0) (constPicture 0) (constPicture 0) (constMotion 0)).2.2
      (218164 / 131072) 288 352 ha hb
      (by
        rw [Int.cast_ofNat, roundBinary32_residue_rows]
        norm_num)
      (by
        rw [Int.cast_ofNat, Int.cast_ofNat,
          show (218164 / 131072 * 288 * 352 : ℚ) = 490869 / 1024 * 352 by norm_num,
          roundBinary32_residue_product]
        norm_num)⟩

/-- C8. For fixed residue entropy, motion entropy and non-negative luma dimensions, if the
election with predicted entropy `e` is `'I'` then the election with any predicted entropy
`e' <= e` is also `'I'` (the rounding to `float` being monotone and exact at 0). -/
theorem election_monotone_in_predicted_entropy (fm : FloatModel) (cfg : Config)
    (hmono : Monotone fm.toFloat) (hzero : fm.toFloat 0 = 0)
    (hy : 0 ≤ cfg.pixels_in_y0) (hx : 0 ≤ cfg.pixels_in_x0)
    (e e' residue_entropy motion_entropy : ℚ) (hle : e' ≤ e)
    (hI : electType fm cfg e residue_entropy motion_entropy = 'I') :
    electType fm cfg e' residue_entropy motion_entropy = 'I' := by
  unfold electType at hI ⊢
  have hm : predicted_size fm cfg e' ≤ predicted_size fm cfg e :=
    entropySize_mono fm hmono hzero _ _ hy hx hle
  split_ifs at hI with h
  · rw [if_pos (le_trans hm h)]
  · exact absurd hI (by decide)

theorem election_monotone_in_predicted_entropy_witness :
    electType (exactArith fun _ _ => 0) (smallConfig 4 0) (1 / 2) 3 0 = 'I' :=
  election_monotone_in_predicted_entropy (exactArith fun _ _ => 0) (smallConfig 4 0)
    (fun _ _ h => h) rfl (by decide) (by decide) 2 (1 / 2) 3 0 (by norm_num)
    (by
      have h : predicted_size (exactArith fun _ _ => 0) (smallConfig 4 0) 2
          ≤ residue_size (exactArith fun _ _ => 0) (smallConfig 4 0) 3
            + motion_size (exactArith fun _ _ => 0) (smallConfig 4 0) 0 := by
        simp only [predicted_size, residue_size, motion_size, entropySize, exactArith,
          smallConfig, Config.blocks_in_y, Config.blocks_in_x]
        norm_num [truncToInt, Int.tdiv]
      simp only [electType, if_pos h])

/-- C9. When `always_B` is nonzero and the luma dimensions are positive, the type byte written
by analysis is `'B'`, whatever the predicted picture, the residue and the motion field: the
entropies are not computed, and `predicted_entropy = 1`, `residue_entropy = 0`,
`motion_entropy = 0` force the `else` branch (the rounding to `float` being monotone and exact
at 0 and 1). -/
theorem always_B_forces_B (image_dwt : Dwt2d) (fm : FloatModel) (cfg : Config)
    (hmono : Monotone fm.toFloat) (hzero : fm.toFloat 0 = 0) (hone : fm.toFloat 1 = 1)
    (hB : cfg.always_B ≠ 0) (hy : 0 < cfg.pixels_in_y0) (hx : 0 < cfg.pixels_in_x0)
    (zeroes : MotionField) (st : State) (odd even : Picture) (mv : MotionField) :
    (analyzeIteration image_dwt fm cfg zeroes st odd even mv).2.frame_type = 'B' ∧
    predicted_entropy fm cfg (analyzeIteration image_dwt fm cfg zeroes st odd even mv).1.predicted
      = 1 ∧
    (∀ residue : Picture, residue_entropy fm cfg residue = 0) ∧
    motion_entropy fm cfg mv = 0 := by
  refine ⟨?_, ?_, ?_, ?_⟩
  · rw [analyzeIteration_frame_type]
    exact frameType_always_B fm cfg hmono hzero hone hB hy hx _ _ _
  · simp only [predicted_entropy, if_neg hB]
  · intro residue
    simp only [residue_entropy, if_neg hB]
  · simp only [motion_entropy, if_neg hB]

theorem always_B_forces_B_witness :
    (analyzeIteration identityDwt (exactArith fun _ _ => 5) (smallConfig 4 1) (constMotion 0)
      (constState 0) (constPicture 77) (constPicture 3) (constMotion 2)).2.frame_type = 'B' :=
  (always_B_forces_B identityDwt (exactArith fun _ _ => 5) (smallConfig 4 1) (fun _ _ h => h)
    rfl rfl (by decide) (by decide) (by decide) (constMotion 0) (constState 0)
    (constPicture 77) (constPicture 3) (constMotion 2)).1

/-- The election made when the entropy routine returns 0: the three sizes are 0. -/
theorem frameType_zero_entropy (cfg : Config) (predicted residue : Picture) (mv : MotionField)
    (h : cfg.always_B = 0) :
    frameType (exactArith fun _ _ => 0) cfg predicted residue mv = 'I' := by
  simp [frameType, electType, predicted_entropy, residue_entropy, motion_entropy, h,
    predicted_size, residue_size, motion_size, entropySize, exactArith, truncToInt]

/-- C10. Whenever analysis elects `'I'` for a frame, every component of the motion field
handed to the writer of `motion_out` (both directions, both axes, every block) is 0, whatever
field was read from `motion_in`; whenever it elects `'B'`, the field written is the one read. -/
theorem motion_out_by_frame_type (image_dwt : Dwt2d) (fm : FloatModel) (cfg : Config)
    (alloc : MotionField) (st : State) (odd even : Picture) (mv : MotionField) :
    ((analyzeIteration image_dwt fm cfg (zeroes cfg alloc) st odd even mv).2.frame_type = 'I' →
      ∀ (d : Dir) (a : Axis) (by_ bx : Int), inRect cfg.blocks_in_y cfg.blocks_in_x by_ bx →
        (analyzeIteration image_dwt fm cfg (zeroes cfg alloc) st odd even mv).2.motion_out
          d a by_ bx = 0) ∧
    ((analyzeIteration image_dwt fm cfg (zeroes cfg alloc) st odd even mv).2.frame_type = 'B' →
      (analyzeIteration image_dwt fm cfg (zeroes cfg alloc) st odd even mv).2.motion_out
        = mv) := by
  constructor
  · intro hI d a by_ bx hin
    rw [analyzeIteration_motion_out, hI]
    simp only [motionOutStep, if_true, zeroes, hin]
  · intro hB
    rw [analyzeIteration_motion_out, hB]
    simp only [motionOutStep]
    rw [if_neg (by decide)]

theorem motion_out_by_frame_type_witness :
    (analyzeIteration identityDwt (exactArith fun _ _ => 0) (smallConfig 2 0)
        (zeroes (smallConfig 2 0) (constMotion 9)) (constState 0) (constPicture 77)
        (constPicture 3) (constMotion 2)).2.motion_out Dir.NEXT Axis.X_FIELD 1 0 = 0 ∧
    (analyzeIteration identityDwt (exactArith fun _ _ => 0) (smallConfig 2 1)
        (zeroes (smallConfig 2 1) (constMotion 9)) (constState 0) (constPicture 77)
        (constPicture 3) (constMotion 2)).2.motion_out = constMotion 2 :=
  ⟨(motion_out_by_frame_type identityDwt (exactArith fun _ _ => 0) (smallConfig 2 0)
      (constMotion 9) (constState 0) (constPicture 77) (constPicture 3) (constMotion 2)).1
      (by rw [analyzeIteration_frame_type]; exact frameType_zero_entropy _ _ _ _ rfl)
      Dir.NEXT Axis.X_FIELD 1 0 (by decide),
   (motion_out_by_frame_type identityDwt (exactArith fun _ _ => 0) (smallConfig 2 1)
      (constMotion 9) (constState 0) (constPicture 77) (constPicture 3) (constMotion 2)).2
      (by
        rw [analyzeIteration_frame_type]
        exact frameType_always_B _ _ (fun _ _ h => h) rfl rfl (by decide) (by decide)
          (by decide) _ _ _)⟩


/-! ## `predict()` without overlap -/

/-- Running assignments whose stored value is a function `g` of the destination. -/
theorem foldl_set_eq {α : Type} (dst : α → Int × Int) (val : α → Int) (g : Int → Int → Int)
    (ty tx : Int) :
    ∀ (its : List α) (plane : Plane), (∀ it ∈ its, val it = g (dst it).1 (dst it).2) →
      (its.foldl (fun p it => Plane.set p (dst it).1 (dst it).2 (val it)) plane) ty tx
        = if (ty, tx) ∈ its.map dst then g ty tx else plane ty tx
  | [], plane, _ => by simp
  | it :: its, plane, h => by
    rw [List.foldl_cons, foldl_set_eq dst val g ty tx its _
      (fun i hi => h i (List.mem_cons_of_mem _ hi))]
    by_cases hmem : (ty, tx) ∈ its.map dst
    · simp [hmem]
    · rw [if_neg hmem]
      by_cases hd : dst it = (ty, tx)
      · have h1 : (ty, tx) ∈ (it :: its).map dst := by
          rw [List.map_cons, ← hd]
          exact List.mem_cons_self _ _
        rw [if_pos h1]
        have h2 := h it (List.mem_cons_self _ _)
        rw [hd] at h2
        simp only [Plane.set]
        rw [if_pos ⟨by rw [hd], by rw [hd]⟩, h2]
      · have h1 : (ty, tx) ∉ (it :: its).map dst := by
          rw [List.map_cons, List.mem_cons]
          rintro (h' | h')
          · exact hd h'.symm
          · exact hmem h'
        rw [if_neg h1]
        simp only [Plane.set]
        rw [if_neg]
        rintro ⟨e1, e2⟩
        exact hd (Prod.ext e1.symm e2.symm)

theorem shr_zero (m : Int) : m >>> (0 : Nat) = m := by
  rw [Int.shiftRight_eq_div_pow]
  simp

/-- Without overlap the scatter of a block is the copy of the block into its tile. -/
theorem applyScatter_no_overlap (block_size pixels_in_y pixels_in_x : Int)
    (blk plane : Plane) (c : Nat) (by_ bx ty tx : Int) :
    applyScatter block_size 0 pixels_in_y pixels_in_x blk plane
        (scatterBlock block_size 0 c by_ bx) ty tx
      = if inRect block_size block_size (ty - by_ * block_size) (tx - bx * block_size) then
          blk (ty - by_ * block_size) (tx - bx * block_size)
        else plane ty tx := by
  unfold applyScatter
  rw [foldl_set_eq (fun it : ScatterIter => it.dst block_size pixels_in_y pixels_in_x)
    (fun it => blk (it.src block_size 0).1 (it.src block_size 0).2)
    (fun y x => blk (y - by_ * block_size) (x - bx * block_size)) ty tx]
  · have hiff : (ty, tx) ∈ (scatterBlock block_size 0 c by_ bx).map
          (fun it : ScatterIter => it.dst block_size pixels_in_y pixels_in_x) ↔
        inRect block_size block_size (ty - by_ * block_size) (tx - bx * block_size) := by
      rw [List.mem_map]
      constructor
      · rintro ⟨it, hit, hd⟩
        rw [mem_scatterBlock] at hit
        obtain ⟨-, h2, h3, h4, h5, h6, h7, h8⟩ := hit
        have hl : it.band = Subband.LL ∧ it.l = 0 := by
          rcases h4 with h | h
          · exact h
          · omega
        rw [hl.2, shr_zero] at h6 h8
        simp only [ScatterIter.dst, hl.1, hl.2, shr_zero, h2, h3, Prod.mk.injEq] at hd
        unfold inRect
        omega
      · intro hin
        unfold inRect at hin
        refine ⟨⟨c, by_, bx, 0, Subband.LL, ty - by_ * block_size, tx - bx * block_size⟩, ?_, ?_⟩
        · rw [mem_scatterBlock]
          simp only [shr_zero, true_and, and_self, ne_eq, not_true_eq_false, false_and, or_false]
          omega
        · simp only [ScatterIter.dst, shr_zero, Prod.mk.injEq]
          omega
    by_cases h : inRect block_size block_size (ty - by_ * block_size) (tx - bx * block_size)
    · rw [if_pos (hiff.2 h), if_pos h]
    · rw [if_neg (fun h' => h (hiff.1 h')), if_neg h]
  · intro it hit
    rw [mem_scatterBlock] at hit
    obtain ⟨-, h2, h3, h4, h5, h6, h7, h8⟩ := hit
    have hl : it.band = Subband.LL ∧ it.l = 0 := by
      rcases h4 with h | h
      · exact h
      · omega
    simp only [ScatterIter.dst, ScatterIter.src, hl.1, hl.2, shr_zero, h2, h3]
    congr 1 <;> omega

theorem predictBlock_no_overlap (block_size pixels_in_y pixels_in_x : Int) (mv : MotionField)
    (overlap_dwt : Dwt2d) (hz : overlap_dwt.ZeroLevelIdentity)
    (reference_picture : Dir → Picture) (c : Nat) (st : Plane × Plane) (b : Int × Int)
    (ty tx : Int) :
    (predictBlock 0 block_size pixels_in_y pixels_in_x mv overlap_dwt reference_picture c st
        b).2 ty tx
      = if inRect block_size block_size (ty - b.1 * block_size) (tx - b.2 * block_size) then
          motionAverage mv reference_picture c b.1 b.2 ty tx
        else st.2 ty tx := by
  unfold predictBlock
  simp only [predictLevels_zero, Nat.cast_zero, (hz _ _ _).1]
  rw [applyScatter_no_overlap]
  by_cases h : inRect block_size block_size (ty - b.1 * block_size) (tx - b.2 * block_size)
  · rw [if_pos h, if_pos h]
    unfold fillBlock motionAverage
    have h' : 0 ≤ ty - b.1 * block_size ∧ ty - b.1 * block_size < block_size + 2 * 0 ∧
        0 ≤ tx - b.2 * block_size ∧ tx - b.2 * block_size < block_size + 2 * 0 := by
      unfold inRect at h
      omega
    rw [if_pos h']
    congr 2 <;> congr 1 <;> ring
  · rw [if_neg h, if_neg h]

/-- The tile of block `b0` is written by block `b0` only. -/
theorem foldl_predictBlock_no_overlap (block_size pixels_in_y pixels_in_x : Int)
    (mv : MotionField) (overlap_dwt : Dwt2d) (hz : overlap_dwt.ZeroLevelIdentity)
    (reference_picture : Dir → Picture) (c : Nat) (b0 : Int × Int) (ty tx : Int)
    (hin : inRect block_size block_size (ty - b0.1 * block_size) (tx - b0.2 * block_size)) :
    ∀ (bl : List (Int × Int)) (st : Plane × Plane),
      (bl.foldl (predictBlock 0 block_size pixels_in_y pixels_in_x mv overlap_dwt
          reference_picture c) st).2 ty tx
        = if b0 ∈ bl then motionAverage mv reference_picture c b0.1 b0.2 ty tx
          else st.2 ty tx
  | [], st => by simp
  | b :: bl, st => by
    rw [List.foldl_cons, foldl_predictBlock_no_overlap block_size pixels_in_y pixels_in_x mv
      overlap_dwt hz reference_picture c b0 ty tx hin bl]
    by_cases hmem : b0 ∈ bl
    · rw [if_pos hmem, if_pos (List.mem_cons_of_mem _ hmem)]
    · rw [if_neg hmem, predictBlock_no_overlap _ _ _ _ _ hz]
      by_cases hb : b = b0
      · subst hb
        rw [if_pos hin, if_pos (List.mem_cons_self _ _)]
      · have hnin : ¬ inRect block_size block_size (ty - b.1 * block_size)
            (tx - b.2 * block_size) := by
          intro h
          unfold inRect at h hin
          have e1 := tile_unique block_size b.1 b0.1 (ty - b.1 * block_size)
            (ty - b0.1 * block_size) h.1 h.2.1 hin.1 hin.2.1 (by ring)
          have e2 := tile_unique block_size b.2 b0.2 (tx - b.2 * block_size)
            (tx - b0.2 * block_size) h.2.2.1 h.2.2.2 hin.2.2.1 hin.2.2.2 (by ring)
          exact hb (Prod.ext e1.1 e2.1)
        rw [if_neg hnin, if_neg]
        rw [List.mem_cons]
        rintro (h | h)
        · exact hb h.symm
        · exact hmem h

theorem mem_blockOrder (blocks_in_y blocks_in_x : Int) (b : Int × Int) :
    b ∈ blockOrder blocks_in_y blocks_in_x ↔
      0 ≤ b.1 ∧ b.1 < blocks_in_y ∧ 0 ≤ b.2 ∧ b.2 < blocks_in_x := by
  unfold blockOrder
  simp only [List.mem_flatMap, List.mem_map, mem_intRange]
  constructor
  · rintro ⟨y, hy, x, hx, rfl⟩
    exact ⟨hy.1, hy.2, hx.1, hx.2⟩
  · rintro ⟨h1, h2, h3, h4⟩
    exact ⟨b.1, ⟨h1, h2⟩, b.2, ⟨h3, h4⟩, rfl⟩

theorem predictComponent_other (block_overlaping block_size blocks_in_y blocks_in_x : Int)
    (pixels_in_y pixels_in_x : Int) (mv : MotionField) (overlap_dwt : Dwt2d)
    (reference_picture : Dir → Picture) (st : Plane × Picture) (c c' : Nat) (h : c ≠ c') :
    (predictComponent block_overlaping block_size blocks_in_y blocks_in_x pixels_in_y
      pixels_in_x mv overlap_dwt reference_picture st c').2 c = st.2 c := by
  simp only [predictComponent, Picture.setPlane, if_neg h]

theorem predictComponent_no_overlap (block_size blocks_in_y blocks_in_x : Int)
    (pixels_in_y pixels_in_x : Int) (mv : MotionField) (overlap_dwt : Dwt2d)
    (hz : overlap_dwt.ZeroLevelIdentity) (reference_picture : Dir → Picture)
    (st : Plane × Picture) (c : Nat) (by_ bx ty tx : Int)
    (hb : 0 ≤ by_ ∧ by_ < blocks_in_y ∧ 0 ≤ bx ∧ bx < blocks_in_x)
    (hin : inRect block_size block_size (ty - by_ * block_size) (tx - bx * block_size)) :
    (predictComponent 0 block_size blocks_in_y blocks_in_x pixels_in_y pixels_in_x mv
      overlap_dwt reference_picture st c).2 c ty tx
      = motionAverage mv reference_picture c by_ bx ty tx := by
  simp only [predictComponent, Picture.setPlane, if_true, predictLevels_zero, Nat.cast_zero,
    (hz _ _ _).2]
  rw [foldl_predictBlock_no_overlap block_size pixels_in_y pixels_in_x mv overlap_dwt hz
    reference_picture c (by_, bx) ty tx hin, if_pos ((mem_blockOrder _ _ _).2 hb)]

/-- Without overlap, and with a wavelet operator that is the identity at zero levels,
`predict()` yields ordinary block-copy motion compensation: every sample of the tile of block
`(by, bx)` is the truncating average of the two displaced references. -/
theorem predict_no_overlap (block_size blocks_in_y blocks_in_x : Int) (components : Nat)
    (pixels_in_y pixels_in_x : Int) (mv : MotionField) (overlap_dwt : Dwt2d)
    (hz : overlap_dwt.ZeroLevelIdentity) (prediction_block : Plane)
    (prediction_picture : Picture) (reference_picture : Dir → Picture)
    (c : Nat) (hc : c < components) (by_ bx ty tx : Int)
    (hb : 0 ≤ by_ ∧ by_ < blocks_in_y ∧ 0 ≤ bx ∧ bx < blocks_in_x)
    (hin : inRect block_size block_size (ty - by_ * block_size) (tx - bx * block_size)) :
    (predict 0 block_size blocks_in_y blocks_in_x components pixels_in_y pixels_in_x mv
      overlap_dwt prediction_block prediction_picture reference_picture).2 c ty tx
      = motionAverage mv reference_picture c by_ bx ty tx := by
  have key : ∀ (cl : List Nat) (st : Plane × Picture),
      (cl.foldl (predictComponent 0 block_size blocks_in_y blocks_in_x pixels_in_y pixels_in_x
        mv overlap_dwt reference_picture) st).2 c ty tx
        = if c ∈ cl then motionAverage mv reference_picture c by_ bx ty tx
          else st.2 c ty tx := by
    intro cl
    induction cl with
    | nil => intro st; simp
    | cons c' cl ih =>
      intro st
      rw [List.foldl_cons, ih]
      by_cases hmem : c ∈ cl
      · rw [if_pos hmem, if_pos (List.mem_cons_of_mem _ hmem)]
      · rw [if_neg hmem]
        by_cases hcc : c = c'
        · subst hcc
          rw [if_pos (List.mem_cons_self _ _)]
          exact predictComponent_no_overlap block_size blocks_in_y blocks_in_x pixels_in_y
            pixels_in_x mv overlap_dwt hz reference_picture st c by_ bx ty tx hb hin
        · rw [predictComponent_other _ _ _ _ _ _ _ _ _ _ _ _ hcc, if_neg]
          rw [List.mem_cons]
          rintro (h | h)
          · exact hcc h
          · exact hmem h
  unfold predict
  rw [key, if_pos (List.mem_range.2 hc)]

/-! ## The prediction at full-pixel accuracy without overlap -/

theorem shl_zero (v : Int) : shl v 0 = v := by
  simp [shl]

theorem tdiv_two_nonpos (h : Int) (hneg : h < 0) : Int.tdiv h 2 ≤ 0 := by
  have h1 : h = -(-h) := by ring
  rw [h1, Int.neg_tdiv]
  have := Int.tdiv_nonneg (a := -h) (b := 2) (by omega) (by norm_num)
  omega

theorem inRect_half (h w y x : Int) (hin : inRect (Int.tdiv h 2) (Int.tdiv w 2) y x) :
    inRect h w y x := by
  unfold inRect at hin ⊢
  obtain ⟨h1, h2, h3, h4⟩ := hin
  have hh : 0 ≤ h := by
    by_contra hneg
    have := tdiv_two_nonpos h (by omega)
    omega
  have hw : 0 ≤ w := by
    by_contra hneg
    have := tdiv_two_nonpos w (by omega)
    omega
  rw [Int.tdiv_eq_ediv hh (by norm_num)] at h2
  rw [Int.tdiv_eq_ediv hw (by norm_num)] at h4
  omega

/-- Every sample of a component lies in the luma-sized rectangle. -/
theorem inRect_component (cfg : Config) (c : Nat) (y x : Int)
    (hin : inRect (cfg.pixels_in_y c) (cfg.pixels_in_x c) y x) :
    inRect cfg.pixels_in_y0 cfg.pixels_in_x0 y x := by
  unfold Config.pixels_in_y Config.pixels_in_x at hin
  by_cases hc : c = 0
  · simpa [hc] using hin
  · rw [if_neg hc, if_neg hc] at hin
    exact inRect_half _ _ _ _ hin

theorem fill_border_inside (img : Plane) (y_dim x_dim border y x : Int)
    (hin : inRect y_dim x_dim y x) : fill_border img y_dim x_dim border y x = img y x := by
  unfold inRect at hin
  unfold fill_border
  have hy : max 0 (min y (y_dim - 1)) = y := by omega
  have hx : max 0 (min x (x_dim - 1)) = x := by omega
  rw [hy, hx]
  split_ifs <;> rfl

theorem interpolate_zero (image_dwt : Dwt2d) (cfg : Config) (h : cfg.subpixel_accuracy = 0)
    (img : Plane) : interpolate image_dwt cfg img = img := by
  simp [interpolate, h]

/-- At full-pixel accuracy the luma of a reference is the luma that was read. -/
theorem readReference_luma (image_dwt : Dwt2d) (cfg : Config) (h : cfg.subpixel_accuracy = 0)
    (even reference : Picture) (y x : Int) (hin : inRect cfg.pixels_in_y0 cfg.pixels_in_x0 y x) :
    readReference image_dwt cfg even reference 0 y x = even 0 y x := by
  have h0 : (0 : Nat) < COMPONENTS := by decide
  simp only [readReference, h0, if_true, interpolate_zero image_dwt cfg h, h, shl_zero]
  rw [fill_border_inside _ _ _ _ _ _ hin]
  simp only [texture_read, Config.pixels_in_y, Config.pixels_in_x, if_true, hin]

/-- At full-pixel accuracy the chroma of a reference is the one-level synthesis of the
zero-padded chroma that was read. -/
theorem readReference_chroma (image_dwt : Dwt2d) (cfg : Config)
    (h : cfg.subpixel_accuracy = 0) (even reference : Picture) (c : Nat)
    (hc : c = 1 ∨ c = 2) (y x : Int) (hin : inRect cfg.pixels_in_y0 cfg.pixels_in_x0 y x) :
    readReference image_dwt cfg even reference c y x
      = expandChroma image_dwt cfg
          (texture_read (even c) (reference c) (cfg.pixels_in_y c) (cfg.pixels_in_x c)) y x := by
  have h0 : c < COMPONENTS := by rcases hc with rfl | rfl <;> decide
  have h1 : c ≠ 0 := by rcases hc with rfl | rfl <;> decide
  simp only [readReference, h0, if_true, interpolate_zero image_dwt cfg h, h, shl_zero, h1,
    if_false]
  rw [fill_border_inside _ _ _ _ _ _ hin]

theorem tdiv_double (a : Int) : Int.tdiv (a + a) 2 = a := by
  have : a + a = 2 * a := by ring
  rw [this]
  exact Int.mul_tdiv_cancel_left a (by norm_num)

/-- A point of the picture lies in the tile of one of its blocks. -/
theorem tile_of_point (n bs t : Int) (hbs : 0 < bs) (h0 : 0 ≤ t) (h1 : t < n * bs) :
    ∃ b, 0 ≤ b ∧ b < n ∧ 0 ≤ t - b * bs ∧ t - b * bs < bs := by
  obtain ⟨b, y, hb0, hb1, hy0, hy1, hy⟩ := tile_decode n bs t hbs.le h0 h1
  exact ⟨b, hb0, hb1, by omega, by omega⟩

/-- The raw output of `predict()` in the loop body, at full-pixel accuracy without overlap and
with zero motion: the truncating average of the two references at the same position. -/
theorem predict_zero_motion (image_dwt : Dwt2d) (cfg : Config) (mv : MotionField)
    (prediction_block : Plane) (prediction : Picture) (reference : Dir → Picture)
    (hz : image_dwt.ZeroLevelIdentity) (hbs : 0 < cfg.block_size)
    (hgy : cfg.pixels_in_y0 = cfg.blocks_in_y * cfg.block_size)
    (hgx : cfg.pixels_in_x0 = cfg.blocks_in_x * cfg.block_size)
    (hmv : ∀ d a by_ bx, mv d a by_ bx = 0)
    (c : Nat) (hc : c < COMPONENTS) (y x : Int)
    (hin : inRect cfg.pixels_in_y0 cfg.pixels_in_x0 y x) :
    (predict 0 cfg.block_size cfg.blocks_in_y cfg.blocks_in_x COMPONENTS cfg.pixels_in_y0
      cfg.pixels_in_x0 mv image_dwt prediction_block prediction reference).2 c y x
      = Int.tdiv (reference Dir.PREV c y x + reference Dir.NEXT c y x) 2 := by
  unfold inRect at hin
  obtain ⟨by_, hb0, hb1, hy0, hy1⟩ :=
    tile_of_point cfg.blocks_in_y cfg.block_size y hbs hin.1 (by rw [← hgy]; exact hin.2.1)
  obtain ⟨bx, hd0, hd1, hx0, hx1⟩ :=
    tile_of_point cfg.blocks_in_x cfg.block_size x hbs hin.2.2.1 (by rw [← hgx]; exact hin.2.2.2)
  rw [predict_no_overlap cfg.block_size cfg.blocks_in_y cfg.blocks_in_x COMPONENTS
    cfg.pixels_in_y0 cfg.pixels_in_x0 mv image_dwt hz prediction_block prediction reference c hc
    by_ bx y x ⟨hb0, hb1, hd0, hd1⟩ ⟨hy0, hy1, hx0, hx1⟩]
  simp only [motionAverage, hmv, zero_add]

/-- The planes of `prediction` before the chroma reduction, at full-pixel accuracy without
overlap: the clipped output of `predict()`. -/
theorem predictionStep_luma (image_dwt : Dwt2d) (cfg : Config) (mv : MotionField)
    (prediction_block : Plane) (prediction : Picture) (reference : Dir → Picture)
    (hz : image_dwt.ZeroLevelIdentity) (hov : cfg.block_overlaping = 0)
    (hsub : cfg.subpixel_accuracy = 0) (y x : Int)
    (hin : inRect cfg.pixels_in_y0 cfg.pixels_in_x0 y x) :
    (predictionStep image_dwt cfg mv prediction_block prediction reference).2 0 y x
      = clip255 ((predict 0 cfg.block_size cfg.blocks_in_y cfg.blocks_in_x COMPONENTS
          cfg.pixels_in_y0 cfg.pixels_in_x0 mv image_dwt prediction_block prediction
          reference).2 0 y x) := by
  have h0 : (0 : Nat) < COMPONENTS := by decide
  simp only [predictionStep, hov, hsub, shl_zero, Nat.cast_zero, (hz _ _ _).1, h0, if_true,
    true_and, hin, zero_ne_one, OfNat.zero_ne_ofNat, or_self, if_false]

theorem predictionStep_chroma (image_dwt : Dwt2d) (cfg : Config) (mv : MotionField)
    (prediction_block : Plane) (prediction : Picture) (reference : Dir → Picture)
    (hz : image_dwt.ZeroLevelIdentity) (hov : cfg.block_overlaping = 0)
    (hsub : cfg.subpixel_accuracy = 0) (c : Nat) (hc : c = 1 ∨ c = 2) :
    (predictionStep image_dwt cfg mv prediction_block prediction reference).2 c
      = image_dwt.analyze
          (fun y x =>
            if inRect cfg.pixels_in_y0 cfg.pixels_in_x0 y x then
              clip255 ((predict 0 cfg.block_size cfg.blocks_in_y cfg.blocks_in_x COMPONENTS
                cfg.pixels_in_y0 cfg.pixels_in_x0 mv image_dwt prediction_block prediction
                reference).2 c y x)
            else (predict 0 cfg.block_size cfg.blocks_in_y cfg.blocks_in_x COMPONENTS
                cfg.pixels_in_y0 cfg.pixels_in_x0 mv image_dwt prediction_block prediction
                reference).2 c y x)
          cfg.pixels_in_y0 cfg.pixels_in_x0 1 := by
  have h0 : c < COMPONENTS := by rcases hc with rfl | rfl <;> decide
  simp only [predictionStep, hov, hsub, shl_zero, Nat.cast_zero, (hz _ _ _).1, h0, if_true,
    true_and, hc]


/-! ## Zero-motion identity -/

theorem analyzeIteration_prediction (image_dwt : Dwt2d) (fm : FloatModel) (cfg : Config)
    (zeroes : MotionField) (st : State) (odd even : Picture) (mv : MotionField) :
    (analyzeIteration image_dwt fm cfg zeroes st odd even mv).2.prediction =
      (predictionStep image_dwt cfg mv st.prediction_block st.prediction
        (State.reference
          { st with reference1 := readReference image_dwt cfg even st.reference1 })).2 :=
  rfl

/-- The zero-padded chroma canvas, for an even luma width. -/
theorem zeroQuadrants_chroma (cfg : Config) (hx : 2 ∣ cfg.pixels_in_x0) (file old : Plane)
    (y x : Int) (hin : inRect cfg.pixels_in_y0 cfg.pixels_in_x0 y x) :
    zeroChromaQuadrants cfg.pixels_in_y0 cfg.pixels_in_x0
        (texture_read file old (Int.tdiv cfg.pixels_in_y0 2) (Int.tdiv cfg.pixels_in_x0 2)) y x
      = if inRect (Int.tdiv cfg.pixels_in_y0 2) (Int.tdiv cfg.pixels_in_x0 2) y x then file y x
        else 0 := by
  unfold inRect at hin
  have hY : 0 ≤ cfg.pixels_in_y0 := by omega
  have hX : 0 ≤ cfg.pixels_in_x0 := by omega
  have e1 : Int.tdiv (cfg.pixels_in_x0 * 2) 2 = cfg.pixels_in_x0 := by
    rw [mul_comm]
    exact Int.mul_tdiv_cancel_left _ (by norm_num)
  have e2 : Int.tdiv cfg.pixels_in_x0 2 = cfg.pixels_in_x0 / 2 :=
    Int.tdiv_eq_ediv hX (by norm_num)
  have e3 : Int.tdiv cfg.pixels_in_y0 2 = cfg.pixels_in_y0 / 2 :=
    Int.tdiv_eq_ediv hY (by norm_num)
  unfold zeroChromaQuadrants texture_read inRect
  rw [e1, e2, e3]
  obtain ⟨k, hk⟩ := hx
  by_cases h1 : 0 ≤ y ∧ y < cfg.pixels_in_y0 / 2 ∧ 0 ≤ x ∧ x < cfg.pixels_in_x0 / 2
  · have h2 : ¬ (0 ≤ y ∧ y < cfg.pixels_in_y0 / 2 ∧ x = cfg.pixels_in_x0 / 2
        + cfg.pixels_in_x0 / 2 ∧ Int.tmod cfg.pixels_in_x0 2 = 1) := by omega
    rw [if_neg (by omega), if_neg h2, if_pos h1, if_pos h1]
  · rw [if_pos (by omega), if_neg h1]

/-- With the same picture read into both buffers, the two references agree on the picture. -/
theorem readReference_chroma_agree (image_dwt : Dwt2d) (cfg : Config)
    (hsub : cfg.subpixel_accuracy = 0) (hx : 2 ∣ cfg.pixels_in_x0)
    (hloc : image_dwt.ActsOnRect cfg.pixels_in_y0 cfg.pixels_in_x0 1)
    (even old0 old1 : Picture) (c : Nat) (hc : c = 1 ∨ c = 2) (y x : Int)
    (hin : inRect cfg.pixels_in_y0 cfg.pixels_in_x0 y x) :
    readReference image_dwt cfg even old0 c y x = readReference image_dwt cfg even old1 c y x := by
  rw [readReference_chroma image_dwt cfg hsub even old0 c hc y x hin,
    readReference_chroma image_dwt cfg hsub even old1 c hc y x hin]
  have h1 : c ≠ 0 := by rcases hc with rfl | rfl <;> decide
  unfold expandChroma
  simp only [Config.pixels_in_y, Config.pixels_in_x, h1, if_false]
  refine (hloc _ _ ?_ y x hin).2
  intro y' x' hin'
  rw [zeroQuadrants_chroma cfg hx _ _ y' x' hin', zeroQuadrants_chroma cfg hx _ _ y' x' hin']

/-- C6, as amended.  With `always_B` set, no overlap, full-pixel accuracy, a positive
`block_size` that divides both luma dimensions, zero motion vectors and both even pictures of
the pair equal to the odd picture (samples in `[0,255]`), and a wavelet operator that is the
identity at zero levels: every luma residue sample is 0 and every luma sample written to
`high` is 128.  The same holds for the two chroma components when, in addition, the luma width
is even, the one-level transform acts on the picture rectangle only, one-level analysis undoes
one-level synthesis, and the interpolated chroma of the reference stays in `[0,255]`. -/
theorem zero_motion_identity (image_dwt : Dwt2d) (fm : FloatModel) (cfg : Config)
    (zeroes : MotionField) (st : State) (odd even old0 : Picture) (mv : MotionField)
    (hmono : Monotone fm.toFloat) (hzero : fm.toFloat 0 = 0) (hone : fm.toFloat 1 = 1)
    (hB : cfg.always_B ≠ 0) (hov : cfg.block_overlaping = 0)
    (hsub : cfg.subpixel_accuracy = 0) (hbs : 0 < cfg.block_size)
    (hgy : cfg.pixels_in_y0 = cfg.blocks_in_y * cfg.block_size)
    (hgx : cfg.pixels_in_x0 = cfg.blocks_in_x * cfg.block_size)
    (hmv : ∀ d a by_ bx, mv d a by_ bx = 0)
    (href0 : st.reference0 = readReference image_dwt cfg even old0)
    (hodd : ∀ c y x, c < COMPONENTS → inRect (cfg.pixels_in_y c) (cfg.pixels_in_x c) y x →
      odd c y x = even c y x ∧ 0 ≤ even c y x ∧ even c y x ≤ 255)
    (hz : image_dwt.ZeroLevelIdentity) :
    (∀ y x, inRect cfg.pixels_in_y0 cfg.pixels_in_x0 y x →
      analyzeResidue image_dwt fm cfg zeroes st odd even mv 0 y x = 0 ∧
      (analyzeIteration image_dwt fm cfg zeroes st odd even mv).2.high 0 y x = 128) ∧
    (2 ∣ cfg.pixels_in_x0 → image_dwt.ActsOnRect cfg.pixels_in_y0 cfg.pixels_in_x0 1 →
      image_dwt.AnalyzeInvertsSynthesize cfg.pixels_in_y0 cfg.pixels_in_x0 1 →
      (∀ c y x, c = 1 ∨ c = 2 → inRect cfg.pixels_in_y0 cfg.pixels_in_x0 y x →
        0 ≤ readReference image_dwt cfg even st.reference1 c y x ∧
        readReference image_dwt cfg even st.reference1 c y x ≤ 255) →
      ∀ c y x, c = 1 ∨ c = 2 → inRect (cfg.pixels_in_y c) (cfg.pixels_in_x c) y x →
        analyzeResidue image_dwt fm cfg zeroes st odd even mv c y x = 0 ∧
        (analyzeIteration image_dwt fm cfg zeroes st odd even mv).2.high c y x = 128) := by
  -- the frame is a B frame as soon as the picture is not empty
  have hBtype : ∀ y x, inRect cfg.pixels_in_y0 cfg.pixels_in_x0 y x →
      (analyzeIteration image_dwt fm cfg zeroes st odd even mv).2.frame_type = 'B' := by
    intro y x hin
    unfold inRect at hin
    rw [analyzeIteration_frame_type]
    exact frameType_always_B fm cfg hmono hzero hone hB (by omega) (by omega) _ _ _
  -- the residue decides the sample written to `high`
  have hhigh : ∀ c y x, c < COMPONENTS → inRect (cfg.pixels_in_y c) (cfg.pixels_in_x c) y x →
      analyzeResidue image_dwt fm cfg zeroes st odd even mv c y x = 0 →
      (analyzeIteration image_dwt fm cfg zeroes st odd even mv).2.high c y x = 128 := by
    intro c y x hc hin hres
    rw [analyzeIteration_high, hBtype y x (inRect_component cfg c y x hin)]
    unfold analyzeResidue at hres
    simp only [highStep, hc, hin, and_self, if_true, hres]
    rw [if_neg (by decide)]
    decide
  -- the residue is the clipped difference of the odd picture and the prediction
  have hres : ∀ c y x, c < COMPONENTS → inRect (cfg.pixels_in_y c) (cfg.pixels_in_x c) y x →
      (analyzeIteration image_dwt fm cfg zeroes st odd even mv).2.prediction c y x
        = even c y x →
      analyzeResidue image_dwt fm cfg zeroes st odd even mv c y x = 0 := by
    intro c y x hc hin hp
    unfold analyzeResidue
    simp only [residueStep, hc, hin, and_self, if_true, hp,
      analyzeIteration_predicted image_dwt fm cfg zeroes st odd even mv c y x hc hin,
      (hodd c y x hc hin).1, sub_self]
    decide
  constructor
  · intro y x hin
    have hin0 : inRect (cfg.pixels_in_y 0) (cfg.pixels_in_x 0) y x := by
      simpa [Config.pixels_in_y, Config.pixels_in_x] using hin
    have hb := (hodd 0 y x (by decide) hin0).2
    have hp : (analyzeIteration image_dwt fm cfg zeroes st odd even mv).2.prediction 0 y x
        = even 0 y x := by
      rw [analyzeIteration_prediction, predictionStep_luma image_dwt cfg mv _ _ _ hz hov hsub y x
        hin, predict_zero_motion image_dwt cfg mv _ _ _ hz hbs hgy hgx hmv 0 (by decide) y x hin]
      simp only [State.reference]
      rw [href0, readReference_luma image_dwt cfg hsub even old0 y x hin,
        readReference_luma image_dwt cfg hsub even st.reference1 y x hin, tdiv_double,
        clip255_of_range _ hb.1 hb.2]
    have h0 := hres 0 y x (by decide) hin0 hp
    exact ⟨h0, hhigh 0 y x (by decide) hin0 h0⟩
  · intro hx hloc hinv hrng c y x hc hin
    have hc3 : c < COMPONENTS := by rcases hc with rfl | rfl <;> decide
    have hc0 : c ≠ 0 := by rcases hc with rfl | rfl <;> decide
    have hinY := inRect_component cfg c y x hin
    have hp : (analyzeIteration image_dwt fm cfg zeroes st odd even mv).2.prediction c y x
        = even c y x := by
      rw [analyzeIteration_prediction, predictionStep_chroma image_dwt cfg mv _ _ _ hz hov hsub c
        hc]
      -- on the picture the clipped prediction is the interpolated chroma
      rw [(hloc _ (image_dwt.synthesize
        (zeroChromaQuadrants cfg.pixels_in_y0 cfg.pixels_in_x0
          (texture_read (even c) (st.reference1 c) (Int.tdiv cfg.pixels_in_y0 2)
            (Int.tdiv cfg.pixels_in_x0 2)))
        cfg.pixels_in_y0 cfg.pixels_in_x0 1) ?_ y x hinY).1]
      · rw [hinv _ y x hinY, zeroQuadrants_chroma cfg hx _ _ y x hinY]
        have hin' : inRect (Int.tdiv cfg.pixels_in_y0 2) (Int.tdiv cfg.pixels_in_x0 2) y x := by
          simpa [Config.pixels_in_y, Config.pixels_in_x, hc0] using hin
        rw [if_pos hin']
      · intro y' x' hin'
        rw [if_pos hin', predict_zero_motion image_dwt cfg mv _ _ _ hz hbs hgy hgx hmv c hc3 y' x'
          hin']
        simp only [State.reference]
        rw [href0, readReference_chroma_agree image_dwt cfg hsub hx hloc even old0 st.reference1
          c hc y' x' hin', tdiv_double]
        have hr := hrng c y' x' hc hin'
        rw [clip255_of_range _ hr.1 hr.2,
          readReference_chroma image_dwt cfg hsub even st.reference1 c hc y' x' hin']
        simp only [expandChroma, Config.pixels_in_y, Config.pixels_in_x, hc0, if_false]
    have h0 := hres c y x hc3 hin hp
    exact ⟨h0, hhigh c y x hc3 hin h0⟩


theorem identityDwt_zeroLevelIdentity : identityDwt.ZeroLevelIdentity :=
  fun _ _ _ => ⟨rfl, rfl⟩

theorem identityDwt_actsOnRect (h w levels : Int) : identityDwt.ActsOnRect h w levels :=
  fun _ _ hpq y x hin => ⟨hpq y x hin, hpq y x hin⟩

theorem identityDwt_analyzeInvertsSynthesize (h w levels : Int) :
    identityDwt.AnalyzeInvertsSynthesize h w levels :=
  fun _ _ _ _ => rfl

theorem zero_motion_identity_witness :
    (analyzeResidue identityDwt (exactArith fun _ _ => 0) (smallConfig 2 1) (constMotion 0)
        (referenceState identityDwt (smallConfig 2 1) (constPicture 100) 0) (constPicture 100)
        (constPicture 100) (constMotion 0) 0 3 3 = 0 ∧
      (analyzeIteration identityDwt (exactArith fun _ _ => 0) (smallConfig 2 1) (constMotion 0)
        (referenceState identityDwt (smallConfig 2 1) (constPicture 100) 0) (constPicture 100)
        (constPicture 100) (constMotion 0)).2.high 0 3 3 = 128) ∧
    (analyzeResidue identityDwt (exactArith fun _ _ => 0) (smallConfig 2 1) (constMotion 0)
        (referenceState identityDwt (smallConfig 2 1) (constPicture 100) 0) (constPicture 100)
        (constPicture 100) (constMotion 0) 2 1 1 = 0 ∧
      (analyzeIteration identityDwt (exactArith fun _ _ => 0) (smallConfig 2 1) (constMotion 0)
        (referenceState identityDwt (smallConfig 2 1) (constPicture 100) 0) (constPicture 100)
        (constPicture 100) (constMotion 0)).2.high 2 1 1 = 128) :=
  have h := zero_motion_identity identityDwt (exactArith fun _ _ => 0) (smallConfig 2 1)
    (constMotion 0) (referenceState identityDwt (smallConfig 2 1) (constPicture 100) 0)
    (constPicture 100) (constPicture 100) (constPicture 0) (constMotion 0) (fun _ _ h => h) rfl
    rfl (by decide) rfl rfl (by decide) (by decide) (by decide) (fun _ _ _ _ => rfl) rfl
    (fun _ _ _ _ _ => by simp [constPicture]) identityDwt_zeroLevelIdentity
  ⟨h.1 3 3 (by decide),
   h.2 (by decide) (identityDwt_actsOnRect _ _ _) (identityDwt_analyzeInvertsSynthesize _ _ _)
     (by
       intro c y x hc hin
       rw [readReference_chroma identityDwt (smallConfig 2 1) rfl _ _ c hc y x hin]
       simp only [expandChroma, identityDwt, zeroChromaQuadrants, texture_read, constPicture,
         constState, referenceState]
       split_ifs <;> decide)
     2 1 1 (by decide) (by decide)⟩

/-- C6 fails when `block_size` does not divide the luma dimensions: on a `4 x 4` picture in
blocks of side 3 (so one block), with `always_B = 1`, no overlap, full-pixel accuracy, zero
motion vectors, all three pictures solid 100 and a prediction buffer that holds 0, the luma
sample `(3, 3)` lies outside the only block, keeps the prediction 0, and gets the residue 100
and the `high` sample 228. -/
theorem zero_motion_identity_counterexample :
    (smallConfig 3 1).always_B = 1 ∧ (smallConfig 3 1).block_overlaping = 0 ∧
    (smallConfig 3 1).subpixel_accuracy = 0 ∧
    identityDwt.ZeroLevelIdentity ∧ identityDwt.AnalyzeInvertsSynthesize 4 4 1 ∧
    inRect (smallConfig 3 1).pixels_in_y0 (smallConfig 3 1).pixels_in_x0 3 3 ∧
    analyzeResidue identityDwt (exactArith fun _ _ => 0) (smallConfig 3 1) (constMotion 0)
        (referenceState identityDwt (smallConfig 3 1) (constPicture 100) 0) (constPicture 100)
        (constPicture 100) (constMotion 0) 0 3 3 = 100 ∧
    (analyzeIteration identityDwt (exactArith fun _ _ => 0) (smallConfig 3 1) (constMotion 0)
        (referenceState identityDwt (smallConfig 3 1) (constPicture 100) 0) (constPicture 100)
        (constPicture 100) (constMotion 0)).2.high 0 3 3 = 228 := by
  refine ⟨rfl, rfl, rfl, identityDwt_zeroLevelIdentity,
    identityDwt_analyzeInvertsSynthesize _ _ _, by decide, by decide, ?_⟩
  rw [analyzeIteration_high, analyzeIteration_frame_type,
    frameType_always_B _ _ (fun _ _ h => h) rfl rfl (by decide) (by decide) (by decide)]
  decide


/-- The chroma part of C6 also needs the interpolated chroma to stay in `[0,255]`: with an
operator that is the identity at zero levels and whose one-level analysis undoes its one-level
synthesis, but whose synthesis leaves `[0,255]`, the clip of the prediction loses the chroma
and the residue is not 0 (here on a `4 x 4` picture in blocks of side 2). -/
theorem zero_motion_identity_chroma_range :
    offsetDwt.ZeroLevelIdentity ∧ offsetDwt.AnalyzeInvertsSynthesize 4 4 1 ∧
    analyzeResidue offsetDwt (exactArith fun _ _ => 0) (smallConfig 2 1) (constMotion 0)
        (referenceState offsetDwt (smallConfig 2 1) (constPicture 100) 0) (constPicture 100)
        (constPicture 100) (constMotion 0) 1 0 0 = 127 := by
  refine ⟨fun _ _ _ => ⟨rfl, rfl⟩, ?_, by decide⟩
  intro p y x _
  simp [offsetDwt]

/-! ## Round trip of a B picture -/

theorem synthesizeIteration_prediction (image_dwt : Dwt2d) (cfg : Config) (st : State)
    (high even : Picture) (mv : MotionField) (frame_type : Char) :
    (synthesizeIteration image_dwt cfg st high even mv frame_type).1.prediction =
      (predictionStep image_dwt cfg mv st.prediction_block st.prediction
        (State.reference
          { st with reference1 := readReference image_dwt cfg even st.reference1 })).2 :=
  rfl

/-- At full-pixel accuracy the luma of the prediction is a clipped value. -/
theorem predictionStep_luma_range (image_dwt : Dwt2d) (cfg : Config) (mv : MotionField)
    (prediction_block : Plane) (prediction : Picture) (reference : Dir → Picture)
    (hz : image_dwt.ZeroLevelIdentity) (hsub : cfg.subpixel_accuracy = 0) (y x : Int)
    (hin : inRect cfg.pixels_in_y0 cfg.pixels_in_x0 y x) :
    0 ≤ (predictionStep image_dwt cfg mv prediction_block prediction reference).2 0 y x ∧
    (predictionStep image_dwt cfg mv prediction_block prediction reference).2 0 y x ≤ 255 := by
  have h0 : (0 : Nat) < COMPONENTS := by decide
  simp only [predictionStep, hsub, shl_zero, Nat.cast_zero, (hz _ _ _).1, h0, if_true,
    true_and, hin, zero_ne_one, OfNat.zero_ne_ofNat, or_self, if_false]
  exact clip255_range _

/-- C2 fails when the residue saturates: on a `4 x 4` picture in blocks of side 2, with
`subpixel_accuracy = 0`, `block_overlaping = 0`, `always_B = 1`, zero motion vectors, both even
pictures solid 0 and the odd picture solid 255, the prediction is 0, the residue is clipped to
127, `high` holds 255, and synthesis writes 127 to `odd` where analysis read 255. -/
theorem b_round_trip_counterexample :
    (smallConfig 2 1).subpixel_accuracy = 0 ∧ (smallConfig 2 1).block_overlaping = 0 ∧
    (smallConfig 2 1).always_B = 1 ∧
    (analyzeIteration identityDwt (exactArith fun _ _ => 0) (smallConfig 2 1) (constMotion 0)
        (referenceState identityDwt (smallConfig 2 1) (constPicture 0) 0) (constPicture 255)
        (constPicture 0) (constMotion 0)).2.frame_type = 'B' ∧
    (synthesizeIteration identityDwt (smallConfig 2 1)
        (referenceState identityDwt (smallConfig 2 1) (constPicture 0) 0)
        (analyzeIteration identityDwt (exactArith fun _ _ => 0) (smallConfig 2 1)
          (constMotion 0) (referenceState identityDwt (smallConfig 2 1) (constPicture 0) 0)
          (constPicture 255) (constPicture 0) (constMotion 0)).2.high
        (constPicture 0)
        (analyzeIteration identityDwt (exactArith fun _ _ => 0) (smallConfig 2 1)
          (constMotion 0) (referenceState identityDwt (smallConfig 2 1) (constPicture 0) 0)
          (constPicture 255) (constPicture 0) (constMotion 0)).2.motion_out
        (analyzeIteration identityDwt (exactArith fun _ _ => 0) (smallConfig 2 1)
          (constMotion 0) (referenceState identityDwt (smallConfig 2 1) (constPicture 0) 0)
          (constPicture 255) (constPicture 0) (constMotion 0)).2.frame_type).2 0 1 1 = 127 ∧
    constPicture 255 0 1 1 = 255 := by
  have hB : (analyzeIteration identityDwt (exactArith fun _ _ => 0) (smallConfig 2 1)
        (constMotion 0) (referenceState identityDwt (smallConfig 2 1) (constPicture 0) 0)
        (constPicture 255) (constPicture 0) (constMotion 0)).2.frame_type = 'B' := by
    rw [analyzeIteration_frame_type]
    exact frameType_always_B _ _ (fun _ _ h => h) rfl rfl (by decide) (by decide) (by decide)
      _ _ _
  refine ⟨rfl, rfl, rfl, hB, ?_, rfl⟩
  rw [analyzeIteration_motion_out, analyzeIteration_high, hB]
  decide

/-- C2, as amended.  With `subpixel_accuracy = 0` and a wavelet operator that is the identity
at zero levels, for a frame that analysis elects `B` and every luma sample `(y, x)`, with the
same reference window and prediction buffers in both runs: the prediction `q` of the sample is
the same in both runs and lies in `[0,255]`, and the sample that synthesis writes to `odd`
equals the sample `p` analysis read from `odd` whenever `-128 <= p - q <= 127`; it is `q + 127`
when `p - q > 127` and `q - 128` when `p - q < -128`. -/
theorem b_round_trip_luma (image_dwt : Dwt2d) (fm : FloatModel) (cfg : Config)
    (zeroes : MotionField) (st st' : State) (odd even : Picture) (mv : MotionField)
    (hsub : cfg.subpixel_accuracy = 0) (hz : image_dwt.ZeroLevelIdentity)
    (hst : st'.reference0 = st.reference0 ∧ st'.reference1 = st.reference1 ∧
      st'.prediction_block = st.prediction_block ∧ st'.prediction = st.prediction)
    (hBt : (analyzeIteration image_dwt fm cfg zeroes st odd even mv).2.frame_type = 'B')
    (hodd : ∀ y x, 0 ≤ odd 0 y x ∧ odd 0 y x ≤ 255)
    (y x : Int) (hin : inRect cfg.pixels_in_y0 cfg.pixels_in_x0 y x) :
    (synthesizeIteration image_dwt cfg st'
        (analyzeIteration image_dwt fm cfg zeroes st odd even mv).2.high even
        (analyzeIteration image_dwt fm cfg zeroes st odd even mv).2.motion_out
        (analyzeIteration image_dwt fm cfg zeroes st odd even mv).2.frame_type).1.prediction
      = (analyzeIteration image_dwt fm cfg zeroes st odd even mv).2.prediction ∧
    0 ≤ (analyzeIteration image_dwt fm cfg zeroes st odd even mv).2.prediction 0 y x ∧
    (analyzeIteration image_dwt fm cfg zeroes st odd even mv).2.prediction 0 y x ≤ 255 ∧
    (-128 ≤ odd 0 y x - (analyzeIteration image_dwt fm cfg zeroes st odd even mv).2.prediction
        0 y x →
      odd 0 y x - (analyzeIteration image_dwt fm cfg zeroes st odd even mv).2.prediction 0 y x
        ≤ 127 →
      (synthesizeIteration image_dwt cfg st'
        (analyzeIteration image_dwt fm cfg zeroes st odd even mv).2.high even
        (analyzeIteration image_dwt fm cfg zeroes st odd even mv).2.motion_out
        (analyzeIteration image_dwt fm cfg zeroes st odd even mv).2.frame_type).2 0 y x
        = odd 0 y x) ∧
    (127 < odd 0 y x - (analyzeIteration image_dwt fm cfg zeroes st odd even mv).2.prediction
        0 y x →
      (synthesizeIteration image_dwt cfg st'
        (analyzeIteration image_dwt fm cfg zeroes st odd even mv).2.high even
        (analyzeIteration image_dwt fm cfg zeroes st odd even mv).2.motion_out
        (analyzeIteration image_dwt fm cfg zeroes st odd even mv).2.frame_type).2 0 y x
        = (analyzeIteration image_dwt fm cfg zeroes st odd even mv).2.prediction 0 y x + 127) ∧
    (odd 0 y x - (analyzeIteration image_dwt fm cfg zeroes st odd even mv).2.prediction 0 y x
        < -128 →
      (synthesizeIteration image_dwt cfg st'
        (analyzeIteration image_dwt fm cfg zeroes st odd even mv).2.high even
        (analyzeIteration image_dwt fm cfg zeroes st odd even mv).2.motion_out
        (analyzeIteration image_dwt fm cfg zeroes st odd even mv).2.frame_type).2 0 y x
        = (analyzeIteration image_dwt fm cfg zeroes st odd even mv).2.prediction 0 y x
          - 128) := by
  have h0 : (0 : Nat) < COMPONENTS := by decide
  have hin0 : inRect (cfg.pixels_in_y 0) (cfg.pixels_in_x 0) y x := by
    simpa [Config.pixels_in_y, Config.pixels_in_x] using hin
  -- the prediction is the same in both runs
  have hsame : (synthesizeIteration image_dwt cfg st'
        (analyzeIteration image_dwt fm cfg zeroes st odd even mv).2.high even
        (analyzeIteration image_dwt fm cfg zeroes st odd even mv).2.motion_out
        (analyzeIteration image_dwt fm cfg zeroes st odd even mv).2.frame_type).1.prediction
      = (analyzeIteration image_dwt fm cfg zeroes st odd even mv).2.prediction := by
    rw [synthesizeIteration_prediction, analyzeIteration_prediction,
      analyzeIteration_motion_out, hBt]
    obtain ⟨e1, e2, e3, e4⟩ := hst
    have hm : motionOutStep 'B' mv zeroes = mv := by
      simp only [motionOutStep]
      rw [if_neg (by decide)]
    rw [hm, e2, e3, e4]
    congr 2
    funext d
    cases d <;> simp only [State.reference, e1]
  have hq : 0 ≤ (analyzeIteration image_dwt fm cfg zeroes st odd even mv).2.prediction 0 y x ∧
      (analyzeIteration image_dwt fm cfg zeroes st odd even mv).2.prediction 0 y x ≤ 255 := by
    rw [analyzeIteration_prediction]
    exact predictionStep_luma_range image_dwt cfg mv _ _ _ hz hsub y x hin
  have hp := hodd y x
  -- the sample written by synthesis
  have hout : (synthesizeIteration image_dwt cfg st'
        (analyzeIteration image_dwt fm cfg zeroes st odd even mv).2.high even
        (analyzeIteration image_dwt fm cfg zeroes st odd even mv).2.motion_out
        (analyzeIteration image_dwt fm cfg zeroes st odd even mv).2.frame_type).2 0 y x
      = clip255 ((clip255 (clip128 (odd 0 y x
            - (analyzeIteration image_dwt fm cfg zeroes st odd even mv).2.prediction 0 y x)
          + 128) - 128)
          + (analyzeIteration image_dwt fm cfg zeroes st odd even mv).2.prediction 0 y x) := by
    rw [synthesizeIteration_odd, hsame]
    simp only [reconstructStep, readHigh, h0, hin0, and_self, if_true]
    rw [analyzeIteration_high, hBt]
    simp only [highStep, residueStep, h0, hin0, and_self, if_true,
      analyzeIteration_predicted image_dwt fm cfg zeroes st odd even mv 0 y x h0 hin0]
    rw [if_neg (by decide), if_neg (by decide)]
  refine ⟨hsame, hq.1, hq.2, ?_, ?_, ?_⟩
  · intro h1 h2
    rw [hout]
    unfold clip255 clip128
    split_ifs <;> omega
  · intro h1
    rw [hout]
    unfold clip255 clip128
    split_ifs <;> omega
  · intro h1
    rw [hout]
    unfold clip255 clip128
    split_ifs <;> omega

theorem b_round_trip_luma_witness :
    (synthesizeIteration identityDwt (smallConfig 2 1)
        (referenceState identityDwt (smallConfig 2 1) (constPicture 90) 0)
        (analyzeIteration identityDwt (exactArith fun _ _ => 0) (smallConfig 2 1)
          (constMotion 0) (referenceState identityDwt (smallConfig 2 1) (constPicture 90) 0)
          (constPicture 100) (constPicture 90) (constMotion 0)).2.high
        (constPicture 90)
        (analyzeIteration identityDwt (exactArith fun _ _ => 0) (smallConfig 2 1)
          (constMotion 0) (referenceState identityDwt (smallConfig 2 1) (constPicture 90) 0)
          (constPicture 100) (constPicture 90) (constMotion 0)).2.motion_out
        (analyzeIteration identityDwt (exactArith fun _ _ => 0) (smallConfig 2 1)
          (constMotion 0) (referenceState identityDwt (smallConfig 2 1) (constPicture 90) 0)
          (constPicture 100) (constPicture 90) (constMotion 0)).2.frame_type).2 0 1 1
      = constPicture 100 0 1 1 :=
  (b_round_trip_luma identityDwt (exactArith fun _ _ => 0) (smallConfig 2 1) (constMotion 0)
    (referenceState identityDwt (smallConfig 2 1) (constPicture 90) 0)
    (referenceState identityDwt (smallConfig 2 1) (constPicture 90) 0)
    (constPicture 100) (constPicture 90) (constMotion 0) rfl identityDwt_zeroLevelIdentity
    ⟨rfl, rfl, rfl, rfl⟩
    (by
      rw [analyzeIteration_frame_type]
      exact frameType_always_B _ _ (fun _ _ h => h) rfl rfl (by decide) (by decide)
        (by decide) _ _ _)
    (fun _ _ => by simp [constPicture]) 1 1 (by decide)).2.2.2.1 (by decide) (by decide)


/-! ## The high band of I and B pictures -/

/-- C11. Whenever analysis elects `'I'` for a frame, for every component `c` and in-range
`(y, x)` the sample handed to the writer of `high` is the sample read from `odd` (the raw
predicted picture, without the bias 128 and whatever the prediction); and synthesis, reading
that `high` picture and that type byte, hands the same sample to the writer of `odd`, whatever
its own buffers, references and motion field. -/
theorem I_frame_high_is_odd (image_dwt : Dwt2d) (fm : FloatModel) (cfg : Config)
    (zeroes : MotionField) (st st' : State) (odd even even' : Picture) (mv mv' : MotionField)
    (hI : (analyzeIteration image_dwt fm cfg zeroes st odd even mv).2.frame_type = 'I')
    (c : Nat) (y x : Int) (hc : c < COMPONENTS)
    (hin : inRect (cfg.pixels_in_y c) (cfg.pixels_in_x c) y x) :
    (analyzeIteration image_dwt fm cfg zeroes st odd even mv).2.high c y x = odd c y x ∧
    (synthesizeIteration image_dwt cfg st'
      (analyzeIteration image_dwt fm cfg zeroes st odd even mv).2.high even' mv'
      (analyzeIteration image_dwt fm cfg zeroes st odd even mv).2.frame_type).2 c y x
      = odd c y x := by
  have h1 : (analyzeIteration image_dwt fm cfg zeroes st odd even mv).2.high c y x
      = odd c y x := by
    rw [analyzeIteration_high, hI]
    simp only [highStep, hc, hin, and_self, if_true]
    exact analyzeIteration_predicted image_dwt fm cfg zeroes st odd even mv c y x hc hin
  refine ⟨h1, ?_⟩
  rw [synthesizeIteration_odd, hI]
  simp only [reconstructStep, readHigh, hc, hin, and_self, if_true, h1]
  omega

theorem I_frame_high_is_odd_witness :
    (analyzeIteration identityDwt (exactArith fun _ _ => 0) (smallConfig 2 0) (constMotion 0)
        (constState 0) (constPicture 77) (constPicture 3) (constMotion 2)).2.high 1 1 0
      = constPicture 77 1 1 0 ∧
    (synthesizeIteration identityDwt (smallConfig 2 0) (constState 5)
      (analyzeIteration identityDwt (exactArith fun _ _ => 0) (smallConfig 2 0) (constMotion 0)
        (constState 0) (constPicture 77) (constPicture 3) (constMotion 2)).2.high
      (constPicture 9) (constMotion 1)
      (analyzeIteration identityDwt (exactArith fun _ _ => 0) (smallConfig 2 0) (constMotion 0)
        (constState 0) (constPicture 77) (constPicture 3)
        (constMotion 2)).2.frame_type).2 1 1 0
      = constPicture 77 1 1 0 :=
  I_frame_high_is_odd identityDwt (exactArith fun _ _ => 0) (smallConfig 2 0) (constMotion 0)
    (constState 0) (constState 5) (constPicture 77) (constPicture 3) (constPicture 9)
    (constMotion 2) (constMotion 1)
    (by rw [analyzeIteration_frame_type]; exact frameType_zero_entropy _ _ _ _ rfl)
    1 1 0 (by decide) (by decide)

/-- C19. In the `B` branch of analysis every residue sample `r` already lies in `[-128,127]`,
so the value handed to the writer of `high` is exactly `r + 128` (the clip of `r + 128` to
`[0,255]` does not change it), and the de-bias `high - 128` of synthesis recovers `r`. -/
theorem B_path_clip_is_identity (image_dwt : Dwt2d) (fm : FloatModel) (cfg : Config)
    (zeroes : MotionField) (st : State) (odd even residue' : Picture) (mv : MotionField)
    (hB : (analyzeIteration image_dwt fm cfg zeroes st odd even mv).2.frame_type = 'B')
    (c : Nat) (y x : Int) (hc : c < COMPONENTS)
    (hin : inRect (cfg.pixels_in_y c) (cfg.pixels_in_x c) y x) :
    (-128 ≤ analyzeResidue image_dwt fm cfg zeroes st odd even mv c y x ∧
      analyzeResidue image_dwt fm cfg zeroes st odd even mv c y x ≤ 127) ∧
    clip255 (analyzeResidue image_dwt fm cfg zeroes st odd even mv c y x + 128)
      = analyzeResidue image_dwt fm cfg zeroes st odd even mv c y x + 128 ∧
    (analyzeIteration image_dwt fm cfg zeroes st odd even mv).2.high c y x
      = analyzeResidue image_dwt fm cfg zeroes st odd even mv c y x + 128 ∧
    readHigh cfg (analyzeIteration image_dwt fm cfg zeroes st odd even mv).2.high residue' c y x
      = analyzeResidue image_dwt fm cfg zeroes st odd even mv c y x := by
  have hr : -128 ≤ analyzeResidue image_dwt fm cfg zeroes st odd even mv c y x ∧
      analyzeResidue image_dwt fm cfg zeroes st odd even mv c y x ≤ 127 := by
    unfold analyzeResidue
    simp only [residueStep, hc, hin, and_self, if_true]
    exact clip128_range _
  have hclip : clip255 (analyzeResidue image_dwt fm cfg zeroes st odd even mv c y x + 128)
      = analyzeResidue image_dwt fm cfg zeroes st odd even mv c y x + 128 :=
    clip255_of_range _ (by omega) (by omega)
  have hhigh : (analyzeIteration image_dwt fm cfg zeroes st odd even mv).2.high c y x
      = analyzeResidue image_dwt fm cfg zeroes st odd even mv c y x + 128 := by
    rw [analyzeIteration_high, hB, ← hclip]
    simp only [highStep, hc, hin, and_self, if_true, analyzeResidue]
    rw [if_neg (by decide)]
  refine ⟨hr, hclip, hhigh, ?_⟩
  simp only [readHigh, hc, hin, and_self, if_true, hhigh]
  omega

theorem B_path_clip_is_identity_witness :
    readHigh (smallConfig 2 1)
      (analyzeIteration identityDwt (exactArith fun _ _ => 0) (smallConfig 2 1) (constMotion 0)
        (referenceState identityDwt (smallConfig 2 1) (constPicture 90) 0) (constPicture 100)
        (constPicture 90) (constMotion 0)).2.high (constPicture 0) 0 1 1
      = analyzeResidue identityDwt (exactArith fun _ _ => 0) (smallConfig 2 1) (constMotion 0)
        (referenceState identityDwt (smallConfig 2 1) (constPicture 90) 0) (constPicture 100)
        (constPicture 90) (constMotion 0) 0 1 1 :=
  (B_path_clip_is_identity identityDwt (exactArith fun _ _ => 0) (smallConfig 2 1)
    (constMotion 0) (referenceState identityDwt (smallConfig 2 1) (constPicture 90) 0)
    (constPicture 100) (constPicture 90) (constPicture 0) (constMotion 0)
    (by
      rw [analyzeIteration_frame_type]
      exact frameType_always_B _ _ (fun _ _ h => h) rfl rfl (by decide) (by decide)
        (by decide) _ _ _)
    0 1 1 (by decide) (by decide)).2.2.2

/-- C20. For every configuration and every component, for a predicted sample `p` in `[0,255]`
and a prediction sample `q` (any value, the same in analysis and synthesis) with
`-128 <= p - q <= 127`, the `B` reconstruction of synthesis applied to the `high` sample that
the `B` branch of analysis writes, `clip255((clip255(clip128(p - q) + 128) - 128) + q)`,
equals `p`. -/
theorem B_round_trip_without_saturation (cfg : Config)
    (predicted prediction residue residue' predicted' : Picture)
    (c : Nat) (y x : Int) (hc : c < COMPONENTS)
    (hin : inRect (cfg.pixels_in_y c) (cfg.pixels_in_x c) y x)
    (hp : 0 ≤ predicted c y x ∧ predicted c y x ≤ 255)
    (hd : -128 ≤ predicted c y x - prediction c y x ∧
      predicted c y x - prediction c y x ≤ 127) :
    reconstructStep cfg 'B'
        (readHigh cfg (highStep cfg 'B' predicted (residueStep cfg predicted prediction residue))
          residue')
        prediction predicted' c y x
      = clip255 ((clip255 (clip128 (predicted c y x - prediction c y x) + 128) - 128)
          + prediction c y x) ∧
    reconstructStep cfg 'B'
        (readHigh cfg (highStep cfg 'B' predicted (residueStep cfg predicted prediction residue))
          residue')
        prediction predicted' c y x
      = predicted c y x := by
  have h : reconstructStep cfg 'B'
        (readHigh cfg (highStep cfg 'B' predicted (residueStep cfg predicted prediction residue))
          residue')
        prediction predicted' c y x
      = clip255 ((clip255 (clip128 (predicted c y x - prediction c y x) + 128) - 128)
          + prediction c y x) := by
    simp only [reconstructStep, readHigh, highStep, residueStep, hc, hin, and_self, if_true]
    rw [if_neg (by decide), if_neg (by decide)]
  refine ⟨h, ?_⟩
  rw [h]
  unfold clip255 clip128
  split_ifs <;> omega

theorem B_round_trip_without_saturation_witness :
    reconstructStep (smallConfig 2 1) 'B'
        (readHigh (smallConfig 2 1)
          (highStep (smallConfig 2 1) 'B' (constPicture 200)
            (residueStep (smallConfig 2 1) (constPicture 200) (constPicture 300)
              (constPicture 0)))
          (constPicture 0))
        (constPicture 300) (constPicture 0) 2 1 1
      = constPicture 200 2 1 1 :=
  (B_round_trip_without_saturation (smallConfig 2 1) (constPicture 200) (constPicture 300)
    (constPicture 0) (constPicture 0) (constPicture 0) 2 1 1 (by decide) (by decide)
    (by decide) (by decide)).2


/-! ## Block copy and source layout of the scatter -/

theorem tdiv_two_truncates (s : Int) :
    (0 ≤ s → Int.tdiv s 2 = s / 2) ∧ (s < 0 → Int.tdiv s 2 = -((-s) / 2)) := by
  constructor
  · intro h
    exact Int.tdiv_eq_ediv h (by norm_num)
  · intro h
    have h1 : s = -(-s) := by ring
    rw [h1, Int.neg_tdiv, Int.tdiv_eq_ediv (by omega) (by norm_num)]
    simp

/-- C15. When `block_overlaping = 0` (so `levels = 0`) and the wavelet operator with 0 levels
is the identity, `predict()` yields, for every component `c`, block `(by, bx)` and
`0 <= y, x < block_size`,
`prediction_picture[c][by*block_size + y][bx*block_size + x] =
(reference[PREV][c][by*block_size + mv[PREV][Y][by][bx] + y][bx*block_size + mv[PREV][X][by][bx] + x]
+ reference[NEXT][c][by*block_size + mv[NEXT][Y][by][bx] + y][bx*block_size + mv[NEXT][X][by][bx] + x]) / 2`,
the division truncating toward zero: it is the floor of half the sum for a non-negative sum
and minus the floor of half the opposite for a negative sum. -/
theorem degenerate_block_copy (block_size blocks_in_y blocks_in_x : Int) (components : Nat)
    (pixels_in_y pixels_in_x : Int) (mv : MotionField) (overlap_dwt : Dwt2d)
    (hz : overlap_dwt.ZeroLevelIdentity) (prediction_block : Plane)
    (prediction_picture : Picture) (reference_picture : Dir → Picture)
    (c : Nat) (hc : c < components) (by_ bx y x : Int)
    (hb : 0 ≤ by_ ∧ by_ < blocks_in_y ∧ 0 ≤ bx ∧ bx < blocks_in_x)
    (hy : 0 ≤ y ∧ y < block_size) (hx : 0 ≤ x ∧ x < block_size) :
    predictLevels 0 = 0 ∧
    (predict 0 block_size blocks_in_y blocks_in_x components pixels_in_y pixels_in_x mv
        overlap_dwt prediction_block prediction_picture reference_picture).2 c
        (by_ * block_size + y) (bx * block_size + x)
      = Int.tdiv
          (reference_picture Dir.PREV c
              (by_ * block_size + mv Dir.PREV Axis.Y_FIELD by_ bx + y)
              (bx * block_size + mv Dir.PREV Axis.X_FIELD by_ bx + x)
            + reference_picture Dir.NEXT c
              (by_ * block_size + mv Dir.NEXT Axis.Y_FIELD by_ bx + y)
              (bx * block_size + mv Dir.NEXT Axis.X_FIELD by_ bx + x)) 2 ∧
    (∀ s : Int, (0 ≤ s → Int.tdiv s 2 = s / 2) ∧ (s < 0 → Int.tdiv s 2 = -((-s) / 2))) := by
  refine ⟨predictLevels_zero, ?_, tdiv_two_truncates⟩
  rw [predict_no_overlap block_size blocks_in_y blocks_in_x components pixels_in_y pixels_in_x
    mv overlap_dwt hz prediction_block prediction_picture reference_picture c hc by_ bx
    (by_ * block_size + y) (bx * block_size + x) hb
    (by unfold inRect; refine ⟨?_, ?_, ?_, ?_⟩ <;> omega)]
  unfold motionAverage
  congr 2 <;> congr 1 <;> ring

theorem degenerate_block_copy_witness :
    (predict 0 2 2 2 3 4 4
        (fun d _ _ _ => match d with
          | Dir.PREV => 1
          | Dir.NEXT => 0)
        identityDwt (fun _ _ => 0) (constPicture 0)
        (fun d _ y x => match d with
          | Dir.PREV => -(10 * y + x + 1)
          | Dir.NEXT => 0)).2 1 (1 * 2 + 0) (0 * 2 + 1) = -16 :=
  (degenerate_block_copy 2 2 2 3 4 4
    (fun d _ _ _ => match d with
      | Dir.PREV => 1
      | Dir.NEXT => 0)
    identityDwt identityDwt_zeroLevelIdentity (fun _ _ => 0) (constPicture 0)
    (fun d _ y x => match d with
      | Dir.PREV => -(10 * y + x + 1)
      | Dir.NEXT => 0)
    1 (by decide) 1 0 0 1 (by decide) (by decide) (by decide)).2.1

theorem shr_of_dvd (m : Int) (l : Nat) (h : (2 : Int) ^ l ∣ m) : (m >>> l) * 2 ^ l = m := by
  rw [Int.shiftRight_eq_div_pow]
  push_cast
  exact Int.ediv_mul_cancel h

theorem shr_add_of_dvd (m n : Int) (l : Nat) (hm : (2 : Int) ^ l ∣ m) :
    (m + n) >>> l = (m >>> l) + (n >>> l) := by
  rw [Int.shiftRight_eq_div_pow, Int.shiftRight_eq_div_pow, Int.shiftRight_eq_div_pow]
  push_cast
  exact Int.add_ediv_of_dvd_left hm

/-- C16. In `predict()`, for a level `l` with `2^l` dividing both `block_size` and `dwt_border`,
the high-band source offset `(block_size + 3*dwt_border) >> l` is
`((block_size + 2*dwt_border) >> l) + (dwt_border >> l)`: the start of the level-`l` high
subband of the transformed enlarged block plus the scaled border; and the side of that subband,
`(block_size + 2*dwt_border) >> l`, is `bs + 2 * (dwt_border >> l)` with `bs = block_size >> l`.
So the `bs x bs` tile copied for LH, HL and HH is the level-`l` subband with
`dwt_border >> l` samples trimmed on each side, and the LL tile is the low band trimmed in the
same way: an index `y` is in `[0, bs)` exactly when the source index lies between the trimmed
ends of its band. -/
theorem scatter_source_layout (block_size dwt_border : Int) (l : Nat)
    (hB : (2 : Int) ^ l ∣ block_size) (hb : (2 : Int) ^ l ∣ dwt_border)
    (c : Nat) (by_ bx y x : Int) :
    (block_size + dwt_border * 3) >>> l
      = ((block_size + 2 * dwt_border) >>> l) + (dwt_border >>> l) ∧
    (block_size + 2 * dwt_border) >>> l = (block_size >>> l) + 2 * (dwt_border >>> l) ∧
    ScatterIter.src block_size dwt_border ⟨c, by_, bx, l, Subband.LH, y, x⟩
      = ((dwt_border >>> l) + y,
         ((block_size + 2 * dwt_border) >>> l) + (dwt_border >>> l) + x) ∧
    ScatterIter.src block_size dwt_border ⟨c, by_, bx, l, Subband.HL, y, x⟩
      = (((block_size + 2 * dwt_border) >>> l) + (dwt_border >>> l) + y,
         (dwt_border >>> l) + x) ∧
    ScatterIter.src block_size dwt_border ⟨c, by_, bx, l, Subband.HH, y, x⟩
      = (((block_size + 2 * dwt_border) >>> l) + (dwt_border >>> l) + y,
         ((block_size + 2 * dwt_border) >>> l) + (dwt_border >>> l) + x) ∧
    ScatterIter.src block_size dwt_border ⟨c, by_, bx, l, Subband.LL, y, x⟩
      = ((dwt_border >>> l) + y, (dwt_border >>> l) + x) ∧
    ((0 ≤ y ∧ y < block_size >>> l) ↔
      (dwt_border >>> l ≤ (dwt_border >>> l) + y ∧
        (dwt_border >>> l) + y < ((block_size + 2 * dwt_border) >>> l) - (dwt_border >>> l))) ∧
    ((0 ≤ y ∧ y < block_size >>> l) ↔
      (((block_size + 2 * dwt_border) >>> l) + (dwt_border >>> l)
          ≤ ((block_size + dwt_border * 3) >>> l) + y ∧
        ((block_size + dwt_border * 3) >>> l) + y
          < 2 * ((block_size + 2 * dwt_border) >>> l) - (dwt_border >>> l))) := by
  have e1 : (block_size + 2 * dwt_border) >>> l = (block_size >>> l) + 2 * (dwt_border >>> l) := by
    rw [shr_add_of_dvd _ _ _ hB, two_mul, shr_add_of_dvd _ _ _ hb]
    ring
  have e2 : (block_size + dwt_border * 3) >>> l
      = ((block_size + 2 * dwt_border) >>> l) + (dwt_border >>> l) := by
    rw [e1, shr_add_of_dvd _ _ _ hB,
      show dwt_border * 3 = dwt_border + (dwt_border + dwt_border) by ring,
      shr_add_of_dvd _ _ _ hb, shr_add_of_dvd _ _ _ hb]
    ring
  refine ⟨e2, e1, ?_, ?_, ?_, ?_, ?_, ?_⟩
  · simp only [ScatterIter.src, e2]
  · simp only [ScatterIter.src, e2]
  · simp only [ScatterIter.src, e2]
  · simp only [ScatterIter.src]
  · constructor <;> intro h <;> constructor <;> omega
  · constructor <;> intro h <;> constructor <;> omega

theorem scatter_source_layout_witness :
    ScatterIter.src 16 4 ⟨0, 1, 2, 2, Subband.HH, 3, 1⟩
      = ((((16 : Int) + 2 * 4) >>> 2) + ((4 : Int) >>> 2) + 3,
         (((16 : Int) + 2 * 4) >>> 2) + ((4 : Int) >>> 2) + 1) :=
  (scatter_source_layout 16 4 2 (by norm_num) (by norm_num) 0 1 2 3 1).2.2.2.2.1


/-! ## The reads of `predict()` stay inside the halo -/

theorem mem_predictReads (block_overlaping block_size blocks_in_y blocks_in_x : Int)
    (components : Nat) (mv : MotionField) (r : Dir × Nat × Int × Int)
    (hr : r ∈ predictReads block_overlaping block_size blocks_in_y blocks_in_x components mv) :
    ∃ (d : Dir) (by_ bx y x : Int), 0 ≤ by_ ∧ by_ < blocks_in_y ∧ 0 ≤ bx ∧ bx < blocks_in_x ∧
      -block_overlaping ≤ y ∧ y < block_size + block_overlaping ∧
      -block_overlaping ≤ x ∧ x < block_size + block_overlaping ∧
      r.2.2.1 = mv d Axis.Y_FIELD by_ bx + by_ * block_size + y ∧
      r.2.2.2 = mv d Axis.X_FIELD by_ bx + bx * block_size + x := by
  unfold predictReads at hr
  simp only [List.mem_flatMap, List.mem_range, mem_intRange, List.mem_cons, List.mem_singleton,
    List.not_mem_nil, or_false] at hr
  obtain ⟨c, _, by_, hby, bx, hbx, y, hy, x, hx, h | h⟩ := hr
  · exact ⟨Dir.PREV, by_, bx, y, x, hby.1, hby.2, hbx.1, hbx.2, hy.1, hy.2, hx.1, hx.2,
      by rw [h], by rw [h]⟩
  · exact ⟨Dir.NEXT, by_, bx, y, x, hby.1, hby.2, hbx.1, hbx.2, hy.1, hy.2, hx.1, hx.2,
      by rw [h], by rw [h]⟩

/-- One coordinate of a read: motion vector, block origin and offset inside the enlarged
block. -/
theorem read_in_halo (m ov bs n b v y p : Int) (hbs : 0 ≤ bs) (hg : n * bs ≤ p)
    (hv : |v| ≤ m) (hb0 : 0 ≤ b) (hb1 : b < n) (hy0 : -ov ≤ y) (hy1 : y < bs + ov) :
    -(m + ov) ≤ v + b * bs + y ∧ v + b * bs + y < p + (m + ov) := by
  obtain ⟨hv0, hv1⟩ := abs_le.1 hv
  have h1 : 0 ≤ b * bs := mul_nonneg hb0 hbs
  have h2 : (b + 1) * bs ≤ n * bs := mul_le_mul_of_nonneg_right (by omega) hbs
  constructor
  · linarith
  · nlinarith

/-- C17. With `border = (4*search_range + block_overlaping) << subpixel_accuracy`, reference
planes of `(pixels_in_y << s) x (pixels_in_x << s)` samples, a non-negative `block_size` and
`blocks_in_* * block_size <= pixels_in_*`: if every motion-vector component `v` satisfies
`|v| <= (4*search_range) << s`, then every reference sample read by `predict()`, called with
`block_overlaping << s` and `block_size << s`, has its row in
`[-border, (pixels_in_y << s) + border)` and its column in
`[-border, (pixels_in_x << s) + border)`. -/
theorem reads_inside_halo (search_range block_overlaping block_size : Int)
    (pixels_in_y pixels_in_x blocks_in_y blocks_in_x : Int) (s components : Nat)
    (mv : MotionField) (hbs : 0 ≤ block_size)
    (hgy : blocks_in_y * block_size ≤ pixels_in_y)
    (hgx : blocks_in_x * block_size ≤ pixels_in_x)
    (hmv : ∀ d a by_ bx, |mv d a by_ bx| ≤ shl (4 * search_range) s)
    (r : Dir × Nat × Int × Int)
    (hr : r ∈ predictReads (shl block_overlaping s) (shl block_size s) blocks_in_y blocks_in_x
      components mv) :
    (-(shl (4 * search_range + block_overlaping) s) ≤ r.2.2.1 ∧
      r.2.2.1 < shl pixels_in_y s + shl (4 * search_range + block_overlaping) s) ∧
    (-(shl (4 * search_range + block_overlaping) s) ≤ r.2.2.2 ∧
      r.2.2.2 < shl pixels_in_x s + shl (4 * search_range + block_overlaping) s) := by
  obtain ⟨d, by_, bx, y, x, h1, h2, h3, h4, h5, h6, h7, h8, e1, e2⟩ :=
    mem_predictReads _ _ _ _ _ _ r hr
  have hpow : (0 : Int) ≤ 2 ^ s := by positivity
  have hborder : shl (4 * search_range + block_overlaping) s
      = shl (4 * search_range) s + shl block_overlaping s := by
    unfold shl
    ring
  have hBS : 0 ≤ shl block_size s := mul_nonneg hbs hpow
  have hy : blocks_in_y * shl block_size s ≤ shl pixels_in_y s := by
    unfold shl
    rw [← mul_assoc]
    exact mul_le_mul_of_nonneg_right hgy hpow
  have hx : blocks_in_x * shl block_size s ≤ shl pixels_in_x s := by
    unfold shl
    rw [← mul_assoc]
    exact mul_le_mul_of_nonneg_right hgx hpow
  rw [hborder, e1, e2]
  exact ⟨read_in_halo _ _ _ _ _ _ _ _ hBS hy (hmv d Axis.Y_FIELD by_ bx) h1 h2 h5 h6,
    read_in_halo _ _ _ _ _ _ _ _ hBS hx (hmv d Axis.X_FIELD by_ bx) h3 h4 h7 h8⟩

theorem reads_inside_halo_witness :
    (-(shl (4 * 1 + 1) 1) ≤ (-6 : Int) ∧ (-6 : Int) < shl 2 1 + shl (4 * 1 + 1) 1) ∧
    (-(shl (4 * 1 + 1) 1) ≤ (-10 : Int) ∧ (-10 : Int) < shl 2 1 + shl (4 * 1 + 1) 1) :=
  reads_inside_halo 1 1 2 2 2 1 1 1 1
    skewMotion (by decide) (by decide) (by decide)
    (fun d a _ _ => by cases d <;> cases a <;> norm_num [skewMotion, shl])
    (Dir.PREV, 0, -6, -10) (by decide)

/-! ## A constant predicted picture is elected I -/

theorem planeSymbols_const (h w offset v : Int) (img : Plane)
    (hconst : ∀ y x, inRect h w y x → img y x = v) :
    ∀ sym ∈ planeSymbols h w offset img, sym = v + offset := by
  intro sym hs
  unfold planeSymbols at hs
  simp only [List.mem_flatMap, List.mem_map, mem_intRange] at hs
  obtain ⟨y, hy, x, hx, rfl⟩ := hs
  rw [hconst y x ⟨hy.1, hy.2, hx.1, hx.2⟩]

theorem planeSymbols_nonempty (h w offset : Int) (img : Plane) (hh : 0 < h) (hw : 0 < w) :
    img 0 0 + offset ∈ planeSymbols h w offset img := by
  unfold planeSymbols
  simp only [List.mem_flatMap, List.mem_map, mem_intRange]
  exact ⟨0, ⟨le_refl _, hh⟩, 0, ⟨le_refl _, hw⟩, rfl⟩

/-- The histogram of a non-empty constant plane has one occupied bin. -/
theorem histogram_const (h w v : Int) (img : Plane) (hh : 0 < h) (hw : 0 < w)
    (hconst : ∀ y x, inRect h w y x → img y x = v) :
    0 < histogram (planeSymbols h w 0 img) v ∧
    ∀ i, i ≠ v → histogram (planeSymbols h w 0 img) i = 0 := by
  have hall := planeSymbols_const h w 0 v img hconst
  constructor
  · unfold histogram
    have hmem := planeSymbols_nonempty h w 0 img hh hw
    rw [hconst 0 0 ⟨le_refl _, hh, le_refl _, hw⟩, add_zero] at hmem
    have := List.count_pos_iff.2 hmem
    exact_mod_cast this
  · intro i hi
    unfold histogram
    have : i ∉ planeSymbols h w 0 img := by
      intro hmem
      have := hall i hmem
      rw [add_zero] at this
      exact hi this
    rw [List.count_eq_zero.2 this]
    rfl

/-- The size estimate is non-negative when the entropy is and the two dimensions have the
same sign. -/
theorem entropySize_nonneg (fm : FloatModel) (hmono : Monotone fm.toFloat)
    (hzero : fm.toFloat 0 = 0) (e : ℚ) (he : 0 ≤ e) (a b : Int)
    (hab : (0 ≤ a ∧ 0 ≤ b) ∨ (a ≤ 0 ∧ b ≤ 0)) : 0 ≤ entropySize fm e a b := by
  unfold entropySize
  have key : 0 ≤ fm.toFloat (fm.toFloat (e * fm.toFloat (a : ℚ)) * fm.toFloat (b : ℚ)) := by
    rw [← hzero]
    apply hmono
    rcases hab with ⟨ha, hb⟩ | ⟨ha, hb⟩
    · have fa : 0 ≤ fm.toFloat (a : ℚ) := by
        rw [← hzero]; exact hmono (by exact_mod_cast ha)
      have fb : 0 ≤ fm.toFloat (b : ℚ) := by
        rw [← hzero]; exact hmono (by exact_mod_cast hb)
      have f1 : 0 ≤ fm.toFloat (e * fm.toFloat (a : ℚ)) := by
        rw [← hzero]; exact hmono (mul_nonneg he fa)
      exact mul_nonneg f1 fb
    · have fa : fm.toFloat (a : ℚ) ≤ 0 := by
        rw [← hzero]; exact hmono (by exact_mod_cast ha)
      have fb : fm.toFloat (b : ℚ) ≤ 0 := by
        rw [← hzero]; exact hmono (by exact_mod_cast hb)
      have f1 : fm.toFloat (e * fm.toFloat (a : ℚ)) ≤ 0 := by
        rw [← hzero]; exact hmono (mul_nonpos_of_nonneg_of_nonpos he fa)
      exact mul_nonneg_of_nonpos_of_nonpos f1 fb
  have h := truncToInt_mono key
  rw [show (0 : ℚ) = ((0 : Int) : ℚ) by norm_num, truncToInt_intCast] at h
  exact h

theorem blocks_same_sign (cfg : Config) (hy : 0 < cfg.pixels_in_y0) (hx : 0 < cfg.pixels_in_x0) :
    (0 ≤ cfg.blocks_in_y ∧ 0 ≤ cfg.blocks_in_x) ∨ (cfg.blocks_in_y ≤ 0 ∧ cfg.blocks_in_x ≤ 0) := by
  unfold Config.blocks_in_y Config.blocks_in_x
  by_cases h : 0 ≤ cfg.block_size
  · exact Or.inl ⟨Int.tdiv_nonneg hy.le h, Int.tdiv_nonneg hx.le h⟩
  · exact Or.inr ⟨Int.tdiv_nonpos hy.le (by omega), Int.tdiv_nonpos hx.le (by omega)⟩

/-- C18. With `always_B = 0` and positive luma dimensions, whenever the luma plane of the
predicted (odd) picture is constant, so that its entropy is 0 and `predicted_size = 0`, the
frame is elected `'I'` for every residue and every motion field.  The entropy routine is the
Shannon entropy (never negative, 0 for a histogram with a single occupied bin); the rounding
to `float` is monotone and exact at 0. -/
theorem constant_predicted_frame_elects_I (image_dwt : Dwt2d) (fm : FloatModel)
    (cfg : Config) (zeroes : MotionField) (st : State) (odd even : Picture)
    (mv : MotionField) (v : Int)
    (hmono : Monotone fm.toFloat) (hzero : fm.toFloat 0 = 0)
    (hent : fm.ShannonEntropy)
    (hB : cfg.always_B = 0) (hy : 0 < cfg.pixels_in_y0) (hx : 0 < cfg.pixels_in_x0)
    (hconst : ∀ y x, inRect cfg.pixels_in_y0 cfg.pixels_in_x0 y x → odd 0 y x = v) :
    predicted_entropy fm cfg
        (analyzeIteration image_dwt fm cfg zeroes st odd even mv).1.predicted = 0 ∧
    predicted_size fm cfg (predicted_entropy fm cfg
        (analyzeIteration image_dwt fm cfg zeroes st odd even mv).1.predicted) = 0 ∧
    (analyzeIteration image_dwt fm cfg zeroes st odd even mv).2.frame_type = 'I' := by
  have hpred : ∀ y x, inRect cfg.pixels_in_y0 cfg.pixels_in_x0 y x →
      (analyzeIteration image_dwt fm cfg zeroes st odd even mv).1.predicted 0 y x = v := by
    intro y x hin
    rw [analyzeIteration_predicted image_dwt fm cfg zeroes st odd even mv 0 y x (by decide)
      (by simpa [Config.pixels_in_y, Config.pixels_in_x] using hin)]
    exact hconst y x hin
  have hh := histogram_const cfg.pixels_in_y0 cfg.pixels_in_x0 v _ hy hx hpred
  have hpe : predicted_entropy fm cfg
      (analyzeIteration image_dwt fm cfg zeroes st odd even mv).1.predicted = 0 := by
    unfold predicted_entropy
    rw [if_pos hB]
    exact hent.2 _ 256 v hh.1 hh.2
  have hps : predicted_size fm cfg (predicted_entropy fm cfg
      (analyzeIteration image_dwt fm cfg zeroes st odd even mv).1.predicted) = 0 := by
    rw [hpe]
    exact entropySize_zero fm hzero _ _
  refine ⟨hpe, hps, ?_⟩
  rw [analyzeIteration_frame_type]
  unfold frameType electType
  rw [hps]
  have hre : 0 ≤ residue_size fm cfg (residue_entropy fm cfg
      (residueStep cfg (analyzeIteration image_dwt fm cfg zeroes st odd even mv).1.predicted
        (analyzeIteration image_dwt fm cfg zeroes st odd even mv).2.prediction st.residue)) := by
    apply entropySize_nonneg fm hmono hzero _ _ _ _ (Or.inl ⟨hy.le, hx.le⟩)
    unfold residue_entropy
    rw [if_pos hB]
    exact hent.1 _ _
  have hme : 0 ≤ motion_size fm cfg (motion_entropy fm cfg mv) := by
    apply entropySize_nonneg fm hmono hzero _ _ _ _ (blocks_same_sign cfg hy hx)
    unfold motion_entropy
    rw [if_pos hB]
    exact hent.1 _ _
  rw [if_pos (by omega)]


theorem constant_predicted_frame_elects_I_witness :
    (analyzeIteration identityDwt (exactArith fun _ _ => 0) defaultConfig (constMotion 0)
      (referenceState identityDwt defaultConfig (constPicture 128) 0) (constPicture 128)
      (constPicture 128) (constMotion 0)).2.frame_type = 'I' :=
  (constant_predicted_frame_elects_I identityDwt (exactArith fun _ _ => 0) defaultConfig
    (constMotion 0) (referenceState identityDwt defaultConfig (constPicture 128) 0)
    (constPicture 128) (constPicture 128) (constMotion 0) 128 (fun _ _ h => h) rfl
    ⟨fun _ _ => le_refl _, fun _ _ _ _ _ => rfl⟩ rfl (by decide) (by decide)
    (fun _ _ _ => rfl)).2.2

/-! ## The run: validation, type stream, reference window -/

theorem analyzeMain_eq (image_dwt : Dwt2d) (fm : FloatModel) (cfg : Config)
    (files : OpenedFiles) (alloc : State) (zalloc : MotionField) (odd even : Nat → Picture)
    (mv : Nat → MotionField) (outs : List AnalyzeOutput)
    (h : analyzeMain image_dwt fm cfg files alloc zalloc odd even mv = some outs) :
    files.analyzeOk = true ∧
    outs = (List.range cfg.pairs).map
      (analyzeOutputAt image_dwt fm cfg (zeroes cfg zalloc) alloc odd even mv) := by
  unfold analyzeMain at h
  split_ifs at h with hf
  exact ⟨hf, (Option.some.inj h).symm⟩

/-- C12 fails: a `4 x 4` picture in blocks of side 3 with `pictures = 4` is not rejected.
With every file opened the ANALYZE run proceeds with `blocks_in_y = blocks_in_x = 1` and
processes `4/2 = 2` frame pairs. -/
theorem geometry_validation_counterexample :
    unevenConfig.pixels_in_x0 % unevenConfig.block_size ≠ 0 ∧
    unevenConfig.pixels_in_y0 % unevenConfig.block_size ≠ 0 ∧
    unevenConfig.pictures % 2 = 0 ∧
    unevenConfig.blocks_in_y = 1 ∧ unevenConfig.blocks_in_x = 1 ∧
    ∃ outs, analyzeMain identityDwt (exactArith fun _ _ => 0) unevenConfig allOpened
        (constState 0) (constMotion 0) (fun _ => constPicture 100) (fun _ => constPicture 100)
        (fun _ => constMotion 0) = some outs ∧ outs.length = 2 := by
  refine ⟨by decide, by decide, by decide, by decide, by decide, _, rfl, ?_⟩
  rw [List.length_map, List.length_range]
  decide

/-- C12, as amended.  `main()` validates neither the geometry nor the parity of `pictures`.
For every configuration in which the divisions of `main()` are defined (`block_size`,
`blocks_in_y` and `blocks_in_x` are not 0), divisible or not, after the command line has been
read the run is rejected exactly when one of the files cannot be opened; otherwise it executes
`pictures/2` iterations (none when `pictures < 2`), with
`blocks_in_y = pixels_in_y[0] / block_size` and `blocks_in_x = pixels_in_x[0] / block_size`
computed by truncating division. -/
theorem no_geometry_validation (image_dwt : Dwt2d) (fm : FloatModel) (cfg : Config)
    (files : OpenedFiles) (alloc : State) (zalloc : MotionField) (odd even high : Nat → Picture)
    (mv : Nat → MotionField) (types : Nat → Char)
    (_hbs : cfg.block_size ≠ 0) (_hby : cfg.blocks_in_y ≠ 0) (_hbx : cfg.blocks_in_x ≠ 0) :
    (analyzeMain image_dwt fm cfg files alloc zalloc odd even mv = none ↔
      files.analyzeOk = false) ∧
    (synthesizeMain image_dwt cfg files alloc high even mv types = none ↔
      files.synthesizeOk = false) ∧
    (files.analyzeOk = true →
      ∃ outs, analyzeMain image_dwt fm cfg files alloc zalloc odd even mv = some outs ∧
        outs.length = (Int.tdiv cfg.pictures 2).toNat) ∧
    (files.synthesizeOk = true →
      ∃ outs, synthesizeMain image_dwt cfg files alloc high even mv types = some outs ∧
        outs.length = (Int.tdiv cfg.pictures 2).toNat) ∧
    cfg.blocks_in_y = Int.tdiv cfg.pixels_in_y0 cfg.block_size ∧
    cfg.blocks_in_x = Int.tdiv cfg.pixels_in_x0 cfg.block_size := by
  refine ⟨?_, ?_, ?_, ?_, rfl, rfl⟩
  · unfold analyzeMain
    split_ifs with h
    · simp [h]
    · simp [h]
  · unfold synthesizeMain
    split_ifs with h
    · simp [h]
    · simp [h]
  · intro h
    refine ⟨_, by unfold analyzeMain; rw [if_pos h], ?_⟩
    rw [List.length_map, List.length_range]
    rfl
  · intro h
    refine ⟨_, by unfold synthesizeMain; rw [if_pos h], ?_⟩
    rw [List.length_map, List.length_range]
    rfl

theorem no_geometry_validation_witness :
    ∃ outs, analyzeMain identityDwt (exactArith fun _ _ => 0) unevenConfig allOpened
        (constState 0) (constMotion 0) (fun _ => constPicture 100) (fun _ => constPicture 100)
        (fun _ => constMotion 0) = some outs ∧
      outs.length = (Int.tdiv unevenConfig.pictures 2).toNat :=
  (no_geometry_validation identityDwt (exactArith fun _ _ => 0) unevenConfig allOpened
    (constState 0) (constMotion 0) (fun _ => constPicture 100) (fun _ => constPicture 100)
    (fun _ => constPicture 100) (fun _ => constMotion 0) (fun _ => 'B') (by decide)
    (by decide) (by decide)).2.2.1 rfl

theorem frame_type_cases (image_dwt : Dwt2d) (fm : FloatModel) (cfg : Config)
    (zeroes : MotionField) (st : State) (odd even : Picture) (mv : MotionField) :
    (analyzeIteration image_dwt fm cfg zeroes st odd even mv).2.frame_type = 'I' ∨
    (analyzeIteration image_dwt fm cfg zeroes st odd even mv).2.frame_type = 'B' := by
  rw [analyzeIteration_frame_type]
  unfold frameType electType
  split_ifs
  · exact Or.inl rfl
  · exact Or.inr rfl

/-- C13. For every `pictures >= 0`, an analysis run that completes writes exactly `pictures/2`
(integer division) bytes to the frame-type stream, one per loop iteration in frame order, and
each written byte is `'I'` or `'B'`. -/
theorem type_stream_shape (image_dwt : Dwt2d) (fm : FloatModel) (cfg : Config)
    (files : OpenedFiles) (alloc : State) (zalloc : MotionField) (odd even : Nat → Picture)
    (mv : Nat → MotionField) (outs : List AnalyzeOutput) (hp : 0 ≤ cfg.pictures)
    (hrun : analyzeMain image_dwt fm cfg files alloc zalloc odd even mv = some outs) :
    (((outs.map AnalyzeOutput.frame_type).length : Int) = cfg.pictures / 2) ∧
    outs.map AnalyzeOutput.frame_type = (List.range (outs.map AnalyzeOutput.frame_type).length).map
      (fun i => (analyzeOutputAt image_dwt fm cfg (zeroes cfg zalloc) alloc odd even mv
        i).frame_type) ∧
    ∀ t ∈ outs.map AnalyzeOutput.frame_type, t = 'I' ∨ t = 'B' := by
  obtain ⟨-, rfl⟩ := analyzeMain_eq image_dwt fm cfg files alloc zalloc odd even mv outs hrun
  have hlen : ((List.range cfg.pairs).map
      (analyzeOutputAt image_dwt fm cfg (zeroes cfg zalloc) alloc odd even mv)).length
      = cfg.pairs := by
    rw [List.length_map, List.length_range]
  refine ⟨?_, ?_, ?_⟩
  · rw [List.length_map, hlen]
    unfold Config.pairs
    rw [Int.tdiv_eq_ediv hp (by norm_num)]
    omega
  · rw [List.length_map, hlen, List.map_map]
    rfl
  · intro t ht
    rw [List.map_map, List.mem_map] at ht
    obtain ⟨i, -, rfl⟩ := ht
    exact frame_type_cases image_dwt fm cfg (zeroes cfg zalloc) _ (odd i) (even (i + 1)) (mv i)

theorem type_stream_shape_witness :
    ((((List.range defaultConfig.pairs).map
      (analyzeOutputAt identityDwt (exactArith fun _ _ => 0) defaultConfig
        (zeroes defaultConfig (constMotion 0)) (constState 0) (fun _ => constPicture 128)
        (fun _ => constPicture 128) (fun _ => constMotion 0))).map
      AnalyzeOutput.frame_type).length : Int) = defaultConfig.pictures / 2 :=
  (type_stream_shape identityDwt (exactArith fun _ _ => 0) defaultConfig allOpened
    (constState 0) (constMotion 0) (fun _ => constPicture 128) (fun _ => constPicture 128)
    (fun _ => constMotion 0) _ (by decide) rfl).1

theorem reference_eq_window (st : State) :
    st.reference = referenceWindow st.reference0 st.reference1 := by
  funext d
  cases d <;> rfl

theorem shl_succ (v : Int) (k : Nat) : shl v (k + 1) = 2 * shl v k := by
  unfold shl
  ring

theorem shl_pos (v : Int) (k : Nat) (hv : 0 < v) : 0 < shl v k := by
  unfold shl
  positivity

/-- For an even width the chroma `memset` loops leave the top-left quadrant and zero the three
others. -/
theorem zeroChromaQuadrants_even (h w : Int) (hw : 2 ∣ w) (img : Plane) (y x : Int)
    (hin : inRect h w y x) :
    zeroChromaQuadrants h w img y x = specZeroPad (Int.tdiv h 2) (Int.tdiv w 2) img y x := by
  unfold inRect at hin
  have e1 : Int.tdiv (w * 2) 2 = w := by
    rw [mul_comm]
    exact Int.mul_tdiv_cancel_left _ (by norm_num)
  have e2 : Int.tdiv w 2 = w / 2 := Int.tdiv_eq_ediv (by omega) (by norm_num)
  have e3 : Int.tdiv h 2 = h / 2 := Int.tdiv_eq_ediv (by omega) (by norm_num)
  unfold zeroChromaQuadrants specZeroPad inRect
  rw [e1, e2, e3]
  obtain ⟨k, hk⟩ := hw
  by_cases h1 : 0 ≤ y ∧ y < h / 2 ∧ 0 ≤ x ∧ x < w / 2
  · have h2 : ¬ (0 ≤ y ∧ y < h / 2 ∧ x = w / 2 + w / 2 ∧ Int.tmod w 2 = 1) := by omega
    rw [if_neg (by omega), if_neg h2, if_pos h1]
  · rw [if_pos (by omega), if_neg h1]

/-- The `memset` loops of a sub-pixel step leave the top-left quadrant and zero the three
others. -/
theorem zeroQuadrants_double (h w : Int) (img : Plane) (y x : Int)
    (hin : inRect (2 * h) (2 * w) y x) :
    zeroQuadrants (2 * h) (2 * w) (Int.tdiv (2 * w) 2) img y x = specZeroPad h w img y x := by
  have e1 : Int.tdiv (2 * h) 2 = h := Int.mul_tdiv_cancel_left _ (by norm_num)
  have e2 : Int.tdiv (2 * w) 2 = w := Int.mul_tdiv_cancel_left _ (by norm_num)
  unfold inRect at hin
  unfold zeroQuadrants specZeroPad inRect
  rw [e1, e2]
  by_cases h1 : 0 ≤ y ∧ y < h ∧ 0 ≤ x ∧ x < w
  · rw [if_neg (by omega), if_pos h1]
  · rw [if_pos (by omega), if_neg h1]

theorem specZeroPad_congr (h w : Int) (p q : Plane)
    (hpq : ∀ y x, inRect h w y x → p y x = q y x) (y x : Int) :
    specZeroPad h w p y x = specZeroPad h w q y x := by
  unfold specZeroPad
  split_ifs with hin
  · exact hpq y x hin
  · rfl

/-- The sub-pixel steps `a+1 .. a+n` of the program and of the spec give the same picture when
they start from the same picture. -/
theorem interpolate_steps_agree (image_dwt : Dwt2d) (cfg : Config)
    (hloc : ∀ k : Nat, k ≤ cfg.subpixel_accuracy →
      image_dwt.ActsOnRect (shl cfg.pixels_in_y0 k) (shl cfg.pixels_in_x0 k) 1) :
    ∀ (n a : Nat) (p q : Plane), a + n ≤ cfg.subpixel_accuracy →
      (∀ y x, inRect (shl cfg.pixels_in_y0 a) (shl cfg.pixels_in_x0 a) y x → p y x = q y x) →
      ∀ y x, inRect (shl cfg.pixels_in_y0 (a + n)) (shl cfg.pixels_in_x0 (a + n)) y x →
        (List.range' (a + 1) n).foldl
            (fun p s =>
              image_dwt.synthesize
                (zeroQuadrants (shl cfg.pixels_in_y0 s) (shl cfg.pixels_in_x0 s)
                  (Int.tdiv (shl cfg.pixels_in_x0 s) 2) p)
                (shl cfg.pixels_in_y0 s) (shl cfg.pixels_in_x0 s) 1) p y x
          = (List.range' (a + 1) n).foldl
              (fun p k =>
                image_dwt.synthesize
                  (specZeroPad (shl cfg.pixels_in_y0 (k - 1)) (shl cfg.pixels_in_x0 (k - 1)) p)
                  (shl cfg.pixels_in_y0 k) (shl cfg.pixels_in_x0 k) 1) q y x := by
  intro n
  induction n with
  | zero =>
    intro a p q _ hpq y x hin
    simpa using hpq y x hin
  | succ n ih =>
    intro a p q ha hpq y x hin
    rw [List.range'_succ, List.foldl_cons, List.foldl_cons]
    have hidx : a + (n + 1) = a + 1 + n := by omega
    rw [hidx] at hin
    refine ih (a + 1) _ _ (by omega) ?_ y x hin
    intro y' x' hin'
    refine (hloc (a + 1) (by omega) _ _ ?_ y' x' hin').2
    intro y2 x2 hin2
    rw [Nat.add_sub_cancel]
    rw [shl_succ, shl_succ] at hin2 ⊢
    rw [zeroQuadrants_double _ _ _ _ _ hin2]
    exact specZeroPad_congr _ _ p q hpq y2 x2

/-- Two planes that agree on the picture have the same halo after `fill_border`. -/
theorem fill_border_agree (p q : Plane) (h w b : Int) (hh : 0 < h) (hw : 0 < w)
    (hpq : ∀ y x, inRect h w y x → p y x = q y x) (y x : Int)
    (hin : inRect (h + 2 * b) (w + 2 * b) (y + b) (x + b)) :
    fill_border p h w b y x = fill_border q h w b y x := by
  unfold fill_border
  rw [if_pos hin, if_pos hin]
  apply hpq
  unfold inRect
  omega

/-- On the picture and its halo, the reference built by the program from an even picture is
the expanded picture of the spec, whatever the buffer held before: for the luma always, for the
chroma when the luma width is even. -/
theorem readReference_eq_specExpand (image_dwt : Dwt2d) (cfg : Config)
    (hY : 0 < cfg.pixels_in_y0) (hX : 0 < cfg.pixels_in_x0)
    (hloc : ∀ k : Nat, k ≤ cfg.subpixel_accuracy →
      image_dwt.ActsOnRect (shl cfg.pixels_in_y0 k) (shl cfg.pixels_in_x0 k) 1)
    (even old : Picture) (c : Nat) (hc : c < COMPONENTS)
    (heven : c = 0 ∨ 2 ∣ cfg.pixels_in_x0) (y x : Int) (hin : cfg.inReference y x) :
    readReference image_dwt cfg even old c y x = specExpand image_dwt cfg even c y x := by
  simp only [readReference, hc, if_true, specExpand]
  refine fill_border_agree _ _ _ _ _ (shl_pos _ _ hY) (shl_pos _ _ hX) ?_ y x hin
  intro y' x' hin'
  unfold interpolate specInterpolate
  have h0 := interpolate_steps_agree image_dwt cfg hloc cfg.subpixel_accuracy 0
  simp only [Nat.zero_add, shl_zero] at h0
  refine h0 _ _ le_rfl ?_ y' x' hin'
  intro y2 x2 hin2
  by_cases hc0 : c = 0
  · subst hc0
    simp only [if_true, texture_read, specZeroPad, Config.pixels_in_y, Config.pixels_in_x, hin2]
  · simp only [hc0, if_false, expandChroma, specExpandChroma, Config.pixels_in_y,
      Config.pixels_in_x]
    have hl := hloc 0 (Nat.zero_le _)
    rw [shl_zero, shl_zero] at hl
    refine (hl _ _ ?_ y2 x2 hin2).2
    intro y3 x3 hin3
    rw [zeroChromaQuadrants_even _ _ (heven.resolve_left hc0) _ _ _ hin3]
    apply specZeroPad_congr
    intro y4 x4 hin4
    simp only [texture_read, hin4, if_true]

/-- C21. For every predicted sample `p` in `[0,255]` and every prediction sample `q` in
`[0,255]`, the `B` reconstruction of synthesis applied to what the `B` branch of analysis
writes is `r = clip255(clip128(p - q) + q)`; it satisfies `|r - p| <= 128` and lies between `q`
and `p`, so it is never farther from `p` than the prediction `q` is. -/
theorem B_round_trip_error_bounded (cfg : Config)
    (predicted prediction residue residue' predicted' : Picture)
    (c : Nat) (y x : Int) (hc : c < COMPONENTS)
    (hin : inRect (cfg.pixels_in_y c) (cfg.pixels_in_x c) y x)
    (hp : 0 ≤ predicted c y x ∧ predicted c y x ≤ 255)
    (hq : 0 ≤ prediction c y x ∧ prediction c y x ≤ 255) :
    reconstructStep cfg 'B'
        (readHigh cfg (highStep cfg 'B' predicted (residueStep cfg predicted prediction residue))
          residue')
        prediction predicted' c y x
      = clip255 (clip128 (predicted c y x - prediction c y x) + prediction c y x) ∧
    |clip255 (clip128 (predicted c y x - prediction c y x) + prediction c y x)
        - predicted c y x| ≤ 128 ∧
    (min (prediction c y x) (predicted c y x)
        ≤ clip255 (clip128 (predicted c y x - prediction c y x) + prediction c y x) ∧
      clip255 (clip128 (predicted c y x - prediction c y x) + prediction c y x)
        ≤ max (prediction c y x) (predicted c y x)) ∧
    |clip255 (clip128 (predicted c y x - prediction c y x) + prediction c y x)
        - predicted c y x| ≤ |prediction c y x - predicted c y x| := by
  have h : reconstructStep cfg 'B'
        (readHigh cfg (highStep cfg 'B' predicted (residueStep cfg predicted prediction residue))
          residue')
        prediction predicted' c y x
      = clip255 (clip128 (predicted c y x - prediction c y x) + prediction c y x) := by
    simp only [reconstructStep, readHigh, highStep, residueStep, hc, hin, and_self, if_true]
    rw [if_neg (by decide), if_neg (by decide)]
    have hr := clip128_range (predicted c y x - prediction c y x)
    rw [clip255_of_range (clip128 (predicted c y x - prediction c y x) + 128) (by omega)
      (by omega)]
    congr 1
    ring
  refine ⟨h, ?_, ⟨?_, ?_⟩, ?_⟩
  · rw [abs_le]
    unfold clip255 clip128
    constructor <;> split_ifs <;> omega
  · unfold clip255 clip128
    split_ifs <;> omega
  · unfold clip255 clip128
    split_ifs <;> omega
  · rw [abs_le]
    have hq' := le_abs_self (prediction c y x - predicted c y x)
    have hq'' := neg_abs_le (prediction c y x - predicted c y x)
    unfold clip255 clip128
    constructor <;> split_ifs <;> omega

theorem B_round_trip_error_bounded_witness :
    |clip255 (clip128 (constPicture 255 0 1 1 - constPicture 0 0 1 1) + constPicture 0 0 1 1)
        - constPicture 255 0 1 1| ≤ 128 :=
  (B_round_trip_error_bounded (smallConfig 2 1) (constPicture 255) (constPicture 0)
    (constPicture 0) (constPicture 0) (constPicture 0) 0 1 1 (by decide) (by decide)
    (by decide) (by decide)).2.1


/-! ## The scatter stays inside the block and inside the picture -/

theorem shr_mono (a b : Int) (l : Nat) (h : a ≤ b) : a >>> l ≤ b >>> l := by
  rw [Int.shiftRight_eq_div_pow, Int.shiftRight_eq_div_pow]
  exact Int.ediv_le_ediv (by positivity) h

theorem zero_shr (l : Nat) : (0 : Int) >>> l = 0 := by
  rw [Int.shiftRight_eq_div_pow]
  simp

/-- A shifted value that is positive comes from a positive value. -/
theorem pos_of_shr_pos (m : Int) (l : Nat) (h : 0 < m >>> l) : 0 < m := by
  by_contra hneg
  have := shr_mono m 0 l (by omega)
  rw [zero_shr] at this
  omega

theorem shr_le_self (m : Int) (l : Nat) (hm : 0 ≤ m) : m >>> l ≤ m := by
  rw [Int.shiftRight_eq_div_pow]
  have h1 : (1 : Int) ≤ ((2 ^ l : Nat) : Int) := by
    have : 0 < 2 ^ l := Nat.two_pow_pos l
    exact_mod_cast this
  have h2 := Int.ediv_mul_le m (b := ((2 ^ l : Nat) : Int)) (by omega)
  have h3 := Int.ediv_nonneg hm (show (0 : Int) ≤ ((2 ^ l : Nat) : Int) by omega)
  nlinarith

theorem two_shr_le_self (m : Int) (l : Nat) (hm : 0 ≤ m) (hl : 1 ≤ l) : 2 * (m >>> l) ≤ m := by
  rw [Int.shiftRight_eq_div_pow]
  have h1 : (2 : Int) ≤ ((2 ^ l : Nat) : Int) := by
    have : 2 ^ 1 ≤ 2 ^ l := Nat.pow_le_pow_right (by norm_num) hl
    exact_mod_cast this
  have h2 := Int.ediv_mul_le m (b := ((2 ^ l : Nat) : Int)) (by omega)
  have h3 := Int.ediv_nonneg hm (show (0 : Int) ≤ ((2 ^ l : Nat) : Int) by omega)
  nlinarith

theorem mul_shr_le (n m : Int) (l : Nat) (hn : 0 ≤ n) : n * (m >>> l) ≤ (n * m) >>> l := by
  rw [Int.shiftRight_eq_div_pow, Int.shiftRight_eq_div_pow]
  have hpos : (0 : Int) < ((2 ^ l : Nat) : Int) := by
    have : 0 < 2 ^ l := Nat.two_pow_pos l
    exact_mod_cast this
  rw [Int.le_ediv_iff_mul_le hpos]
  have h2 := Int.ediv_mul_le m (b := ((2 ^ l : Nat) : Int)) (by omega)
  nlinarith

/-- C22. In `predict()`, for every `block_size >= 0` and `dwt_border >= 0`, every index used to
read `prediction_block` in the scatter lies in `[0, block_size + 2*dwt_border)`: for a level
`l >= 1` and `0 <= y < (block_size >> l)`, both `(dwt_border >> l) + y` and
`((block_size + 3*dwt_border) >> l) + y`; for the LL copy, `(dwt_border >> levels) + y` with
`0 <= y < (block_size >> levels)`; hence the row and the column read by every assignment of
the scatter loops. -/
theorem scatter_reads_inside_block (block_size dwt_border : Int) (levels : Nat)
    (hB : 0 ≤ block_size) (hb : 0 ≤ dwt_border) :
    (∀ (l : Nat) (y : Int), 1 ≤ l → 0 ≤ y → y < block_size >>> l →
      (0 ≤ (dwt_border >>> l) + y ∧ (dwt_border >>> l) + y < block_size + 2 * dwt_border) ∧
      (0 ≤ ((block_size + dwt_border * 3) >>> l) + y ∧
        ((block_size + dwt_border * 3) >>> l) + y < block_size + 2 * dwt_border)) ∧
    (∀ y : Int, 0 ≤ y → y < block_size >>> levels →
      0 ≤ (dwt_border >>> levels) + y ∧
      (dwt_border >>> levels) + y < block_size + 2 * dwt_border) ∧
    (∀ (c : Nat) (by_ bx : Int) (it : ScatterIter), it ∈ scatterBlock block_size levels c by_ bx →
      inRect (block_size + 2 * dwt_border) (block_size + 2 * dwt_border)
        (it.src block_size dwt_border).1 (it.src block_size dwt_border).2) := by
  have low : ∀ (l : Nat) (y : Int), 0 ≤ y → y < block_size >>> l →
      0 ≤ (dwt_border >>> l) + y ∧ (dwt_border >>> l) + y < block_size + 2 * dwt_border := by
    intro l y hy0 hy1
    have h1 := shr_nonneg dwt_border l hb
    have h2 := shr_le_self dwt_border l hb
    have h3 := shr_le_self block_size l hB
    constructor <;> omega
  have high : ∀ (l : Nat) (y : Int), 1 ≤ l → 0 ≤ y → y < block_size >>> l →
      0 ≤ ((block_size + dwt_border * 3) >>> l) + y ∧
      ((block_size + dwt_border * 3) >>> l) + y < block_size + 2 * dwt_border := by
    intro l y hl hy0 hy1
    have h1 := shr_nonneg (block_size + dwt_border * 3) l (by omega)
    have h2 := two_shr_le_self (block_size + dwt_border * 3) l (by omega) hl
    have h3 := two_shr_le_self block_size l hB hl
    constructor <;> omega
  refine ⟨fun l y hl hy0 hy1 => ⟨low l y hy0 hy1, high l y hl hy0 hy1⟩,
    fun y hy0 hy1 => low levels y hy0 hy1, ?_⟩
  intro c by_ bx it hit
  rw [mem_scatterBlock] at hit
  obtain ⟨-, -, -, hband, hy0, hy1, hx0, hx1⟩ := hit
  unfold inRect
  rcases hband with ⟨hLL, -⟩ | ⟨hne, hl1, -⟩
  · simp only [ScatterIter.src, hLL]
    have ly := low it.l it.y hy0 hy1
    have lx := low it.l it.x hx0 hx1
    exact ⟨ly.1, ly.2, lx.1, lx.2⟩
  · have ly := low it.l it.y hy0 hy1
    have lx := low it.l it.x hx0 hx1
    have gy := high it.l it.y hl1 hy0 hy1
    have gx := high it.l it.x hl1 hx0 hx1
    rcases it with ⟨c', b1, b2, l, band, y, x⟩
    cases band
    · exact absurd rfl hne
    · exact ⟨ly.1, ly.2, gx.1, gx.2⟩
    · exact ⟨gy.1, gy.2, lx.1, lx.2⟩
    · exact ⟨gy.1, gy.2, gx.1, gx.2⟩

theorem scatter_reads_inside_block_witness :
    (0 ≤ ((4 : Int) >>> 2) + 3 ∧ ((4 : Int) >>> 2) + 3 < 16 + 2 * 4) ∧
    (0 ≤ (((16 : Int) + 4 * 3) >>> 2) + 3 ∧ (((16 : Int) + 4 * 3) >>> 2) + 3 < 16 + 2 * 4) :=
  (scatter_reads_inside_block 16 4 2 (by decide) (by decide)).1 2 3 (by decide) (by decide)
    (by decide)

/-- One coordinate of a scatter destination, in the low half (`off = 0`) or in the high half
(`off = p >> l`, `l >= 1`) of the layout. -/
theorem dst_coordinate_in_picture (n bs p b y : Int) (l : Nat) (hg : n * bs ≤ p)
    (hb0 : 0 ≤ b) (hb1 : b < n) (hy0 : 0 ≤ y) (hy1 : y < bs >>> l) :
    (0 ≤ b * (bs >>> l) + y ∧ b * (bs >>> l) + y < p) ∧
    (1 ≤ l → 0 ≤ (p >>> l) + b * (bs >>> l) + y ∧ (p >>> l) + b * (bs >>> l) + y < p) := by
  have hbs : 0 < bs := pos_of_shr_pos bs l (by omega)
  have hn : 0 ≤ n := by omega
  have hp : 0 ≤ p := le_trans (mul_nonneg hn hbs.le) hg
  have ht := tile_bound n b (bs >>> l) y hb0 hb1 hy0 hy1
  have h1 : n * (bs >>> l) ≤ (n * bs) >>> l := mul_shr_le n bs l hn
  have h2 : (n * bs) >>> l ≤ p >>> l := shr_mono _ _ l hg
  have h3 : p >>> l ≤ p := shr_le_self p l hp
  have h4 : 0 ≤ p >>> l := shr_nonneg p l hp
  refine ⟨⟨ht.1, by omega⟩, ?_⟩
  intro hl
  have h5 := two_shr_le_self p l hp hl
  constructor <;> omega

/-- C23. In `predict()`, whenever `blocks_in_y*block_size <= pixels_in_y` and
`blocks_in_x*block_size <= pixels_in_x` (as produced by `blocks = pixels / block_size`, also
when the division is inexact), every coordinate written to `prediction_picture[c]` by the LH,
HL, HH and LL copies, for every level and every block, has its row in `[0, pixels_in_y)` and
its column in `[0, pixels_in_x)`. -/
theorem scatter_writes_inside_picture
    (block_overlaping block_size blocks_in_y blocks_in_x pixels_in_y pixels_in_x : Int)
    (components : Nat) (hgy : blocks_in_y * block_size ≤ pixels_in_y)
    (hgx : blocks_in_x * block_size ≤ pixels_in_x) (it : ScatterIter)
    (hit : it ∈ predictScatter block_overlaping block_size blocks_in_y blocks_in_x components) :
    inRect pixels_in_y pixels_in_x (it.dst block_size pixels_in_y pixels_in_x).1
      (it.dst block_size pixels_in_y pixels_in_x).2 := by
  rw [mem_predictScatter] at hit
  obtain ⟨-, hb0, hb1, hd0, hd1, hband, hy0, hy1, hx0, hx1⟩ := hit
  have ry := dst_coordinate_in_picture blocks_in_y block_size pixels_in_y it.by_ it.y it.l hgy
    hb0 hb1 hy0 hy1
  have rx := dst_coordinate_in_picture blocks_in_x block_size pixels_in_x it.bx it.x it.l hgx
    hd0 hd1 hx0 hx1
  unfold inRect
  rcases hband with ⟨hLL, -⟩ | ⟨hne, hl1, -⟩
  · simp only [ScatterIter.dst, hLL]
    exact ⟨ry.1.1, ry.1.2, rx.1.1, rx.1.2⟩
  · have gy := ry.2 hl1
    have gx := rx.2 hl1
    rcases it with ⟨c', b1, b2, l, band, y, x⟩
    cases band
    · exact absurd rfl hne
    · exact ⟨ry.1.1, ry.1.2, gx.1, gx.2⟩
    · exact ⟨gy.1, gy.2, rx.1.1, rx.1.2⟩
    · exact ⟨gy.1, gy.2, gx.1, gx.2⟩

theorem scatter_writes_inside_picture_witness :
    inRect 10 7
      (ScatterIter.dst 3 10 7 ⟨0, 2, 1, 1, Subband.HH, 0, 0⟩).1
      (ScatterIter.dst 3 10 7 ⟨0, 2, 1, 1, Subband.HH, 0, 0⟩).2 :=
  scatter_writes_inside_picture 2 3 3 2 10 7 1 (by decide) (by decide)
    ⟨0, 2, 1, 1, Subband.HH, 0, 0⟩
    (by
      have h : predictLevels 2 = 1 := by simpa using predictLevels_two_pow 1
      rw [mem_predictScatter, h]
      decide)

/-! ## The scratch block is large enough -/

theorem quotient_by_blocks (p b : Int) (hb : 1 ≤ b) (hp : b ≤ p) :
    1 ≤ Int.tdiv p b ∧ b ≤ Int.tdiv p (Int.tdiv p b) ∧
    (b ∣ p → Int.tdiv p (Int.tdiv p b) = b) := by
  have hp0 : 0 ≤ p := by omega
  rw [Int.tdiv_eq_ediv hp0 (by omega)]
  have hq : 1 ≤ p / b := by
    rw [Int.le_ediv_iff_mul_le (by omega)]
    omega
  rw [Int.tdiv_eq_ediv hp0 (by omega)]
  refine ⟨hq, ?_, ?_⟩
  · rw [Int.le_ediv_iff_mul_le (by omega), mul_comm]
    exact Int.ediv_mul_le p (by omega)
  · rintro ⟨k, rfl⟩
    have hbne : b ≠ 0 := by omega
    rw [Int.mul_ediv_cancel_left k hbne]
    have hk : k ≠ 0 := by
      rintro rfl
      omega
    exact Int.mul_ediv_cancel b hk

/-- C24. For every `block_size >= 1` and luma dimensions `pixels_in_y, pixels_in_x >=
block_size` (so `blocks_in_y, blocks_in_x >= 1` and the divisions by them are defined), the
side of the allocation of `prediction_block`, `(pixels / blocks + 2*block_overlaping) <<
subpixel_accuracy` with `blocks = pixels / block_size`, is at least the side
`(block_size << s) + 2*(block_overlaping << s)` that `predict()` fills and transforms, in both
dimensions; the two are equal when `block_size` divides the dimension. -/
theorem scratch_block_large_enough (cfg : Config) (hbs : 1 ≤ cfg.block_size)
    (hy : cfg.block_size ≤ cfg.pixels_in_y0) (hx : cfg.block_size ≤ cfg.pixels_in_x0) :
    1 ≤ cfg.blocks_in_y ∧ 1 ≤ cfg.blocks_in_x ∧
    cfg.enlarged_block_side ≤ cfg.prediction_block_rows ∧
    cfg.enlarged_block_side ≤ cfg.prediction_block_cols ∧
    (cfg.block_size ∣ cfg.pixels_in_y0 → cfg.prediction_block_rows = cfg.enlarged_block_side) ∧
    (cfg.block_size ∣ cfg.pixels_in_x0 → cfg.prediction_block_cols = cfg.enlarged_block_side) := by
  obtain ⟨y1, y2, y3⟩ := quotient_by_blocks cfg.pixels_in_y0 cfg.block_size hbs hy
  obtain ⟨x1, x2, x3⟩ := quotient_by_blocks cfg.pixels_in_x0 cfg.block_size hbs hx
  have hpow : (0 : Int) ≤ 2 ^ cfg.subpixel_accuracy := by positivity
  have hside : cfg.enlarged_block_side
      = (cfg.block_size + cfg.block_overlaping * 2) * 2 ^ cfg.subpixel_accuracy := by
    unfold Config.enlarged_block_side shl
    ring
  unfold Config.prediction_block_rows Config.prediction_block_cols Config.blocks_in_y
    Config.blocks_in_x
  rw [hside]
  unfold shl
  refine ⟨y1, x1, ?_, ?_, ?_, ?_⟩
  · exact mul_le_mul_of_nonneg_right (by omega) hpow
  · exact mul_le_mul_of_nonneg_right (by omega) hpow
  · intro h
    rw [y3 h]
  · intro h
    rw [x3 h]

theorem scratch_block_large_enough_witness :
    oddConfig.enlarged_block_side ≤ oddConfig.prediction_block_rows ∧
    oddConfig.enlarged_block_side ≤ oddConfig.prediction_block_cols :=
  ⟨(scratch_block_large_enough oddConfig (by decide) (by decide) (by decide)).2.2.1,
   (scratch_block_large_enough oddConfig (by decide) (by decide) (by decide)).2.2.2.1⟩

end Decorrelate
